import Mathlib

/-!
# Object-header locking fast paths (HotSpot, SPARC)

A shallow embedding of the code that `MacroAssembler::compiler_lock_object`,
`MacroAssembler::compiler_unlock_object` and `MacroAssembler::biased_locking_enter`
(`src/hotspot/cpu/sparc/macroAssembler_sparc.cpp`) emit.  Every emitted instruction is a
function on a machine state (integer registers, word-addressed memory, the zero bit of
the pointer-width condition code, and a chronological record of the memory writes);
the emitting C++ functions become the composition of these functions in emission order,
with branch delay slots executed as the SPARC V9 architecture prescribes.

The forwarding-pointer functions of `ShenandoahForwarding`
(`src/hotspot/share/gc/shenandoah/shenandoahForwarding.inline.hpp`) are embedded as
functions on the memory; racing calls are followed step by step, a call being cut
between its load of the header and its compare-and-exchange.

The preserved-marks log (`src/hotspot/share/gc/shared/preservedMarks.inline.hpp`) is
embedded with one list per worker stack, the decoding of `markWord::print_on`
(`src/hotspot/share/oops/markOop.cpp`) as the branch it takes, the constant-loading
routines `internal_sethi`, `internal_set` and `set64` as the sequences of mnemonics they
emit, next to the functions that count them, and the ranks of `Monitor::lock_types`
(`src/hotspot/share/runtime/mutex.hpp`) as the integers the enumeration gives them.
-/

namespace Hotspot

/-! ## Machine words -/

/-- Number of values of a machine word: the port is LP64, registers are 64 bits wide. -/
def W : Nat := 2 ^ 64

/-- Conversion of an unsigned 32-bit literal to the C++ type `int` (two's complement),
as happens when a literal such as `0xfffff003` is passed for an `int simm13a` argument. -/
def toInt (u : Nat) : Int :=
  if u % 2 ^ 32 < 2 ^ 31 then (u % 2 ^ 32 : Nat) else ((u % 2 ^ 32 : Nat) : Int) - 2 ^ 32

/-- The 64-bit register value of a sign-extended immediate operand. -/
def immVal (c : Int) : Nat := (c % (2 : Int) ^ 64).toNat

/-- Wrapping 64-bit addition. -/
def wadd (a b : Nat) : Nat := (a + b) % W

/-- Wrapping 64-bit subtraction: `a - b` modulo `2^64`, computed as `(2^64 - b) + a`. -/
def wsub (a b : Nat) : Nat := ((W - b % W) + a) % W

/-! ## Registers, operands, addresses -/

/-- The SPARC V9 integer registers. -/
inductive Register
  | G0 | G1 | G2 | G3 | G4 | G5 | G6 | G7
  | O0 | O1 | O2 | O3 | O4 | O5 | O6 | O7
  | L0 | L1 | L2 | L3 | L4 | L5 | L6 | L7
  | I0 | I1 | I2 | I3 | I4 | I5 | I6 | I7
  deriving DecidableEq, Repr

/-- The always-zero register. -/
abbrev G0 : Register := Register.G0

/-- The register that holds the current `JavaThread*`. -/
abbrev G2_thread : Register := Register.G2

/-- The (biased) stack pointer. -/
abbrev SP : Register := Register.O6

/-- The second source operand of an instruction: a register or a signed immediate. -/
inductive Operand
  | r (reg : Register)
  | i (simm13a : Int)

/-- A base register plus constant displacement. -/
structure Address where
  base : Register
  disp : Int

/-- Branch conditions used by the emitted code; all of them test the zero bit only. -/
inductive Condition
  | equal | notEqual | zero | notZero | always
  deriving DecidableEq, Repr

/-- One entry of the record of memory writes, in program order. -/
inductive Event
  | store (addr val : Nat)
  | cas (addr expected new observed : Nat)
  | membar
  deriving DecidableEq, Repr

/-- Machine state seen by one thread: its registers and condition code, and the memory
it shares with every other thread.  `mem a` is the word stored at byte address `a`;
accesses are assumed aligned, so two accesses either coincide or are disjoint. -/
structure Machine where
  reg : Register → Nat
  mem : Nat → Nat
  zf : Bool
  log : List Event

namespace Machine

/-- Read a register; `G0` reads as zero. -/
def get (s : Machine) (r : Register) : Nat :=
  if r = Register.G0 then 0 else s.reg r

/-- Write a register; writes to `G0` are discarded. -/
def set (s : Machine) (r : Register) (v : Nat) : Machine :=
  if r = Register.G0 then s
  else { s with reg := fun x => if x = r then v else s.reg x }

/-- Value of a second operand. -/
def val (s : Machine) : Operand → Nat
  | Operand.r x => s.get x
  | Operand.i c => immVal c

/-- Effective address of a base-plus-displacement operand. -/
def ea (s : Machine) (a : Address) : Nat := wadd (s.get a.base) (immVal a.disp)

/-- Write one word of memory and record the write. -/
def write (s : Machine) (a v : Nat) : Machine :=
  { s with mem := fun x => if x = a then v else s.mem x,
           log := s.log ++ [Event.store a v] }

end Machine

/-- Whether a branch on the pointer-width condition code is taken. -/
def Condition.holds : Condition → Machine → Bool
  | Condition.equal, s => s.zf
  | Condition.zero, s => s.zf
  | Condition.notEqual, s => !s.zf
  | Condition.notZero, s => !s.zf
  | Condition.always, _ => true

/-- The condition `negate_condition` returns. -/
def negate_condition : Condition → Condition
  | Condition.equal => Condition.notEqual
  | Condition.notEqual => Condition.equal
  | Condition.zero => Condition.notZero
  | Condition.notZero => Condition.zero
  | Condition.always => Condition.always

/-! ## Instructions -/

/-- The instruction `add s1, s2, d`. -/
def add (s1 : Register) (s2 : Operand) (d : Register) (s : Machine) : Machine :=
  s.set d (wadd (s.get s1) (s.val s2))

/-- The instruction `sub s1, s2, d`. -/
def sub (s1 : Register) (s2 : Operand) (d : Register) (s : Machine) : Machine :=
  s.set d (wsub (s.get s1) (s.val s2))

/-- The instruction `and s1, s2, d`. -/
def and3 (s1 : Register) (s2 : Operand) (d : Register) (s : Machine) : Machine :=
  s.set d (s.get s1 &&& s.val s2)

/-- The instruction `or s1, s2, d`. -/
def or3 (s1 : Register) (s2 : Operand) (d : Register) (s : Machine) : Machine :=
  s.set d (s.get s1 ||| s.val s2)

/-- The instruction `xor s1, s2, d`. -/
def xor3 (s1 : Register) (s2 : Operand) (d : Register) (s : Machine) : Machine :=
  s.set d (s.get s1 ^^^ s.val s2)

/-- The instruction `andcc s1, s2, d`: as `and`, and the zero bit reports a zero result. -/
def andcc (s1 : Register) (s2 : Operand) (d : Register) (s : Machine) : Machine :=
  { s.set d (s.get s1 &&& s.val s2) with zf := decide (s.get s1 &&& s.val s2 = 0) }

/-- The instruction `orcc s1, s2, d`. -/
def orcc (s1 : Register) (s2 : Operand) (d : Register) (s : Machine) : Machine :=
  { s.set d (s.get s1 ||| s.val s2) with zf := decide (s.get s1 ||| s.val s2 = 0) }

/-- The instruction `subcc s1, s2, d`. -/
def subcc (s1 : Register) (s2 : Operand) (d : Register) (s : Machine) : Machine :=
  { s.set d (wsub (s.get s1) (s.val s2)) with zf := decide (wsub (s.get s1) (s.val s2) = 0) }

/-- The synthetic instruction `cmp s1, s2`, that is `subcc s1, s2, %g0`. -/
def cmp (s1 : Register) (s2 : Operand) (s : Machine) : Machine := subcc s1 s2 G0 s

/-- The synthetic instruction `btst s2, s1`, that is `andcc s1, s2, %g0`. -/
def btst (s2 : Operand) (s1 : Register) (s : Machine) : Machine := andcc s1 s2 G0 s

/-- The synthetic instruction `mov s2, d`, that is `or %g0, s2, d`. -/
def mov (s2 : Operand) (d : Register) (s : Machine) : Machine := or3 G0 s2 d s

/-- The instruction `nop`. -/
def nop (s : Machine) : Machine := s

/-- Pointer-width load `ld_ptr(a, d)`. -/
def ld_ptr (a : Address) (d : Register) (s : Machine) : Machine :=
  s.set d (s.mem (s.ea a))

/-- Pointer-width store `st_ptr(d, a)`. -/
def st_ptr (d : Register) (a : Address) (s : Machine) : Machine :=
  s.write (s.ea a) (s.get d)

/-- Pointer-width compare-and-swap `cas_ptr(rs1, rs2, rd)` (`casx [rs1], rs2, rd`): the
word at address `rs1` is compared with `rs2`; when they are equal the word is replaced
by `rd`; in both cases `rd` receives the word that was in memory. -/
def cas_ptr (rs1 rs2 rd : Register) (s : Machine) : Machine :=
  let a := s.get rs1
  let old := s.mem a
  let s1 : Machine :=
    { s with mem := if old = s.get rs2 then (fun x => if x = a then s.get rd else s.mem x)
                    else s.mem,
             log := s.log ++ [Event.cas a (s.get rs2) (s.get rd) old] }
  s1.set rd old

/-- The instruction `membar #StoreLoad`; it only orders the thread's own accesses. -/
def membar_StoreLoad (s : Machine) : Machine :=
  { s with log := s.log ++ [Event.membar] }

/-- 32-bit load `ld(a, d)`; the counters are C `int`s. -/
def ld (a : Address) (d : Register) (s : Machine) : Machine :=
  s.set d (s.mem (s.ea a) % 2 ^ 32)

/-- 32-bit store `st(d, a)`. -/
def st (d : Register) (a : Address) (s : Machine) : Machine :=
  s.write (s.ea a) (s.get d % 2 ^ 32)

/-- The synthetic instruction `inc d`, that is `add d, 1, d`. -/
def inc (d : Register) (s : Machine) : Machine := add d (Operand.i 1) d s

/-- The low ten bits of an address literal, `AddressLiteral::low10`. -/
def low10 (addr : Nat) : Nat := addr % 1024

/-- The macro `sethi(addrlit, d)`: `d` receives the address without its low ten bits. -/
def sethi (addr : Nat) (d : Register) (s : Machine) : Machine :=
  s.set d (addr - low10 addr)

/-! ## Constants and layout -/

namespace markWord

/-- Modelled from the spec: `markWord.hpp` is not among the sources.  The lock tag is the
low two bits and the bias bit the third, as the comments of `markWord::print_on`
(`markOop.cpp`) spell out: 11 marked, 10 monitor, 00 stack-locked, 001 neutral,
101 biased. -/
def lock_bits : Nat := 2

/-- Modelled from the spec: the single bias bit above the lock bits (see `lock_bits`). -/
def biased_lock_bits : Nat := 1

/-- Modelled from the spec: mask of the lock tag (see `lock_bits`). -/
def lock_mask_in_place : Nat := 2 ^ lock_bits - 1

/-- Modelled from the spec: mask of bias bit and lock tag (see `lock_bits`). -/
def biased_lock_mask_in_place : Nat := 2 ^ (lock_bits + biased_lock_bits) - 1

/-- Modelled from the spec: tag 00, stack-locked (see `lock_bits`). -/
def locked_value : Nat := 0

/-- Modelled from the spec: tag 01, unlocked (see `lock_bits`). -/
def unlocked_value : Nat := 1

/-- Modelled from the spec: tag 10, inflated monitor (see `lock_bits`). -/
def monitor_value : Nat := 2

/-- Modelled from the spec: tag 11, marked by the collector (see `lock_bits`). -/
def marked_value : Nat := 3

/-- Modelled from the spec: low bits 101, biased (see `lock_bits`). -/
def biased_lock_pattern : Nat := 5

end markWord

/-- Addresses of the statistics counters of a `BiasedLockingCounters` object. -/
structure BiasedLockingCounters where
  total_entry_count_addr : Nat
  biased_lock_entry_count_addr : Nat
  anonymously_biased_lock_entry_count_addr : Nat
  rebiased_lock_entry_count_addr : Nat
  revoked_lock_entry_count_addr : Nat
  fast_path_entry_count_addr : Nat
  slow_path_entry_count_addr : Nat

/-- Declarations the emitted code depends on and that live outside the translated file:
field offsets, the stack bias, the age and epoch masks of the mark word, and the
VM flags that select between code shapes. -/
structure Config where
  /-- `STACK_BIAS` -/
  STACK_BIAS : Nat
  /-- `BasicLock::displaced_header_offset_in_bytes()` -/
  displaced_header_offset_in_bytes : Nat
  /-- `ObjectMonitor::owner_offset_in_bytes()` -/
  owner_offset_in_bytes : Nat
  /-- `ObjectMonitor::recursions_offset_in_bytes()` -/
  recursions_offset_in_bytes : Nat
  /-- `ObjectMonitor::EntryList_offset_in_bytes()` -/
  EntryList_offset_in_bytes : Nat
  /-- `ObjectMonitor::cxq_offset_in_bytes()` -/
  cxq_offset_in_bytes : Nat
  /-- `ObjectMonitor::succ_offset_in_bytes()` -/
  succ_offset_in_bytes : Nat
  /-- `oopDesc::klass_offset_in_bytes()` -/
  klass_offset_in_bytes : Nat
  /-- `Klass::prototype_header_offset()` -/
  prototype_header_offset : Nat
  /-- `markWord::age_mask_in_place` -/
  age_mask_in_place : Nat
  /-- `markWord::epoch_mask_in_place` -/
  epoch_mask_in_place : Nat
  /-- The flag `UseCompressedClassPointers`. -/
  UseCompressedClassPointers : Bool
  /-- What `decode_klass_not_null` computes from a narrow klass. -/
  decode_klass_not_null : Nat → Nat
  /-- The flag `PrintBiasedLockingStatistics`. -/
  PrintBiasedLockingStatistics : Bool
  /-- The global counters `BiasedLocking::counters()`. -/
  BiasedLocking_counters : BiasedLockingCounters
  /-- What `use_cbcond` answers: whether short branches are compare-and-branch. -/
  use_cbcond : Bool
  /-- The default of the parameter `allow_delay_slot_filling` of `biased_locking_exit`. -/
  allow_delay_slot_filling : Bool

/-- The offset `oopDesc::mark_offset_in_bytes()`.  The emitted `cas` addresses the header
through the bare object register, and the source asserts `mark_addr.disp() == 0`. -/
def mark_offset_in_bytes : Int := 0

/-- The macro `OM_OFFSET_NO_MONITOR_VALUE_TAG(f)`: the offset of a monitor field from a
mark word that still carries the monitor tag. -/
def OM_OFFSET_NO_MONITOR_VALUE_TAG (f_offset_in_bytes : Nat) : Int :=
  (f_offset_in_bytes : Int) - (markWord.monitor_value : Int)

/-! ## Statistics counters -/

/-- The code `MacroAssembler::inc_counter` emits. -/
def inc_counter (counter_addr : Nat) (Rtmp1 Rtmp2 : Register) (s : Machine) : Machine :=
  let s := sethi counter_addr Rtmp1 s
  let addr : Address := ⟨Rtmp1, low10 counter_addr⟩
  let s := ld addr Rtmp2 s
  let s := inc Rtmp2 s
  st Rtmp2 addr s

/-- The code `MacroAssembler::cond_inc` emits: a branch around `inc_counter`. -/
def cond_inc (cond : Condition) (counter_ptr : Nat) (Rtmp1 Rtmp2 : Register)
    (s : Machine) : Machine :=
  let negated_cond := negate_condition cond
  -- brx(negated_cond, false, pt, L); delayed()->nop();
  let skip := negated_cond.holds s
  let s := nop s
  if skip then s else inc_counter counter_ptr Rtmp1 Rtmp2 s

/-- The test `is_simm(x, nbits)`: `x` fits a signed field of `nbits` bits. -/
def is_simm (x : Int) (nbits : Nat) : Bool :=
  decide (-(2 : Int) ^ (nbits - 1) ≤ x) && decide (x < (2 : Int) ^ (nbits - 1))

/-- The code `MacroAssembler::cmp_and_brx_short` emits for an immediate operand; the
result says whether the branch is taken.  A compare-and-branch instruction leaves the
condition codes alone, the three-instruction form sets them. -/
def cmp_and_brx_short (c : Config) (s1 : Register) (simm13a : Int) (cond : Condition)
    (s : Machine) : Bool × Machine :=
  if is_simm simm13a 5 && c.use_cbcond then
    let taken := match cond with
      | Condition.equal | Condition.zero => decide (wsub (s.get s1) (immVal simm13a) = 0)
      | Condition.notEqual | Condition.notZero => !decide (wsub (s.get s1) (immVal simm13a) = 0)
      | Condition.always => true
    (taken, s)
  else
    let s := cmp s1 (Operand.i simm13a) s
    let taken := cond.holds s
    (taken, nop s)

/-- The code `MacroAssembler::ba_short` emits; neither form changes the state. -/
def ba_short (s : Machine) : Machine := nop s

/-- The code `MacroAssembler::load_klass` emits. -/
def load_klass (c : Config) (src_oop klass : Register) (s : Machine) : Machine :=
  if c.UseCompressedClassPointers then
    let s := ld ⟨src_oop, c.klass_offset_in_bytes⟩ klass s
    s.set klass (c.decode_klass_not_null (s.get klass))
  else
    ld_ptr ⟨src_oop, c.klass_offset_in_bytes⟩ klass s

/-! ## Biased locking -/

/-- Where control leaves the code of `biased_locking_enter`: at the label `done`, at the
label `slow_case`, or by falling through at `cas_label` into the code that follows. -/
inductive BiasExit
  | done | slow_case | cas_label
  deriving DecidableEq, Repr

/-- The code emitted from `bind(try_rebias)` to the following `ba_short(done)`. -/
def biased_locking_enter_try_rebias (c : Config) (obj_reg mark_reg temp_reg : Register)
    (slow_case : Bool) (counters : Option BiasedLockingCounters) (s : Machine) :
    BiasExit × Machine :=
  let s := load_klass c obj_reg temp_reg s
  let s := ld_ptr ⟨temp_reg, c.prototype_header_offset⟩ temp_reg s
  let s := or3 G2_thread (Operand.r temp_reg) temp_reg s
  let s := cas_ptr obj_reg mark_reg temp_reg s
  let s := cmp mark_reg (Operand.r temp_reg) s
  let s := match counters with
    | some k => cond_inc Condition.zero k.rebiased_lock_entry_count_addr mark_reg temp_reg s
    | none => s
  -- brx(notEqual, true, pn, *slow_case); delayed()->nop();
  if slow_case && Condition.notEqual.holds s then (BiasExit.slow_case, nop s)
  else (BiasExit.done, ba_short s)

/-- The code emitted from `bind(try_revoke_bias)` to `bind(cas_label)`. -/
def biased_locking_enter_try_revoke_bias (c : Config) (obj_reg mark_reg temp_reg : Register)
    (counters : Option BiasedLockingCounters) (s : Machine) : BiasExit × Machine :=
  let s := load_klass c obj_reg temp_reg s
  let s := ld_ptr ⟨temp_reg, c.prototype_header_offset⟩ temp_reg s
  let s := cas_ptr obj_reg mark_reg temp_reg s
  let s := match counters with
    | some k =>
      let s := cmp mark_reg (Operand.r temp_reg) s
      cond_inc Condition.zero k.revoked_lock_entry_count_addr mark_reg temp_reg s
    | none => s
  (BiasExit.cas_label, s)

/-- The code `MacroAssembler::biased_locking_enter` emits.  `slow_case` says whether the
label pointer of that name is non-NULL. -/
def biased_locking_enter (c : Config) (obj_reg mark_reg temp_reg : Register)
    (slow_case : Bool) (counters : Option BiasedLockingCounters) (s : Machine) :
    BiasExit × Machine :=
  let counters :=
    if c.PrintBiasedLockingStatistics then
      match counters with
      | none => some c.BiasedLocking_counters
      | some k => some k
    else counters
  let s := and3 mark_reg (Operand.i markWord.biased_lock_mask_in_place) temp_reg s
  let (taken, s) :=
    cmp_and_brx_short c temp_reg markWord.biased_lock_pattern Condition.notEqual s
  if taken then (BiasExit.cas_label, s) else
  let s := load_klass c obj_reg temp_reg s
  let s := ld_ptr ⟨temp_reg, c.prototype_header_offset⟩ temp_reg s
  let s := or3 G2_thread (Operand.r temp_reg) temp_reg s
  let s := xor3 mark_reg (Operand.r temp_reg) temp_reg s
  let s := andcc temp_reg (Operand.i (-(c.age_mask_in_place : Int) - 1)) temp_reg s
  let s := match counters with
    | some k =>
      let s := cond_inc Condition.equal k.biased_lock_entry_count_addr mark_reg temp_reg s
      ld_ptr ⟨obj_reg, mark_offset_in_bytes⟩ mark_reg s
    | none => s
  -- brx(equal, true, pt, done); delayed()->nop();
  if Condition.equal.holds s then (BiasExit.done, nop s) else
  let s := btst (Operand.i markWord.biased_lock_mask_in_place) temp_reg s
  -- brx(notZero, false, pn, try_revoke_bias); delayed()->btst(epoch_mask_in_place, temp_reg);
  let revoke := Condition.notZero.holds s
  let s := btst (Operand.i c.epoch_mask_in_place) temp_reg s
  if revoke then biased_locking_enter_try_revoke_bias c obj_reg mark_reg temp_reg counters s else
  -- brx(notZero, false, pn, try_rebias); delayed()->and3(mark_reg, ..., mark_reg);
  let rebias := Condition.notZero.holds s
  let s := and3 mark_reg
    (Operand.i ((markWord.biased_lock_mask_in_place ||| c.age_mask_in_place
      ||| c.epoch_mask_in_place : Nat) : Int)) mark_reg s
  if rebias then
    biased_locking_enter_try_rebias c obj_reg mark_reg temp_reg slow_case counters s else
  let s := or3 G2_thread (Operand.r mark_reg) temp_reg s
  let s := cas_ptr obj_reg mark_reg temp_reg s
  let s := cmp mark_reg (Operand.r temp_reg) s
  let s := match counters with
    | some k =>
      cond_inc Condition.zero k.anonymously_biased_lock_entry_count_addr mark_reg temp_reg s
    | none => s
  -- brx(notEqual, true, pn, *slow_case); delayed()->nop();
  if slow_case && Condition.notEqual.holds s then (BiasExit.slow_case, nop s)
  else (BiasExit.done, ba_short s)

/-- The code `MacroAssembler::biased_locking_exit` emits; the result says whether the
branch to `done` is taken.  With `allow_delay_slot_filling` the branch is annulling and
its delay slot is left to the caller (see `compiler_unlock_object`). -/
def biased_locking_exit (mark_addr : Address) (temp_reg : Register)
    (allow_delay_slot_filling : Bool) (s : Machine) : Bool × Machine :=
  let s := ld_ptr mark_addr temp_reg s
  let s := and3 temp_reg (Operand.i markWord.biased_lock_mask_in_place) temp_reg s
  let s := cmp temp_reg (Operand.i markWord.biased_lock_pattern) s
  let taken := Condition.equal.holds s
  (taken, if allow_delay_slot_filling then s else nop s)

/-! ## Stack locking and inflated locking -/

/-- The code emitted from `bind(IsInflated)` to `bind(done)` in `compiler_lock_object`. -/
def compiler_lock_object_IsInflated (c : Config) (Rmark Rbox Rscratch : Register)
    (s : Machine) : Machine :=
  let s := add Rmark (Operand.i (OM_OFFSET_NO_MONITOR_VALUE_TAG c.owner_offset_in_bytes)) Rmark s
  let s := mov (Operand.r G2_thread) Rscratch s
  let s := cas_ptr Rmark G0 Rscratch s
  let s := andcc Rscratch (Operand.r Rscratch) G0 s
  st_ptr Rbox ⟨Rbox, c.displaced_header_offset_in_bytes⟩ s

/-- The code emitted from `bind(Recursive)` to `bind(IsInflated)` in
`compiler_lock_object`; both arms end at `done`. -/
def compiler_lock_object_Recursive (c : Config) (Rmark Rbox Rscratch : Register)
    (counters : Option BiasedLockingCounters) (s : Machine) : Machine :=
  let s := sub Rscratch (Operand.i c.STACK_BIAS) Rscratch s
  let s := sub Rscratch (Operand.r SP) Rscratch s
  let s := andcc Rscratch (Operand.i (toInt 0xfffff003)) Rscratch s
  match counters with
  | some k =>
    let s := st_ptr Rscratch ⟨Rbox, c.displaced_header_offset_in_bytes⟩ s
    let s := cond_inc Condition.equal k.fast_path_entry_count_addr Rmark Rscratch s
    ba_short s
  | none =>
    -- ba(done); delayed()->st_ptr(Rscratch, Rbox, displaced_header_offset_in_bytes());
    st_ptr Rscratch ⟨Rbox, c.displaced_header_offset_in_bytes⟩ s

/-- The code emitted by `compiler_lock_object` from the triage `andcc(Rmark, 2, G0)` on,
entered with the fetched mark in `Rmark`. -/
def compiler_lock_object_triage (c : Config) (Roop Rmark Rbox Rscratch : Register)
    (counters : Option BiasedLockingCounters) (s : Machine) : Machine :=
  let mark_addr : Address := ⟨Roop, mark_offset_in_bytes⟩
  let s := andcc Rmark (Operand.i 2) G0 s
  -- brx(notZero, false, pn, IsInflated); delayed()->mov(0, Rscratch);
  let inflated := Condition.notZero.holds s
  let s := mov (Operand.i 0) Rscratch s
  if inflated then compiler_lock_object_IsInflated c Rmark Rbox Rscratch s else
  let s := or3 Rmark (Operand.i markWord.unlocked_value) Rmark s
  let s := cas_ptr mark_addr.base Rmark Rscratch s
  let s := cmp Rscratch (Operand.r Rmark) s
  -- brx(notZero, false, pn, Recursive); delayed()->st_ptr(Rmark, Rbox, ...);
  let recursive := Condition.notZero.holds s
  let s := st_ptr Rmark ⟨Rbox, c.displaced_header_offset_in_bytes⟩ s
  if recursive then compiler_lock_object_Recursive c Rmark Rbox Rscratch counters s else
  let s := match counters with
    | some k => cond_inc Condition.equal k.fast_path_entry_count_addr Rmark Rscratch s
    | none => s
  -- ba(done); delayed()->st_ptr(Rbox, mark_addr);
  st_ptr Rbox mark_addr s

/-- The code `MacroAssembler::compiler_lock_object` emits (`verify_oop` emits nothing
unless the debugging flag `VerifyOops` is set, and is left out). -/
def compiler_lock_object (c : Config) (Roop Rmark Rbox Rscratch : Register)
    (counters : Option BiasedLockingCounters) (try_bias : Bool) (s : Machine) : Machine :=
  let mark_addr : Address := ⟨Roop, mark_offset_in_bytes⟩
  let s := match counters with
    | some k => inc_counter k.total_entry_count_addr Rmark Rscratch s
    | none => s
  let s := ld_ptr mark_addr Rmark s
  if try_bias then
    match biased_locking_enter c Roop Rmark Rscratch false counters s with
    | (BiasExit.cas_label, s) => compiler_lock_object_triage c Roop Rmark Rbox Rscratch counters s
    | (_, s) => s
  else compiler_lock_object_triage c Roop Rmark Rbox Rscratch counters s

/-- The code emitted from `bind(LStacked)` to `bind(done)` in `compiler_unlock_object`. -/
def compiler_unlock_object_LStacked (Roop Rbox Rscratch : Register) (s : Machine) : Machine :=
  let mark_addr : Address := ⟨Roop, mark_offset_in_bytes⟩
  let s := cas_ptr mark_addr.base Rbox Rscratch s
  cmp Rbox (Operand.r Rscratch) s

/-- The inflated ("1-0") part of `compiler_unlock_object`, from the load of
`recursions` to the last branch to `done`. -/
def compiler_unlock_object_inflated (c : Config) (Rmark Rbox Rscratch : Register)
    (s : Machine) : Machine :=
  let s := ld_ptr ⟨Rmark, OM_OFFSET_NO_MONITOR_VALUE_TAG c.recursions_offset_in_bytes⟩ Rbox s
  let s := orcc Rbox (Operand.r G0) G0 s
  -- brx(notZero, false, pn, done); delayed()->ld_ptr(EntryList, Rscratch);
  let nested := Condition.notZero.holds s
  let s := ld_ptr ⟨Rmark, OM_OFFSET_NO_MONITOR_VALUE_TAG c.EntryList_offset_in_bytes⟩ Rscratch s
  if nested then s else
  let s := ld_ptr ⟨Rmark, OM_OFFSET_NO_MONITOR_VALUE_TAG c.cxq_offset_in_bytes⟩ Rbox s
  let s := orcc Rbox (Operand.r Rscratch) G0 s
  -- brx(zero, false, pt, done); delayed()->st_ptr(G0, owner);
  let uncontended := Condition.zero.holds s
  let s := st_ptr G0 ⟨Rmark, OM_OFFSET_NO_MONITOR_VALUE_TAG c.owner_offset_in_bytes⟩ s
  if uncontended then s else
  let s := membar_StoreLoad s
  let s := ld_ptr ⟨Rmark, OM_OFFSET_NO_MONITOR_VALUE_TAG c.succ_offset_in_bytes⟩ Rscratch s
  let s := andcc Rscratch (Operand.r Rscratch) G0 s
  -- brx(notZero, false, pt, done); delayed()->andcc(G0, G0, G0);
  let has_succ := Condition.notZero.holds s
  let s := andcc G0 (Operand.r G0) G0 s
  if has_succ then s else
  let s := add Rmark (Operand.i (OM_OFFSET_NO_MONITOR_VALUE_TAG c.owner_offset_in_bytes)) Rmark s
  let s := mov (Operand.r G2_thread) Rscratch s
  let s := cas_ptr Rmark G0 Rscratch s
  let s := cmp Rscratch (Operand.r G0) s
  -- brx(notZero, false, pt, done); delayed()->cmp(G0, G0);
  let lost := Condition.notZero.holds s
  let s := cmp G0 (Operand.r G0) s
  if lost then s else
  -- br(always, false, pt, done); delayed()->cmp(G0, 1);
  cmp G0 (Operand.i 1) s

/-- The code `MacroAssembler::compiler_unlock_object` emits. -/
def compiler_unlock_object (c : Config) (Roop Rmark Rbox Rscratch : Register)
    (try_bias : Bool) (s : Machine) : Machine :=
  let mark_addr : Address := ⟨Roop, mark_offset_in_bytes⟩
  let (biased, s) :=
    if try_bias then biased_locking_exit mark_addr Rscratch c.allow_delay_slot_filling s
    else (false, s)
  -- when the branch of biased_locking_exit is annulling, the next instruction sits in its
  -- delay slot and is executed only when the branch is taken
  let in_delay_slot := try_bias && c.allow_delay_slot_filling
  if biased then
    (if in_delay_slot then ld_ptr ⟨Roop, mark_offset_in_bytes⟩ Rmark s else s)
  else
  let s := if in_delay_slot then s else ld_ptr ⟨Roop, mark_offset_in_bytes⟩ Rmark s
  let s := ld_ptr ⟨Rbox, c.displaced_header_offset_in_bytes⟩ Rscratch s
  let s := andcc Rscratch (Operand.r Rscratch) G0 s
  -- brx(zero, false, pn, done); delayed()->nop();
  if Condition.zero.holds s then nop s else
  let s := nop s
  let s := andcc Rmark (Operand.i 2) G0 s
  -- brx(zero, false, pt, LStacked); delayed()->nop();
  if Condition.zero.holds s then compiler_unlock_object_LStacked Roop Rbox Rscratch (nop s) else
  compiler_unlock_object_inflated c Rmark Rbox Rscratch (nop s)

/-! ## Addresses and well-formedness used in the statements -/

/-- Address of the displaced-header slot (`dhw`) of the lock record at `box`. -/
def dhwAddr (c : Config) (box : Nat) : Nat :=
  wadd box (immVal c.displaced_header_offset_in_bytes)

/-- Address of the field at offset `f_offset_in_bytes` of the monitor that the mark
word `mark` (monitor tag included) points to. -/
def fieldAddr (mark : Nat) (f_offset_in_bytes : Nat) : Nat :=
  wadd mark (immVal (OM_OFFSET_NO_MONITOR_VALUE_TAG f_offset_in_bytes))

/-- The register arguments of the lock and unlock code are pairwise distinct and
distinct from the registers with a fixed role. -/
def RegsOK (Roop Rmark Rbox Rscratch : Register) : Prop :=
  [G0, G2_thread, SP, Roop, Rmark, Rbox, Rscratch].Nodup

instance (Roop Rmark Rbox Rscratch : Register) : Decidable (RegsOK Roop Rmark Rbox Rscratch) := by
  unfold RegsOK; infer_instance

/-- The sign-extended immediate `0xfffff003` of the recursion test. -/
def stackMask : Nat := immVal (toInt 0xfffff003)

/-- What the recursion test of `compiler_lock_object` computes from the observed header
`v`: the offset of `v` from the unbiased stack pointer, masked. -/
def stackOffsetBits (c : Config) (sp v : Nat) : Nat :=
  wsub (wsub v (immVal c.STACK_BIAS)) sp &&& stackMask

/-- The observed header `v` points into the stack window of the thread whose stack
pointer is `sp`: its offset from the unbiased stack pointer, in wrapping 64-bit
arithmetic, is below 4096 and has its low two bits clear. -/
def inStackWindow (c : Config) (sp v : Nat) : Prop :=
  wsub (wsub v (immVal c.STACK_BIAS)) sp < 4096 ∧ wsub (wsub v (immVal c.STACK_BIAS)) sp % 4 = 0

instance (c : Config) (sp v : Nat) : Decidable (inStackWindow c sp v) := by
  unfold inStackWindow; infer_instance

/-- The writes `evs` contain a compare-and-swap of some word from null to `thread`, as
an attempt to take ownership of a monitor is. -/
def attemptsOwnerCas (thread : Nat) (evs : List Event) : Prop :=
  ∃ a o, Event.cas a 0 thread o ∈ evs

/-! ## A sample configuration and sample states -/

/-- A sample layout: stack bias `0x7ff`, the displaced header first in the lock record,
monitor fields at increasing offsets, age in bits 3-6 and epoch in bits 8-9. -/
def sampleConfig : Config where
  STACK_BIAS := 0x7ff
  displaced_header_offset_in_bytes := 0
  owner_offset_in_bytes := 16
  recursions_offset_in_bytes := 24
  EntryList_offset_in_bytes := 32
  cxq_offset_in_bytes := 40
  succ_offset_in_bytes := 48
  klass_offset_in_bytes := 8
  prototype_header_offset := 184
  age_mask_in_place := 0x78
  epoch_mask_in_place := 0x300
  UseCompressedClassPointers := false
  decode_klass_not_null := id
  PrintBiasedLockingStatistics := false
  BiasedLocking_counters := ⟨0x9000, 0x9004, 0x9008, 0x900c, 0x9010, 0x9014, 0x9018⟩
  use_cbcond := false
  allow_delay_slot_filling := false

/-- A sample thread state: object at `0x1000` in `I0`, lock record at `0x7000` in `O1`,
stack pointer `0x6001` (so the unbiased stack pointer is `0x6800`), thread `0x4000`;
the memory holds `hdr` in the object header, `dhw` in the record and zero elsewhere. -/
def sampleMachine (hdr dhw : Nat) : Machine where
  reg := fun r =>
    match r with
    | Register.I0 => 0x1000
    | Register.O1 => 0x7000
    | Register.O6 => 0x6001
    | Register.G2 => 0x4000
    | _ => 0
  mem := fun a => if a = 0x1000 then hdr else if a = 0x7000 then dhw else 0
  zf := false
  log := []

/-- A sample thread state for the inflated paths: as `sampleMachine`, with the header
`0x8002` pointing to a monitor at `0x8000` whose fields hold the given values, and a
non-zero displaced header in the lock record. -/
def sampleMonitorMachine (owner recursions entryList cxq succ : Nat) : Machine where
  reg := fun r =>
    match r with
    | Register.I0 => 0x1000
    | Register.O1 => 0x7000
    | Register.O6 => 0x6001
    | Register.G2 => 0x4000
    | _ => 0
  mem := fun a =>
    if a = 0x1000 then 0x8002
    else if a = 0x7000 then 0x7000
    else if a = 0x8010 then owner
    else if a = 0x8018 then recursions
    else if a = 0x8020 then entryList
    else if a = 0x8028 then cxq
    else if a = 0x8030 then succ
    else 0
  zf := false
  log := []

/-! ## Sequences of calls by one thread -/

/-- The caller's set-up on entry to the lock or unlock code: the object in `Roop`, the
lock record in `Rbox`, the current stack pointer in `SP`; everything else as it was. -/
def enter (Roop Rbox : Register) (obj box sp : Nat) (s : Machine) : Machine :=
  { s with reg := fun r =>
      if r = Roop then obj else if r = Rbox then box else if r = SP then sp else s.reg r }

/-- One thread runs the lock code on the object `obj` once for every pair of a lock
record and the stack pointer at that call, in the order of the list. -/
def lockAll (c : Config) (Roop Rmark Rbox Rscratch : Register) (try_bias : Bool) (obj : Nat) :
    List (Nat × Nat) → Machine → Machine
  | [], s => s
  | p :: rest, s =>
    lockAll c Roop Rmark Rbox Rscratch try_bias obj rest
      (compiler_lock_object c Roop Rmark Rbox Rscratch none try_bias
        (enter Roop Rbox obj p.1 p.2 s))

/-- One thread runs the unlock code on the object `obj` once for every pair of a lock
record and the stack pointer at that call, in the order of the list. -/
def unlockAll (c : Config) (Roop Rmark Rbox Rscratch : Register) (try_bias : Bool) (obj : Nat) :
    List (Nat × Nat) → Machine → Machine
  | [], s => s
  | p :: rest, s =>
    unlockAll c Roop Rmark Rbox Rscratch try_bias obj rest
      (compiler_unlock_object c Roop Rmark Rbox Rscratch try_bias
        (enter Roop Rbox obj p.1 p.2 s))

/-! ## Two threads racing on one header

The code of `compiler_lock_object` from the triage on (`compiler_lock_object_triage`,
statistics off) is cut at its accesses to memory: every step below runs the instructions
up to and including the next load, store or compare-and-swap, which is the unit that
another thread can observe.  Steps of two threads on a shared memory are interleaved by
a schedule. -/

/-- The points of the lock code at which a thread can be preempted: before the triage
and its compare-and-swap, after the header CAS, before the store of the record into the
header, at the label `Recursive`, before the store into the record on the inflated path,
and at the label `done`. -/
inductive LockPc
  | triage | afterCas | stHeader | Recursive | inflatedSt | done
  deriving DecidableEq, Repr

/-- One step of the lock code: the instructions from the program point `pc` up to and
including the next access to memory, and the program point reached. -/
def lockStep (c : Config) (Roop Rmark Rbox Rscratch : Register) :
    LockPc → Machine → LockPc × Machine
  | LockPc.triage, s =>
    let mark_addr : Address := ⟨Roop, mark_offset_in_bytes⟩
    let s := andcc Rmark (Operand.i 2) G0 s
    -- brx(notZero, false, pn, IsInflated); delayed()->mov(0, Rscratch);
    let inflated := Condition.notZero.holds s
    let s := mov (Operand.i 0) Rscratch s
    if inflated then
      let s := add Rmark (Operand.i (OM_OFFSET_NO_MONITOR_VALUE_TAG c.owner_offset_in_bytes))
        Rmark s
      let s := mov (Operand.r G2_thread) Rscratch s
      (LockPc.inflatedSt, cas_ptr Rmark G0 Rscratch s)
    else
      let s := or3 Rmark (Operand.i markWord.unlocked_value) Rmark s
      (LockPc.afterCas, cas_ptr mark_addr.base Rmark Rscratch s)
  | LockPc.afterCas, s =>
    let s := cmp Rscratch (Operand.r Rmark) s
    -- brx(notZero, false, pn, Recursive); delayed()->st_ptr(Rmark, Rbox, ...);
    let recursive := Condition.notZero.holds s
    let s := st_ptr Rmark ⟨Rbox, c.displaced_header_offset_in_bytes⟩ s
    (if recursive then LockPc.Recursive else LockPc.stHeader, s)
  | LockPc.stHeader, s =>
    -- ba(done); delayed()->st_ptr(Rbox, mark_addr);
    (LockPc.done, st_ptr Rbox ⟨Roop, mark_offset_in_bytes⟩ s)
  | LockPc.Recursive, s =>
    let s := sub Rscratch (Operand.i c.STACK_BIAS) Rscratch s
    let s := sub Rscratch (Operand.r SP) Rscratch s
    let s := andcc Rscratch (Operand.i (toInt 0xfffff003)) Rscratch s
    -- ba(done); delayed()->st_ptr(Rscratch, Rbox, ...);
    (LockPc.done, st_ptr Rscratch ⟨Rbox, c.displaced_header_offset_in_bytes⟩ s)
  | LockPc.inflatedSt, s =>
    let s := andcc Rscratch (Operand.r Rscratch) G0 s
    (LockPc.done, st_ptr Rbox ⟨Rbox, c.displaced_header_offset_in_bytes⟩ s)
  | LockPc.done, s => (LockPc.done, s)

/-- Run `n` steps of the lock code of one thread without interference. -/
def lockRun (c : Config) (Roop Rmark Rbox Rscratch : Register) :
    Nat → LockPc × Machine → LockPc × Machine
  | 0, x => x
  | n + 1, x => lockRun c Roop Rmark Rbox Rscratch n (lockStep c Roop Rmark Rbox Rscratch x.1 x.2)

/-- The private state of a thread inside the lock code: the registers its code uses for
the four arguments, its register file, its condition code and its program point. -/
structure Thread where
  Roop : Register
  Rmark : Register
  Rbox : Register
  Rscratch : Register
  reg : Register → Nat
  zf : Bool
  pc : LockPc

/-- Two threads (`false` and `true`) and the memory they share. -/
structure System where
  mem : Nat → Nat
  log : List Event
  thread : Bool → Thread

/-- The thread `w` performs its next step on the shared memory. -/
def System.step (c : Config) (σ : System) (w : Bool) : System :=
  let t := σ.thread w
  let r := lockStep c t.Roop t.Rmark t.Rbox t.Rscratch t.pc ⟨t.reg, σ.mem, t.zf, σ.log⟩
  { mem := r.2.mem
    log := r.2.log
    thread := fun i =>
      if i = w then { t with reg := r.2.reg, zf := r.2.zf, pc := r.1 } else σ.thread i }

/-- The threads step in the order the schedule gives. -/
def System.run (c : Config) (σ : System) (sched : List Bool) : System :=
  sched.foldl (System.step c) σ

/-- Whether an entry of the write record changed the word at address `a`: a store to
`a`, or a compare-and-swap on `a` that observed the value it expected. -/
def changesAt (a : Nat) : Event → Bool
  | Event.store x _ => decide (x = a)
  | Event.cas x e _ o => decide (x = a) && decide (e = o)
  | Event.membar => false

/-- The setting of a race of two threads for the header of the object at `obj` holding
the mark `m`; thread `i` uses the lock record at `box i` and has stack pointer `sp i`. -/
structure RaceOK (c : Config) (obj m : Nat) (box sp : Bool → Nat) : Prop where
  /-- The object address is a machine word. -/
  obj_lt : obj < W
  /-- The mark is a machine word. -/
  mark_lt : m < W
  /-- The mark is neutral: its lock bits are 01. -/
  neutral : m % 4 = 1
  /-- The record addresses are machine words. -/
  box_lt : ∀ i, box i < W
  /-- The lock records are word-aligned. -/
  box_aligned : ∀ i, box i % 4 = 0
  /-- No record slot is the header word. -/
  box_sep : ∀ i, dhwAddr c (box i) ≠ obj
  /-- The two threads use different records. -/
  box_distinct : dhwAddr c (box false) ≠ dhwAddr c (box true)
  /-- The null pointer, which the header holds transiently, lies in no stack window. -/
  null_outside : ∀ i, ¬ inStackWindow c (sp i) 0
  /-- The threads are distinct: the record of one lies outside the other's stack window. -/
  other_outside : ∀ i, ¬ inStackWindow c (sp i) (box (!i))

/-- Both threads have fetched the mark `m` of the object at `obj`, which still is in the
header, and stand before the triage. -/
def RaceStart (obj m : Nat) (box sp : Bool → Nat) (σ : System) : Prop :=
  σ.mem obj = m ∧
  ∀ i, RegsOK (σ.thread i).Roop (σ.thread i).Rmark (σ.thread i).Rbox (σ.thread i).Rscratch ∧
    (σ.thread i).pc = LockPc.triage ∧
    (σ.thread i).reg (σ.thread i).Roop = obj ∧
    (σ.thread i).reg (σ.thread i).Rmark = m ∧
    (σ.thread i).reg (σ.thread i).Rbox = box i ∧
    (σ.thread i).reg SP = sp i

/-- What stays true of the arguments of both threads throughout the race. -/
def ArgsInv (obj : Nat) (box sp : Bool → Nat) (σ : System) : Prop :=
  ∀ i, RegsOK (σ.thread i).Roop (σ.thread i).Rmark (σ.thread i).Rbox (σ.thread i).Rscratch ∧
    (σ.thread i).reg (σ.thread i).Roop = obj ∧
    (σ.thread i).reg (σ.thread i).Rbox = box i ∧
    (σ.thread i).reg SP = sp i

/-- The progress of the thread whose header CAS succeeded: it holds the observed mark,
then has saved it in its record, then has put its record into the header. -/
def WinnerInv (c : Config) (obj m boxw : Nat) (base : List Event)
    (mem : Nat → Nat) (log : List Event) (t : Thread) : Prop :=
  (t.pc = LockPc.afterCas ∧ t.reg t.Rscratch = m ∧ t.reg t.Rmark = m ∧ mem obj = 0 ∧
    log.filter (changesAt obj) = base ++ [Event.cas obj m 0 m]) ∨
  (t.pc = LockPc.stHeader ∧ t.zf = true ∧ mem obj = 0 ∧ mem (dhwAddr c boxw) = m ∧
    log.filter (changesAt obj) = base ++ [Event.cas obj m 0 m]) ∨
  (t.pc = LockPc.done ∧ t.zf = true ∧ mem obj = boxw ∧ mem (dhwAddr c boxw) = m ∧
    log.filter (changesAt obj) = base ++ [Event.cas obj m 0 m, Event.store obj boxw])

/-- The progress of the other thread: before its CAS, after its failed CAS, in the
recursion test, and finished with a failure. -/
def LoserInv (c : Config) (m boxw boxl : Nat) (mem : Nat → Nat) (t : Thread) : Prop :=
  (t.pc = LockPc.triage ∧ t.reg t.Rmark = m) ∨
  (t.pc = LockPc.afterCas ∧ t.reg t.Rmark = m ∧
    (t.reg t.Rscratch = 0 ∨ t.reg t.Rscratch = boxw)) ∨
  (t.pc = LockPc.Recursive ∧ (t.reg t.Rscratch = 0 ∨ t.reg t.Rscratch = boxw)) ∨
  (t.pc = LockPc.done ∧ t.zf = false ∧ mem (dhwAddr c boxl) ≠ 0)

/-- The invariant of the race once the thread `w` has won the header CAS. -/
def RaceInv (c : Config) (obj m : Nat) (box sp : Bool → Nat) (base : List Event) (w : Bool)
    (σ : System) : Prop :=
  ArgsInv obj box sp σ ∧
  WinnerInv c obj m (box w) base σ.mem σ.log (σ.thread w) ∧
  LoserInv c m (box w) (box (!w)) σ.mem (σ.thread (!w))

/-- Number of steps a thread at the program point `pc` has left at most. -/
def LockPc.rank : LockPc → Nat
  | LockPc.triage => 3
  | LockPc.afterCas => 2
  | LockPc.stHeader => 1
  | LockPc.Recursive => 1
  | LockPc.inflatedSt => 1
  | LockPc.done => 0

/-- A sample race: the object at `0x1000` holds the neutral mark `0x29`; thread `false`
uses the record at `0x7000` with stack pointer `0x6001`, thread `true` the record at
`0x17000` with stack pointer `0x16001`; both have the object in `I0`, the fetched mark
in `O7` and their record in `O1`. -/
def sampleRace : System where
  mem := fun a => if a = 0x1000 then 0x29 else 0
  log := []
  thread := fun i =>
    { Roop := Register.I0
      Rmark := Register.O7
      Rbox := Register.O1
      Rscratch := Register.L0
      reg := fun r =>
        match r with
        | Register.I0 => 0x1000
        | Register.O7 => 0x29
        | Register.O1 => if i then 0x17000 else 0x7000
        | Register.O6 => if i then 0x16001 else 0x6001
        | Register.G2 => if i then 0x14000 else 0x4000
        | _ => 0
      zf := false
      pc := LockPc.triage }

/-! ## The contended exit from an inflated lock, cut at its memory accesses -/

/-- The code of `compiler_unlock_object` from `add(Rmark, owner, Rmark)` to the last
branch to `done`: the attempt to take the monitor back after `succ` was seen null. -/
def compiler_unlock_object_reacquire (c : Config) (Rmark Rscratch : Register)
    (s : Machine) : Machine :=
  let s := add Rmark (Operand.i (OM_OFFSET_NO_MONITOR_VALUE_TAG c.owner_offset_in_bytes)) Rmark s
  let s := mov (Operand.r G2_thread) Rscratch s
  let s := cas_ptr Rmark G0 Rscratch s
  let s := cmp Rscratch (Operand.r G0) s
  -- brx(notZero, false, pt, done); delayed()->cmp(G0, G0);
  let lost := Condition.notZero.holds s
  let s := cmp G0 (Operand.r G0) s
  if lost then s else
  -- br(always, false, pt, done); delayed()->cmp(G0, 1);
  cmp G0 (Operand.i 1) s

/-- The code of `compiler_unlock_object` from `membar(StoreLoad)` on: the barrier, the
load of `succ`, and the re-acquisition when `succ` is null. -/
def compiler_unlock_object_recheck (c : Config) (Rmark Rscratch : Register)
    (s : Machine) : Machine :=
  let s := membar_StoreLoad s
  let s := ld_ptr ⟨Rmark, OM_OFFSET_NO_MONITOR_VALUE_TAG c.succ_offset_in_bytes⟩ Rscratch s
  let s := andcc Rscratch (Operand.r Rscratch) G0 s
  -- brx(notZero, false, pt, done); delayed()->andcc(G0, G0, G0);
  let has_succ := Condition.notZero.holds s
  let s := andcc G0 (Operand.r G0) G0 s
  if has_succ then s else compiler_unlock_object_reacquire c Rmark Rscratch s

/-! ## Vocabulary of the biased-locking statements -/

namespace markWord

/-- Modelled from the spec: `markWord::has_bias_pattern` (`markWord.hpp` is not among the
sources): the low three bits of the mark are the bias pattern. -/
def has_bias_pattern (m : Nat) : Prop := m &&& biased_lock_mask_in_place = biased_lock_pattern

instance (m : Nat) : Decidable (has_bias_pattern m) := by
  unfold has_bias_pattern; infer_instance

end markWord

/-- The klass of the object at `obj`, as `load_klass` reads it from the memory `mem`. -/
def klassOf (c : Config) (mem : Nat → Nat) (obj : Nat) : Nat :=
  if c.UseCompressedClassPointers then
    c.decode_klass_not_null (mem (wadd obj (immVal c.klass_offset_in_bytes)) % 2 ^ 32)
  else mem (wadd obj (immVal c.klass_offset_in_bytes))

/-- The prototype header of the class of the object at `obj`: the word the emitted code
loads from `Klass::prototype_header_offset()` in the object's klass. -/
def prototype_header (c : Config) (mem : Nat → Nat) (obj : Nat) : Nat :=
  mem (wadd (klassOf c mem obj) (immVal c.prototype_header_offset))

/-- The bits of a biased mark that do not name the owner: lock and bias bits, age and
epoch.  This is the mask of the `and3` in the delay slot of the epoch test. -/
def biasStateMask (c : Config) : Nat :=
  markWord.biased_lock_mask_in_place ||| c.age_mask_in_place ||| c.epoch_mask_in_place

/-- Two words agree on every bit outside `mask`. -/
def agreeOutside (mask a b : Nat) : Prop := a ||| mask = b ||| mask

instance (mask a b : Nat) : Decidable (agreeOutside mask a b) := by
  unfold agreeOutside; infer_instance

/-- Facts about the layout of the mark word (the masks are parameters, `markWord.hpp`
is not among the sources) and about thread pointers that `biased_locking_enter` relies
on: the age and epoch fields lie above the three low bits and do not overlap (the source
asserts `age_shift == lock_bits + biased_lock_bits`), the masks fit a 13-bit immediate,
and a thread pointer is aligned so that its low bits, where lock, bias, age and epoch
live, are zero (the source comment: "the runtime guarantees sufficient alignment of
JavaThread pointers to allow age to be placed into low bits"). -/
structure BiasLayout (c : Config) (thread : Nat) : Prop where
  age_low : c.age_mask_in_place &&& markWord.biased_lock_mask_in_place = 0
  age_epoch : c.age_mask_in_place &&& c.epoch_mask_in_place = 0
  state_simm13 : biasStateMask c < 4096
  thread_word : thread < W
  thread_aligned : thread &&& biasStateMask c = 0

instance (c : Config) (thread : Nat) : Decidable (BiasLayout c thread) :=
  decidable_of_iff
    (c.age_mask_in_place &&& markWord.biased_lock_mask_in_place = 0 ∧
      c.age_mask_in_place &&& c.epoch_mask_in_place = 0 ∧
      biasStateMask c < 4096 ∧ thread < W ∧ thread &&& biasStateMask c = 0)
    ⟨fun h => ⟨h.1, h.2.1, h.2.2.1, h.2.2.2.1, h.2.2.2.2⟩,
      fun h => ⟨h.age_low, h.age_epoch, h.state_simm13, h.thread_word, h.thread_aligned⟩⟩

/-- A sample state for biased locking: as `sampleMachine` with header `hdr`, and with
the object's klass field (at `0x1008`) naming a klass at `0x2000` whose prototype
header (at `0x20b8`) is `proto`. -/
def sampleBiasMachine (hdr proto : Nat) : Machine where
  reg := fun r =>
    match r with
    | Register.I0 => 0x1000
    | Register.O1 => 0x7000
    | Register.O6 => 0x6001
    | Register.G2 => 0x4000
    | Register.O7 => hdr
    | _ => 0
  mem := fun a =>
    if a = 0x1000 then hdr
    else if a = 0x1008 then 0x2000
    else if a = 0x20b8 then proto
    else 0
  zf := false
  log := []

/-! ## Counting compare-and-swaps -/

/-- Whether an entry of the write record is a compare-and-swap. -/
def Event.isCas : Event → Bool
  | Event.cas _ _ _ _ => true
  | _ => false

/-- Number of compare-and-swaps in a write record. -/
def casCount (evs : List Event) : Nat := evs.countP Event.isCas

/-- Whether the write record `evs` contains a compare-and-swap that did not find the
value it expected. -/
def failedCas (evs : List Event) : Prop :=
  ∃ a e n o, Event.cas a e n o ∈ evs ∧ o ≠ e

/-! ## The branches of `biased_locking_enter` in emission order -/

/-- The labels the code of `biased_locking_enter` branches to: its own labels, the
caller's `done` and `slow_case`, and the local label `L` of the `n`-th `cond_inc`. -/
inductive Label
  | cas_label | try_revoke_bias | try_rebias | done | slow_case | L (n : Nat)
  deriving DecidableEq, Repr

/-- A branch instruction or the binding of a label. -/
inductive Flow
  | branch (target : Label)
  | bind (l : Label)
  deriving DecidableEq, Repr

/-- The branch and the label binding `MacroAssembler::cond_inc` emits. -/
def cond_inc_flow (n : Nat) : List Flow := [Flow.branch (Label.L n), Flow.bind (Label.L n)]

/-- The branches and label bindings `MacroAssembler::biased_locking_enter` emits, in
emission order; `slow_case` and `counters` say whether those pointers are non-NULL.
(`cmp_and_brx_short` and `ba_short` emit one branch in either of their forms;
`load_klass` and `inc_counter` emit none.) -/
def biased_locking_enter_flow (slow_case counters : Bool) : List Flow :=
  [Flow.branch Label.cas_label]
  ++ (if counters then cond_inc_flow 0 else [])
  ++ [Flow.branch Label.done, Flow.branch Label.try_revoke_bias, Flow.branch Label.try_rebias]
  ++ (if counters then cond_inc_flow 1 else [])
  ++ (if slow_case then [Flow.branch Label.slow_case] else [])
  ++ [Flow.branch Label.done]
  ++ [Flow.bind Label.try_rebias]
  ++ (if counters then cond_inc_flow 2 else [])
  ++ (if slow_case then [Flow.branch Label.slow_case] else [])
  ++ [Flow.branch Label.done]
  ++ [Flow.bind Label.try_revoke_bias]
  ++ (if counters then cond_inc_flow 3 else [])
  ++ [Flow.bind Label.cas_label]

/-- No branch is emitted after the binding of its target: every branch goes forward. -/
def forwardOnly : List Flow → Bool
  | [] => true
  | Flow.bind l :: rest => !rest.contains (Flow.branch l) && forwardOnly rest
  | Flow.branch _ :: rest => forwardOnly rest

/-! ## The forwarding pointer in the mark word (Shenandoah) -/

namespace markWord

/-- Modelled from the spec: `markWord::is_marked` (`markWord.hpp` is not among the
sources): the lock bits are the tag 11, as the comment in `markWord::print_on` says. -/
def is_marked (m : Nat) : Bool := decide (m &&& lock_mask_in_place = marked_value)

/-- Modelled from the spec: `markWord::clear_lock_bits`, the mark with its two lock bits
cleared ("strip tag to recover a raw pointer"), as a 64-bit word. -/
def clear_lock_bits (m : Nat) : Nat := m &&& (W - 1 - lock_mask_in_place)

/-- Modelled from the spec: `markWord::to_pointer`, the word read as a pointer. -/
def to_pointer (m : Nat) : Nat := m

/-- Modelled from the spec: `markWord::encode_pointer_as_mark`, the pointer with the
tag "marked" in its lock bits. -/
def encode_pointer_as_mark (p : Nat) : Nat := (p &&& (W - 1 - lock_mask_in_place)) ||| marked_value

end markWord

/-- Modelled from the spec: `oopDesc::mark_raw`, the header word of the object at `obj`
(the mark is the first word of an object). -/
def mark_raw (mem : Nat → Nat) (obj : Nat) : Nat := mem obj

/-- Modelled from the spec: `oopDesc::cas_set_mark_raw(new_mark, old_mark)`, an atomic
compare-and-exchange on the header that returns the value it found. -/
def cas_set_mark_raw (mem : Nat → Nat) (obj new_mark old_mark : Nat) : Nat × (Nat → Nat) :=
  (mem obj, if mem obj = old_mark then (fun x => if x = obj then new_mark else mem x) else mem)

namespace ShenandoahForwarding

/-- The function `ShenandoahForwarding::get_forwardee_raw_unchecked`. -/
def get_forwardee_raw_unchecked (mem : Nat → Nat) (obj : Nat) : Nat :=
  let mark := mark_raw mem obj
  if markWord.is_marked mark then markWord.to_pointer (markWord.clear_lock_bits mark)
  else obj

/-- The function `ShenandoahForwarding::get_forwardee` (the assertion
`shenandoah_assert_correct` is left out). -/
def get_forwardee (mem : Nat → Nat) (obj : Nat) : Nat := get_forwardee_raw_unchecked mem obj

/-- The function `ShenandoahForwarding::is_forwarded`. -/
def is_forwarded (mem : Nat → Nat) (obj : Nat) : Bool := markWord.is_marked (mark_raw mem obj)

/-- The part of `ShenandoahForwarding::try_update_forwardee` after the load of the
header: the compare-and-exchange against the loaded `old_mark`, on the memory as it is
when the exchange executes, and the choice of the result. -/
def try_update_forwardee_cas (mem : Nat → Nat) (obj update old_mark : Nat) :
    Nat × (Nat → Nat) :=
  let new_mark := markWord.encode_pointer_as_mark update
  let (prev_mark, mem) := cas_set_mark_raw mem obj new_mark old_mark
  if prev_mark = old_mark then (update, mem)
  else (markWord.to_pointer (markWord.clear_lock_bits prev_mark), mem)

/-- The function `ShenandoahForwarding::try_update_forwardee`, run without interference
between its load and its compare-and-exchange; it returns the forwardee and the
memory. -/
def try_update_forwardee (mem : Nat → Nat) (obj update : Nat) : Nat × (Nat → Nat) :=
  let old_mark := mark_raw mem obj
  if markWord.is_marked old_mark then
    (markWord.to_pointer (markWord.clear_lock_bits old_mark), mem)
  else try_update_forwardee_cas mem obj update old_mark

/-- Where one call of `try_update_forwardee` stands: not started, between its load of
`old_mark` and its compare-and-exchange, or returned with a result. -/
inductive CallPc
  | start
  | loaded (old_mark : Nat)
  | returned (result : Nat)
  deriving DecidableEq, Repr

/-- One atomic step of a call of `try_update_forwardee(obj, update)`: the load of the
header with the test `is_marked`, or the compare-and-exchange with what follows it. -/
def callStep (obj update : Nat) (pc : CallPc) (mem : Nat → Nat) : CallPc × (Nat → Nat) :=
  match pc with
  | CallPc.start =>
    let old_mark := mark_raw mem obj
    if markWord.is_marked old_mark then
      (CallPc.returned (markWord.to_pointer (markWord.clear_lock_bits old_mark)), mem)
    else (CallPc.loaded old_mark, mem)
  | CallPc.loaded old_mark =>
    let r := try_update_forwardee_cas mem obj update old_mark
    (CallPc.returned r.1, r.2)
  | CallPc.returned result => (CallPc.returned result, mem)

/-- Calls of `try_update_forwardee` on one object, numbered, sharing the memory. -/
structure Calls where
  mem : Nat → Nat
  pc : Nat → CallPc

/-- The call numbered `i`, with candidate `update i`, takes its next step. -/
def Calls.step (obj : Nat) (update : Nat → Nat) (σ : Calls) (i : Nat) : Calls :=
  { mem := (callStep obj (update i) (σ.pc i) σ.mem).2,
    pc := fun j => if j = i then (callStep obj (update i) (σ.pc i) σ.mem).1 else σ.pc j }

/-- The calls take steps in the order of the schedule. -/
def Calls.run (obj : Nat) (update : Nat → Nat) (σ : Calls) : List Nat → Calls
  | [] => σ
  | i :: rest => Calls.run obj update (Calls.step obj update σ i) rest

/-- What holds at every moment of racing calls on an object whose header was the
unmarked `h0` when they started: a call between its load and its exchange has loaded
`h0`; the header is `h0` or the encoding of one of the candidates; a call that has
returned has returned the forwardee in the header; no other word has changed. -/
def ForwardInv (obj h0 : Nat) (update : Nat → Nat) (mem0 : Nat → Nat) (σ : Calls) : Prop :=
  (∀ i old, σ.pc i = CallPc.loaded old → old = h0) ∧
  (∀ i r, σ.pc i = CallPc.returned r →
    σ.mem obj = markWord.encode_pointer_as_mark r ∧ ∃ k, r = update k) ∧
  (σ.mem obj = h0 ∨ ∃ k, σ.mem obj = markWord.encode_pointer_as_mark (update k)) ∧
  (∀ x, x ≠ obj → σ.mem x = mem0 x)

/-- Number of steps a call still has to take. -/
def CallPc.rank : CallPc → Nat
  | CallPc.start => 2
  | CallPc.loaded _ => 1
  | CallPc.returned _ => 0

/-- Three calls on the object at `0x1000` with the neutral header `0x29`; the candidates
are `0x2000` for call 0 and `0x3000` for every other call. -/
def sampleCalls : Calls where
  mem := fun a => if a = 0x1000 then 0x29 else 0
  pc := fun _ => CallPc.start

/-- The candidates of `sampleCalls`. -/
def sampleUpdate (i : Nat) : Nat := if i = 0 then 0x2000 else 0x3000

end ShenandoahForwarding

/-! ## Reading the forwardee -/

namespace ShenandoahForwarding

/-- The function `ShenandoahForwarding::get_forwardee_raw` (the assertion
`shenandoah_assert_in_heap` is left out).  Like `get_forwardee`, it takes the memory and
returns a pointer only: the source contains no store. -/
def get_forwardee_raw (mem : Nat → Nat) (obj : Nat) : Nat := get_forwardee_raw_unchecked mem obj

/-- A memory in which a thread other than the collector has stack-locked the object at
`0x1000` since its neutral header `0x29` was read: the header is the lock record
pointer `0x7000`. -/
def sampleLockedMemory : Nat → Nat := fun a => if a = 0x1000 then 0x7000 else 0

end ShenandoahForwarding

/-! ## Decoding the mark word -/

namespace markWord

/-- Modelled from the spec: `markWord::has_monitor` (`markWord.hpp` is not among the
sources): the monitor bit of the lock tag is set.  On a word that is not marked this is
the tag 10 of the comment in `markWord::print_on`. -/
def has_monitor (m : Nat) : Bool := decide (m &&& monitor_value ≠ 0)

/-- Modelled from the spec: `markWord::is_locked`: the lock tag is not 01, as the comment
in `markWord::print_on` says ("last bits != 01"). -/
def is_locked (m : Nat) : Bool := decide (m &&& lock_mask_in_place ≠ unlocked_value)

/-- Modelled from the spec: `markWord::is_neutral`: the low three bits are 001, as the
comment in `markWord::print_on` says. -/
def is_neutral (m : Nat) : Bool := decide (m &&& biased_lock_mask_in_place = unlocked_value)

/-- The branch of `markWord::print_on` that prints the word. -/
inductive Interpretation
  | marked | monitor | locked | neutral | biased | unknown
  deriving DecidableEq, Repr

/-- The decoding of `markWord::print_on`: the tests in the order of the source; `unknown`
is the branch that prints "??". -/
def print_on (m : Nat) : Interpretation :=
  if is_marked m then Interpretation.marked
  else if has_monitor m then Interpretation.monitor
  else if is_locked m then Interpretation.locked
  else if is_neutral m then Interpretation.neutral
  else if has_bias_pattern m then Interpretation.biased
  else Interpretation.unknown

end markWord

/-! ## The preserved-marks log -/

/-- Modelled from the spec: `oopDesc::set_mark_raw(m)`, a plain store of the header word
of the object at `obj`. -/
def set_mark_raw (mem : Nat → Nat) (obj m : Nat) : Nat → Nat :=
  fun x => if x = obj then m else mem x

/-- An entry `OopAndMarkWord` of a preserved-marks stack: the object and its saved
mark. -/
structure OopAndMarkWord where
  o : Nat
  m : Nat
  deriving DecidableEq, Repr

/-- The function `OopAndMarkWord::set_mark`: `_o->set_mark_raw(_m)`. -/
def OopAndMarkWord.set_mark (e : OopAndMarkWord) (mem : Nat → Nat) : Nat → Nat :=
  set_mark_raw mem e.o e.m

namespace PreservedMarks

/-- The function `PreservedMarks::should_preserve_mark`.  The predicate
`markWord::must_be_preserved_for_promotion_failure` is declared outside the translated
files and is a parameter; it takes the mark and the object. -/
def should_preserve_mark (must_be_preserved_for_promotion_failure : Nat → Nat → Bool)
    (obj m : Nat) : Bool :=
  must_be_preserved_for_promotion_failure m obj

/-- The function `PreservedMarks::push` on the stack of one worker, top first.  The
result is `none` when the assertion of the pre-condition fails. -/
def push (must_be_preserved_for_promotion_failure : Nat → Nat → Bool)
    (stack : List OopAndMarkWord) (obj m : Nat) : Option (List OopAndMarkWord) :=
  if should_preserve_mark must_be_preserved_for_promotion_failure obj m then
    let elem : OopAndMarkWord := ⟨obj, m⟩
    some (elem :: stack)
  else none

/-- The function `PreservedMarks::push_if_necessary` on the stack of one worker. -/
def push_if_necessary (must_be_preserved_for_promotion_failure : Nat → Nat → Bool)
    (stack : List OopAndMarkWord) (obj m : Nat) : Option (List OopAndMarkWord) :=
  if should_preserve_mark must_be_preserved_for_promotion_failure obj m then
    push must_be_preserved_for_promotion_failure stack obj m
  else some stack

end PreservedMarks

/-- A `PreservedMarksSet`: `num` worker stacks, `get i` the stack of worker `i`, top
first. -/
structure PreservedMarksSet where
  num : Nat
  get : Nat → List OopAndMarkWord

/-- A call `get(worker)->push_if_necessary(obj, m)` made during a collection pass. -/
structure PushCall where
  worker : Nat
  obj : Nat
  m : Nat
  deriving DecidableEq, Repr

/-- What the collector, the restoring workers and the counter of `restore` share while
the marks are restored. -/
structure RestoreState where
  set : PreservedMarksSet
  mem : Nat → Nat
  total_size : Nat

namespace PreservedMarksSet

/-- A set of `num` empty stacks, as at the start of a collection pass. -/
def init (num : Nat) : PreservedMarksSet := ⟨num, fun _ => []⟩

/-- The call `get(worker)->push_if_necessary(obj, m)`. -/
def push_if_necessary (must_be_preserved_for_promotion_failure : Nat → Nat → Bool)
    (set : PreservedMarksSet) (call : PushCall) : Option PreservedMarksSet :=
  (PreservedMarks.push_if_necessary must_be_preserved_for_promotion_failure
      (set.get call.worker) call.obj call.m).map
    (fun stack => ⟨set.num, Function.update set.get call.worker stack⟩)

/-- A sequence of calls of `push_if_necessary` on the stacks of a set, in order. -/
def push_calls (must_be_preserved_for_promotion_failure : Nat → Nat → Bool) :
    PreservedMarksSet → List PushCall → Option PreservedMarksSet
  | set, [] => some set
  | set, call :: rest =>
    (push_if_necessary must_be_preserved_for_promotion_failure set call).bind
      (fun set => push_calls must_be_preserved_for_promotion_failure set rest)

/-- The loop `for (i = 0; i < n; i += 1) total_size_before += get(i)->size()` of
`PreservedMarksSet::restore`. -/
def sizes (get : Nat → List OopAndMarkWord) : Nat → Nat
  | 0 => 0
  | n + 1 => sizes get n + (get n).length

/-- Modelled from the spec: `PreservedMarksSet::assert_empty`, which asserts of each of
the first `n` stacks that it is empty. -/
def assert_empty (get : Nat → List OopAndMarkWord) : Nat → Bool
  | 0 => true
  | n + 1 => assert_empty get n && (get n).isEmpty

/-- Modelled from the spec: one step of the restoring worker `i`: it pops the top entry
of its stack, writes the saved mark back into the header of the entry's object
(`OopAndMarkWord::set_mark`) and counts the entry. -/
def restore_one (σ : RestoreState) (i : Nat) : RestoreState :=
  if i < σ.set.num then
    match σ.set.get i with
    | [] => σ
    | e :: rest =>
      { set := ⟨σ.set.num, Function.update σ.set.get i rest⟩,
        mem := e.set_mark σ.mem,
        total_size := σ.total_size + 1 }
  else σ

/-- Modelled from the spec: the restoring worker `i` pops every entry of its stack. -/
def restore_stack (σ : RestoreState) (i : Nat) : RestoreState :=
  (List.replicate (σ.set.get i).length i).foldl restore_one σ

/-- Modelled from the spec: `RestorePreservedMarksTaskExecutor::restore`, which pops every
entry across all worker stacks and writes the saved marks back.  The workers take
their steps in the order of `sched`; whatever the schedule leaves is then popped
stack by stack, so that every entry is popped under every schedule. -/
def executor_restore (sched : List Nat) (σ : RestoreState) : RestoreState :=
  let σ := sched.foldl restore_one σ
  (List.range σ.set.num).foldl restore_stack σ

/-- The function `PreservedMarksSet::restore` of a debug build, for a given executor;
the result is `none` when one of its two assertions fails. -/
def restore (executor : RestoreState → RestoreState) (set : PreservedMarksSet)
    (mem : Nat → Nat) : Option RestoreState :=
  let total_size := 0
  let total_size_before := sizes set.get set.num
  let σ := executor ⟨set, mem, total_size⟩
  if assert_empty σ.set.get σ.set.num then
    if σ.total_size = total_size_before then some σ else none
  else none

/-- The pushes of a sample pass with two workers: the object at `0x1000` with the biased
mark `0x4005` by worker 0, the object at `0x1010` with the neutral mark `0x1` by worker
1 (not preserved), the object at `0x1020` with the stack-locked mark `0x7000` by
worker 1. -/
def samplePushes : List PushCall := [⟨0, 0x1000, 0x4005⟩, ⟨1, 0x1010, 0x1⟩, ⟨1, 0x1020, 0x7000⟩]

/-- A sample of the predicate `must_be_preserved_for_promotion_failure`: every mark but
the neutral mark without hash and age, `0x1`, is preserved. -/
def sampleMustPreserve (m _obj : Nat) : Bool := decide (m ≠ 1)

/-- A memory in which the three objects of `samplePushes` carry forwarding pointers. -/
def sampleForwardedMemory : Nat → Nat := fun a =>
  if a = 0x1000 then 0x2003 else if a = 0x1010 then 0x2013 else if a = 0x1020 then 0x2023 else 0

end PreservedMarksSet

/-! ### What holds while the marks are restored -/

namespace PreservedMarksSet

/-- No two entries of the set name the same object with different marks. -/
def Distinct (set : PreservedMarksSet) : Prop :=
  ∀ i j e f, i < set.num → j < set.num → e ∈ set.get i → f ∈ set.get j → e.o = f.o → e = f

/-- What holds of the stacks and the counter at every moment of a restore that started
from the set `set0`: the entries counted and the entries left add up to the entries of
`set0`, and every entry left is an entry of `set0` on the same stack. -/
def CountInv (set0 : PreservedMarksSet) (σ : RestoreState) : Prop :=
  σ.set.num = set0.num ∧
  σ.total_size + sizes σ.set.get set0.num = sizes set0.get set0.num ∧
  ∀ i e, e ∈ σ.set.get i → e ∈ set0.get i

/-- What holds of the headers at every moment of a restore that started from the set
`set0` and the memory `mem0`: an entry of `set0` is still on its stack or its object
carries its mark, and the header of an object without entry is as in `mem0`. -/
def MarksInv (set0 : PreservedMarksSet) (mem0 : Nat → Nat) (σ : RestoreState) : Prop :=
  (∀ i, i < set0.num → ∀ e ∈ set0.get i, e ∈ σ.set.get i ∨ σ.mem e.o = e.m) ∧
  ∀ x, (∀ i, i < set0.num → ∀ e ∈ set0.get i, e.o ≠ x) → σ.mem x = mem0 x

end PreservedMarksSet

/-! ## Instruction counts of the constant-loading routines -/

/-- The mnemonic of an instruction a constant-loading routine emits. -/
inductive Insn
  | sethi | or3 | xor3 | sllx | add | nop
  deriving DecidableEq, Repr

/-- The type `relocInfo::relocType`, as far as the routines tell its values apart. -/
inductive relocInfo
  | none | runtime_call_type | other
  deriving DecidableEq, Repr

/-- An `AddressLiteral`: its value and the type of its relocation. -/
structure AddressLiteral where
  value : Int
  rtype : relocInfo

/-- Declarations of `Assembler` and `MacroAssembler` the constant-loading routines use
and that live outside the translated file: the bit-field helpers and the default of the
parameter `worst_case` of `insts_for_sethi`. -/
structure Assembler where
  /-- `Assembler::hi22` -/
  hi22 : Int → Int
  /-- `Assembler::inv_hi22` -/
  inv_hi22 : Int → Int
  /-- `Assembler::low10`, also behind `AddressLiteral::low10` -/
  low10 : Int → Int
  /-- `Assembler::low12` -/
  low12 : Int → Int
  /-- The default of the parameter `worst_case` of `insts_for_sethi`. -/
  worst_case : Bool

/-- The conversion `(int) x` of a 64-bit integer: its low 32 bits, read as signed. -/
def toJint (x : Int) : Int := (x + 2 ^ 31) % 2 ^ 32 - 2 ^ 31

/-- The conversion of an `int` to `unsigned int`. -/
def toJuint (x : Int) : Int := x % 2 ^ 32

/-- The signed reading of a 64-bit word (two's complement). -/
def toJlong (u : Nat) : Int :=
  if u % 2 ^ 64 < 2 ^ 63 then (u % 2 ^ 64 : Nat) else ((u % 2 ^ 64 : Nat) : Int) - 2 ^ 64

/-- The operator `&` of C++ on integers of at most 64 bits, computed on their
two's-complement words. -/
def jand (a b : Int) : Int := toJlong (immVal a &&& immVal b)

/-- The code `MacroAssembler::internal_sethi` emits, as the sequence of its
instructions. -/
def internal_sethi (addrlit : AddressLiteral) (ForceRelocatable : Bool) : List Insn :=
  let msb32 := toJint (addrlit.value >>> 32)
  let lsb32 := toJint addrlit.value
  let code : List Insn :=
    if msb32 = 0 ∧ lsb32 ≥ 0 then [Insn.sethi]
    else if msb32 = -1 then [Insn.sethi, Insn.xor3]
    else
      let code := [Insn.sethi]
      let code := if jand msb32 0x3ff ≠ 0 then code ++ [Insn.or3] else code
      if jand (toJuint lsb32) 0xFFFFFC00 ≠ 0 then
        let code :=
          if jand (lsb32 >>> 20) 0xfff ≠ 0 then code ++ [Insn.sllx, Insn.or3] else code
        let code :=
          if jand (lsb32 >>> 10) 0x3ff ≠ 0 then code ++ [Insn.sllx, Insn.or3] else code
        code ++ [Insn.sllx]
      else code ++ [Insn.sllx]
  -- Pad out the instruction sequence so it can be patched later.
  if ForceRelocatable ∨
      (addrlit.rtype ≠ relocInfo.none ∧ addrlit.rtype ≠ relocInfo.runtime_call_type) then
    code ++ List.replicate (7 - code.length) Insn.nop
  else code

/-- The function `MacroAssembler::insts_for_sethi`. -/
def insts_for_sethi (a : Int) (worst_case : Bool) : Nat :=
  if worst_case then 7 else
  let iaddr := a
  let msb32 := toJint (iaddr >>> 32)
  let lsb32 := toJint iaddr
  if msb32 = 0 ∧ lsb32 ≥ 0 then 1
  else if msb32 = -1 then 2
  else
    let count := 2
    let count := if jand msb32 0x3ff ≠ 0 then count + 1 else count
    if jand (toJuint lsb32) 0xFFFFFC00 ≠ 0 then
      let count := if jand (lsb32 >>> 20) 0xfff ≠ 0 then count + 2 else count
      if jand (lsb32 >>> 10) 0x3ff ≠ 0 then count + 2 else count
    else count

/-- The code `MacroAssembler::internal_set` emits, as the sequence of its instructions;
`MacroAssembler::sethi(addrlit, d)` is `internal_sethi(addrlit, d, false)`. -/
def internal_set (asm : Assembler) (addrlit : AddressLiteral) (ForceRelocatable : Bool) :
    List Insn :=
  let value := addrlit.value
  let general : List Insn :=
    let code := internal_sethi addrlit ForceRelocatable
    if ForceRelocatable ∨ addrlit.rtype ≠ relocInfo.none ∨ asm.low10 addrlit.value ≠ 0 then
      code ++ [Insn.add]
    else code
  if !ForceRelocatable ∧ addrlit.rtype = relocInfo.none then
    -- can optimize
    if -4096 ≤ value ∧ value ≤ 4095 then [Insn.or3]
    else if asm.inv_hi22 (asm.hi22 value) = value then internal_sethi addrlit false
    else general
  else general

/-- The function `MacroAssembler::insts_for_internal_set`; its calls of `insts_for_sethi`
leave `worst_case` to its default. -/
def insts_for_internal_set (asm : Assembler) (value : Int) : Nat :=
  if -4096 ≤ value ∧ value ≤ 4095 then 1
  else if asm.inv_hi22 (asm.hi22 value) = value then insts_for_sethi value asm.worst_case
  else
    let count := insts_for_sethi value asm.worst_case
    let al : AddressLiteral := ⟨value, relocInfo.none⟩
    if asm.low10 al.value ≠ 0 then count + 1 else count

/-- The code `MacroAssembler::set64` emits, as the sequence of its instructions. -/
def set64 (asm : Assembler) (value : Int) : List Insn :=
  let hi := toJint (value >>> 32)
  let lo := toJint (jand value (-1))
  if is_simm lo 13 ∧ value = lo then [Insn.or3]
  else if hi = 0 then
    if asm.low10 lo ≠ 0 then [Insn.sethi, Insn.or3] else [Insn.sethi]
  else if hi >>> 2 = 0 then
    if asm.low12 lo ≠ 0 then [Insn.sethi, Insn.sllx, Insn.or3] else [Insn.sethi, Insn.sllx]
  else if hi = -1 then [Insn.sethi, Insn.xor3]
  else if lo = 0 then
    let code :=
      if is_simm hi 13 then [Insn.or3]
      else if asm.low10 hi ≠ 0 then [Insn.sethi, Insn.or3] else [Insn.sethi]
    code ++ [Insn.sllx]
  else
    let code := [Insn.sethi, Insn.sethi]
    let code := if asm.low10 hi ≠ 0 then code ++ [Insn.or3] else code
    let code := if asm.low10 lo ≠ 0 then code ++ [Insn.or3] else code
    code ++ [Insn.sllx, Insn.or3]

/-- The function `MacroAssembler::insts_for_set64`. -/
def insts_for_set64 (asm : Assembler) (value : Int) : Nat :=
  let hi := toJint (value >>> 32)
  let lo := toJint (jand value (-1))
  let count := 0
  if is_simm lo 13 ∧ value = lo then count + 1
  else if hi = 0 then
    let count := count + 1
    if asm.low10 lo ≠ 0 then count + 1 else count
  else if hi = -1 then count + 2
  else if lo = 0 then
    let count :=
      if is_simm hi 13 then count + 1
      else
        let count := count + 1
        if asm.low10 hi ≠ 0 then count + 1 else count
    count + 1
  else
    let count := count + 2
    let count := if asm.low10 hi ≠ 0 then count + 1 else count
    let count := if asm.low10 lo ≠ 0 then count + 1 else count
    count + 2

/-- The helpers as a SPARC assembler defines them: `hi22` the upper 22 bits of a 32-bit
word, `inv_hi22` the shift back, `low10` and `low12` the low bits; `worst_case`
defaults to false. -/
def sampleAssembler : Assembler where
  hi22 := fun x => (x % 2 ^ 32) / 2 ^ 10
  inv_hi22 := fun x => toJint (x * 2 ^ 10)
  low10 := fun x => x % 2 ^ 10
  low12 := fun x => x % 2 ^ 12
  worst_case := false

/-! ## Lock ranks -/

namespace Monitor

namespace lock_types

/-- The enumerator `event` of `Monitor::lock_types`, the first one. -/
def event : Int := 0

/-- The enumerator `access` of `Monitor::lock_types`. -/
def access : Int := event + 1

/-- The enumerator `tty` of `Monitor::lock_types`. -/
def tty : Int := access + 2

/-- The enumerator `special` of `Monitor::lock_types`. -/
def special : Int := tty + 1

/-- The enumerator `suspend_resume` of `Monitor::lock_types`. -/
def suspend_resume : Int := special + 1

/-- The enumerator `oopstorage` of `Monitor::lock_types`. -/
def oopstorage : Int := suspend_resume + 2

/-- The enumerator `leaf` of `Monitor::lock_types`. -/
def leaf : Int := oopstorage + 2

/-- The enumerator `safepoint` of `Monitor::lock_types`. -/
def safepoint : Int := leaf + 10

/-- The enumerator `barrier` of `Monitor::lock_types`. -/
def barrier : Int := safepoint + 1

/-- The enumerator `nonleaf` of `Monitor::lock_types`. -/
def nonleaf : Int := barrier + 1

/-- The enumerator `max_nonleaf` of `Monitor::lock_types`. -/
def max_nonleaf : Int := nonleaf + 900

/-- The enumerator `native` of `Monitor::lock_types`. -/
def native : Int := max_nonleaf + 1

end lock_types

end Monitor

/-! ## Word arithmetic -/

theorem wsub_eq_zero_iff {a b : Nat} (ha : a < W) (hb : b < W) : wsub a b = 0 ↔ a = b := by
  simp only [wsub, W] at *
  norm_num at *
  omega

theorem wsub_self (a : Nat) : wsub a a = 0 := by
  simp only [wsub, W]
  have := Nat.mod_lt a (by norm_num : 0 < 2 ^ 64)
  omega

theorem wsub_lt (a b : Nat) : wsub a b < W := Nat.mod_lt _ (by decide)

theorem wadd_zero {a : Nat} (h : a < W) : wadd a 0 = a := by
  rw [wadd, Nat.add_zero, Nat.mod_eq_of_lt h]

theorem immVal_ofNat {n : Nat} (h : n < W) : immVal (n : Int) = n := by
  simp only [immVal, W] at *
  norm_num at *
  omega

theorem immVal_zero : immVal 0 = 0 := by decide

theorem immVal_one : immVal 1 = 1 := by decide

theorem immVal_two : immVal 2 = 2 := by decide

theorem immVal_unlocked : immVal (markWord.unlocked_value : Int) = 1 := by decide

theorem or_one_of_odd {m : Nat} (h : m % 2 = 1) : m ||| 1 = m := by
  apply Nat.eq_of_testBit_eq
  intro i
  cases i with
  | zero => simp [h]
  | succ n => rw [Nat.testBit_or, Nat.testBit_succ 1]; simp

theorem and_two_eq_zero_iff (m : Nat) : m &&& 2 = 0 ↔ m / 2 % 2 = 0 := by
  have h : m &&& 2 = (m % 4) &&& 2 := by
    have := Nat.and_pow_two_sub_one_eq_mod m 2
    norm_num at this
    rw [← this, Nat.and_assoc]
    rfl
  rw [h]
  have h4 : m % 4 < 4 := Nat.mod_lt _ (by norm_num)
  have hd : m / 2 % 2 = (m % 4) / 2 := by omega
  rw [hd]
  interval_cases (m % 4) <;> decide

theorem or_one_lt {m : Nat} (h : m < W) : m ||| 1 < W :=
  Nat.or_lt_two_pow h (by decide)

theorem stackMask_testBit (i : Nat) :
    stackMask.testBit i = (decide (i < 2) || (decide (12 ≤ i) && decide (i < 64))) := by
  by_cases h : i < 64
  · interval_cases i <;> decide
  · have h1 : stackMask < 2 ^ i :=
      Nat.lt_of_lt_of_le (by decide : stackMask < 2 ^ 64)
        (Nat.pow_le_pow_right (by norm_num) (by omega))
    rw [Nat.testBit_lt_two_pow h1]
    have h2 : ¬ i < 2 := by omega
    simp [h, h2]

theorem and_stackMask_eq_zero_iff {d : Nat} (hd : d < W) :
    d &&& stackMask = 0 ↔ d < 4096 ∧ d % 4 = 0 := by
  constructor
  · intro h
    have hb : ∀ i, (d.testBit i && stackMask.testBit i) = false := by
      intro i
      rw [← Nat.testBit_and, h]
      simp
    constructor
    · have : d < 2 ^ 12 := by
        apply Nat.lt_pow_two_of_testBit
        intro i hi
        by_cases h64 : i < 64
        · have := hb i
          rw [stackMask_testBit] at this
          simpa [hi, h64] using this
        · exact Nat.testBit_lt_two_pow
            (Nat.lt_of_lt_of_le hd (Nat.pow_le_pow_right (by norm_num) (by omega)))
      simpa using this
    · have h0 := hb 0
      have h1 := hb 1
      rw [stackMask_testBit] at h0 h1
      simp [Nat.testBit_succ] at h0 h1
      omega
  · rintro ⟨h1, h2⟩
    apply Nat.eq_of_testBit_eq
    intro i
    rw [Nat.testBit_and, stackMask_testBit, Nat.zero_testBit]
    by_cases hi : 12 ≤ i
    · have : d.testBit i = false :=
        Nat.testBit_lt_two_pow
          (Nat.lt_of_lt_of_le (by simpa using h1 : d < 2 ^ 12)
            (Nat.pow_le_pow_right (by norm_num) hi))
      simp [this]
    · by_cases hi2 : i < 2
      · have : d.testBit i = false := by
          interval_cases i
          · simp; omega
          · simp [Nat.testBit_succ]; omega
        simp [this]
      · simp [hi, hi2]

/-! ## Register bookkeeping -/

theorem RegsOK.ne {Roop Rmark Rbox Rscratch : Register} (h : RegsOK Roop Rmark Rbox Rscratch) :
    (Roop ≠ Register.G0 ∧ Rmark ≠ Register.G0 ∧ Rbox ≠ Register.G0 ∧ Rscratch ≠ Register.G0) ∧
    (Roop ≠ Register.G2 ∧ Rmark ≠ Register.G2 ∧ Rbox ≠ Register.G2 ∧ Rscratch ≠ Register.G2) ∧
    (Roop ≠ Register.O6 ∧ Rmark ≠ Register.O6 ∧ Rbox ≠ Register.O6 ∧ Rscratch ≠ Register.O6) ∧
    (Register.G0 ≠ Roop ∧ Register.G0 ≠ Rmark ∧ Register.G0 ≠ Rbox ∧ Register.G0 ≠ Rscratch) ∧
    (Register.G2 ≠ Roop ∧ Register.G2 ≠ Rmark ∧ Register.G2 ≠ Rbox ∧ Register.G2 ≠ Rscratch) ∧
    (Register.O6 ≠ Roop ∧ Register.O6 ≠ Rmark ∧ Register.O6 ≠ Rbox ∧ Register.O6 ≠ Rscratch) ∧
    (Roop ≠ Rmark ∧ Roop ≠ Rbox ∧ Roop ≠ Rscratch ∧ Rmark ≠ Rbox ∧ Rmark ≠ Rscratch ∧
      Rbox ≠ Rscratch) ∧
    (Rmark ≠ Roop ∧ Rbox ≠ Roop ∧ Rscratch ≠ Roop ∧ Rbox ≠ Rmark ∧ Rscratch ≠ Rmark ∧
      Rscratch ≠ Rbox) := by
  simp only [RegsOK, List.nodup_cons, List.mem_cons, List.mem_singleton, not_or, List.not_mem_nil,
    not_false_eq_true, List.nodup_nil, and_true] at h
  obtain ⟨⟨-, -, h03, h04, h05, h06⟩, ⟨-, h13, h14, h15, h16⟩, ⟨h23, h24, h25, h26⟩,
    ⟨h34, h35, h36⟩, ⟨h45, h46⟩, h56⟩ := h
  refine ⟨⟨?_, ?_, ?_, ?_⟩, ⟨?_, ?_, ?_, ?_⟩, ⟨?_, ?_, ?_, ?_⟩, ⟨?_, ?_, ?_, ?_⟩,
    ⟨?_, ?_, ?_, ?_⟩, ⟨?_, ?_, ?_, ?_⟩, ⟨?_, ?_, ?_, ?_, ?_, ?_⟩, ⟨?_, ?_, ?_, ?_, ?_, ?_⟩⟩ <;>
  first
    | assumption
    | (apply Ne.symm; assumption)

/-! ## Effect of each path of the lock code -/

/-- The state in which the triage code of `compiler_lock_object` starts when statistics
and biasing are off: the mark has just been fetched into `Rmark`. -/
theorem lock_eq_triage (c : Config) (Roop Rmark Rbox Rscratch : Register) (s : Machine) :
    compiler_lock_object c Roop Rmark Rbox Rscratch none false s =
      compiler_lock_object_triage c Roop Rmark Rbox Rscratch none
        (ld_ptr ⟨Roop, mark_offset_in_bytes⟩ Rmark s) := by
  simp [compiler_lock_object]

/-- What the fetch of the mark leaves behind. -/
theorem fetch_mark {Roop Rmark Rbox Rscratch : Register}
    (hregs : RegsOK Roop Rmark Rbox Rscratch) (s : Machine) (obj : Nat)
    (hRoop : s.reg Roop = obj) (hobj : obj < W) :
    (ld_ptr ⟨Roop, mark_offset_in_bytes⟩ Rmark s).reg Roop = obj ∧
    (ld_ptr ⟨Roop, mark_offset_in_bytes⟩ Rmark s).reg Rbox = s.reg Rbox ∧
    (ld_ptr ⟨Roop, mark_offset_in_bytes⟩ Rmark s).reg Rmark = s.mem obj ∧
    (ld_ptr ⟨Roop, mark_offset_in_bytes⟩ Rmark s).reg SP = s.reg SP ∧
    (ld_ptr ⟨Roop, mark_offset_in_bytes⟩ Rmark s).reg G2_thread = s.reg G2_thread ∧
    (ld_ptr ⟨Roop, mark_offset_in_bytes⟩ Rmark s).mem = s.mem ∧
    (ld_ptr ⟨Roop, mark_offset_in_bytes⟩ Rmark s).log = s.log := by
  obtain ⟨⟨a1, a2, a3, a4⟩, ⟨b1, b2, b3, b4⟩, ⟨c1, c2, c3, c4⟩, ⟨d1, d2, d3, d4⟩,
    ⟨e1, e2, e3, e4⟩, ⟨f1, f2, f3, f4⟩, ⟨g1, g2, g3, g4, g5, g6⟩, ⟨k1, k2, k3, k4, k5, k6⟩⟩ :=
    hregs.ne
  simp [ld_ptr, Machine.get, Machine.set, Machine.ea, mark_offset_in_bytes, wadd_zero hobj,
    immVal_zero, *]

/-- Effect of the stack-lock code when the header CAS succeeds. -/
theorem triage_stack_success (c : Config) {Roop Rmark Rbox Rscratch : Register}
    (hregs : RegsOK Roop Rmark Rbox Rscratch) (s : Machine) (obj box m : Nat)
    (hRoop : s.reg Roop = obj) (hRbox : s.reg Rbox = box) (hRmark : s.reg Rmark = m)
    (hobj : obj < W) (hmon : m &&& 2 = 0) (hhdr : s.mem obj = m ||| 1) :
    (∀ x, (compiler_lock_object_triage c Roop Rmark Rbox Rscratch none s).mem x =
        if x = obj then box else if x = dhwAddr c box then m ||| 1 else s.mem x) ∧
    (compiler_lock_object_triage c Roop Rmark Rbox Rscratch none s).zf = true ∧
    (compiler_lock_object_triage c Roop Rmark Rbox Rscratch none s).log =
        s.log ++ [Event.cas obj (m ||| 1) 0 (m ||| 1), Event.store (dhwAddr c box) (m ||| 1),
          Event.store obj box] := by
  obtain ⟨⟨a1, a2, a3, a4⟩, ⟨b1, b2, b3, b4⟩, ⟨c1, c2, c3, c4⟩, ⟨d1, d2, d3, d4⟩,
    ⟨e1, e2, e3, e4⟩, ⟨f1, f2, f3, f4⟩, ⟨g1, g2, g3, g4, g5, g6⟩, ⟨k1, k2, k3, k4, k5, k6⟩⟩ :=
    hregs.ne
  simp [compiler_lock_object_triage, andcc, mov, or3, cas_ptr, cmp,
    subcc, st_ptr, Machine.get, Machine.set, Machine.val, Machine.ea, Machine.write,
    Condition.holds, mark_offset_in_bytes, wadd_zero hobj, immVal_zero, immVal_two,
    immVal_unlocked, wsub_self, dhwAddr, *]
  intro x
  split_ifs <;> rfl

/-- Effect of the stack-lock code when the header CAS fails, observing `v`. -/
theorem triage_stack_fail (c : Config) {Roop Rmark Rbox Rscratch : Register}
    (hregs : RegsOK Roop Rmark Rbox Rscratch) (s : Machine) (obj box m v : Nat)
    (hRoop : s.reg Roop = obj) (hRbox : s.reg Rbox = box) (hRmark : s.reg Rmark = m)
    (hmon : m &&& 2 = 0) (hhdr : s.mem obj = v) (hv : v < W) (hm : m < W)
    (hne : v ≠ m ||| 1) :
    (∀ x, (compiler_lock_object_triage c Roop Rmark Rbox Rscratch none s).mem x =
        if x = dhwAddr c box then stackOffsetBits c (s.reg SP) v else s.mem x) ∧
    (compiler_lock_object_triage c Roop Rmark Rbox Rscratch none s).zf =
        decide (stackOffsetBits c (s.reg SP) v = 0) ∧
    (compiler_lock_object_triage c Roop Rmark Rbox Rscratch none s).log =
        s.log ++ [Event.cas obj (m ||| 1) 0 v, Event.store (dhwAddr c box) (m ||| 1),
          Event.store (dhwAddr c box) (stackOffsetBits c (s.reg SP) v)] := by
  obtain ⟨⟨a1, a2, a3, a4⟩, ⟨b1, b2, b3, b4⟩, ⟨c1, c2, c3, c4⟩, ⟨d1, d2, d3, d4⟩,
    ⟨e1, e2, e3, e4⟩, ⟨f1, f2, f3, f4⟩, ⟨g1, g2, g3, g4, g5, g6⟩, ⟨k1, k2, k3, k4, k5, k6⟩⟩ :=
    hregs.ne
  have hsub : ¬ wsub v (m ||| 1) = 0 := by
    rw [wsub_eq_zero_iff hv (or_one_lt hm)]; exact hne
  simp [compiler_lock_object_triage, compiler_lock_object_Recursive, andcc, mov, or3, cas_ptr, cmp,
    subcc, sub, st_ptr, Machine.get, Machine.set, Machine.val, Machine.ea, Machine.write,
    Condition.holds, mark_offset_in_bytes, immVal_zero, immVal_two,
    immVal_unlocked, dhwAddr, stackOffsetBits, stackMask, *]
  intro x
  split_ifs <;> simp_all

/-- Effect of the inflated path of the lock code. -/
theorem triage_inflated (c : Config) {Roop Rmark Rbox Rscratch : Register}
    (hregs : RegsOK Roop Rmark Rbox Rscratch) (s : Machine) (box m : Nat)
    (hRbox : s.reg Rbox = box) (hRmark : s.reg Rmark = m) (hmon : m &&& 2 ≠ 0) :
    (∀ x, (compiler_lock_object_triage c Roop Rmark Rbox Rscratch none s).mem x =
        if x = dhwAddr c box then box
        else if x = fieldAddr m c.owner_offset_in_bytes ∧
          s.mem (fieldAddr m c.owner_offset_in_bytes) = 0 then s.reg G2_thread
        else s.mem x) ∧
    (compiler_lock_object_triage c Roop Rmark Rbox Rscratch none s).zf =
        decide (s.mem (fieldAddr m c.owner_offset_in_bytes) = 0) ∧
    (compiler_lock_object_triage c Roop Rmark Rbox Rscratch none s).log =
        s.log ++ [Event.cas (fieldAddr m c.owner_offset_in_bytes) 0 (s.reg G2_thread)
            (s.mem (fieldAddr m c.owner_offset_in_bytes)),
          Event.store (dhwAddr c box) box] := by
  obtain ⟨⟨a1, a2, a3, a4⟩, ⟨b1, b2, b3, b4⟩, ⟨c1, c2, c3, c4⟩, ⟨d1, d2, d3, d4⟩,
    ⟨e1, e2, e3, e4⟩, ⟨f1, f2, f3, f4⟩, ⟨g1, g2, g3, g4, g5, g6⟩, ⟨k1, k2, k3, k4, k5, k6⟩⟩ :=
    hregs.ne
  simp [compiler_lock_object_triage, compiler_lock_object_IsInflated, andcc, mov, or3, cas_ptr,
    add, st_ptr, Machine.get, Machine.set, Machine.val, Machine.ea, Machine.write,
    Condition.holds, immVal_zero, immVal_two, dhwAddr, fieldAddr, *]
  intro x
  split_ifs <;> simp_all

/-! ## Effect of each path of the unlock code -/

/-- Effect of the unlock code on a record whose displaced header is zero. -/
theorem unlock_recursive (c : Config) {Roop Rmark Rbox Rscratch : Register}
    (hregs : RegsOK Roop Rmark Rbox Rscratch) (s : Machine) (box : Nat)
    (hRbox : s.reg Rbox = box) (hdhw : s.mem (dhwAddr c box) = 0) :
    (compiler_unlock_object c Roop Rmark Rbox Rscratch false s).mem = s.mem ∧
    (compiler_unlock_object c Roop Rmark Rbox Rscratch false s).zf = true ∧
    (compiler_unlock_object c Roop Rmark Rbox Rscratch false s).log = s.log := by
  obtain ⟨⟨a1, a2, a3, a4⟩, ⟨b1, b2, b3, b4⟩, ⟨c1, c2, c3, c4⟩, ⟨d1, d2, d3, d4⟩,
    ⟨e1, e2, e3, e4⟩, ⟨f1, f2, f3, f4⟩, ⟨g1, g2, g3, g4, g5, g6⟩, ⟨k1, k2, k3, k4, k5, k6⟩⟩ :=
    hregs.ne
  rw [dhwAddr] at hdhw
  simp [compiler_unlock_object, andcc, ld_ptr, nop, Machine.get, Machine.set, Machine.val,
    Machine.ea, Condition.holds, *]

/-- Effect of the stack-locked path of the unlock code. -/
theorem unlock_stacked (c : Config) {Roop Rmark Rbox Rscratch : Register}
    (hregs : RegsOK Roop Rmark Rbox Rscratch) (s : Machine) (obj box h d : Nat)
    (hRoop : s.reg Roop = obj) (hRbox : s.reg Rbox = box) (hobj : obj < W) (hbox : box < W)
    (hhdr : s.mem obj = h) (hh : h < W) (hmon : h &&& 2 = 0)
    (hdhw : s.mem (dhwAddr c box) = d) (hd : d ≠ 0) :
    (∀ x, (compiler_unlock_object c Roop Rmark Rbox Rscratch false s).mem x =
        if x = obj ∧ h = box then d else s.mem x) ∧
    (compiler_unlock_object c Roop Rmark Rbox Rscratch false s).zf = decide (h = box) ∧
    (compiler_unlock_object c Roop Rmark Rbox Rscratch false s).log =
        s.log ++ [Event.cas obj box d h] := by
  obtain ⟨⟨a1, a2, a3, a4⟩, ⟨b1, b2, b3, b4⟩, ⟨c1, c2, c3, c4⟩, ⟨d1, d2, d3, d4⟩,
    ⟨e1, e2, e3, e4⟩, ⟨f1, f2, f3, f4⟩, ⟨g1, g2, g3, g4, g5, g6⟩, ⟨k1, k2, k3, k4, k5, k6⟩⟩ :=
    hregs.ne
  rw [dhwAddr] at hdhw
  have hz : (wsub box h = 0) = (h = box) := by
    rw [wsub_eq_zero_iff hbox hh]; exact propext eq_comm
  simp [compiler_unlock_object, compiler_unlock_object_LStacked, andcc, ld_ptr, nop, cas_ptr, cmp,
    subcc, Machine.get, Machine.set, Machine.val, Machine.ea, Condition.holds,
    mark_offset_in_bytes, immVal_zero, immVal_two, wadd_zero hobj, *]
  intro x
  split_ifs <;> simp_all

/-- Effect of the inflated path of the unlock code when the monitor is held once and
nobody is queued. -/
theorem unlock_inflated_uncontended (c : Config) {Roop Rmark Rbox Rscratch : Register}
    (hregs : RegsOK Roop Rmark Rbox Rscratch) (s : Machine) (obj box h : Nat)
    (hRoop : s.reg Roop = obj) (hRbox : s.reg Rbox = box) (hobj : obj < W)
    (hhdr : s.mem obj = h) (hmon : h &&& 2 ≠ 0)
    (hdhw : s.mem (dhwAddr c box) ≠ 0)
    (hrec : s.mem (fieldAddr h c.recursions_offset_in_bytes) = 0)
    (hentry : s.mem (fieldAddr h c.EntryList_offset_in_bytes) = 0)
    (hcxq : s.mem (fieldAddr h c.cxq_offset_in_bytes) = 0) :
    (∀ x, (compiler_unlock_object c Roop Rmark Rbox Rscratch false s).mem x =
        if x = fieldAddr h c.owner_offset_in_bytes then 0 else s.mem x) ∧
    (compiler_unlock_object c Roop Rmark Rbox Rscratch false s).zf = true ∧
    (compiler_unlock_object c Roop Rmark Rbox Rscratch false s).log =
        s.log ++ [Event.store (fieldAddr h c.owner_offset_in_bytes) 0] := by
  obtain ⟨⟨a1, a2, a3, a4⟩, ⟨b1, b2, b3, b4⟩, ⟨c1, c2, c3, c4⟩, ⟨d1, d2, d3, d4⟩,
    ⟨e1, e2, e3, e4⟩, ⟨f1, f2, f3, f4⟩, ⟨g1, g2, g3, g4, g5, g6⟩, ⟨k1, k2, k3, k4, k5, k6⟩⟩ :=
    hregs.ne
  rw [dhwAddr] at hdhw
  rw [fieldAddr] at hrec hentry hcxq
  simp [compiler_unlock_object, compiler_unlock_object_inflated, andcc, orcc, ld_ptr, nop,
    st_ptr, Machine.get, Machine.set, Machine.val, Machine.ea, Machine.write, Condition.holds,
    mark_offset_in_bytes, immVal_zero, immVal_two, wadd_zero hobj, fieldAddr, *]

/-! ## Biasing compiled in: marks without the bias pattern -/

theorem and_seven_lt (m : Nat) : m &&& 7 < W :=
  Nat.lt_of_le_of_lt Nat.and_le_right (by decide)

/-- With biasing compiled in, a fetched mark without the bias pattern passes through the
code of `biased_locking_enter` to `cas_label`; only the scratch register and the
condition code change. -/
theorem bias_skip (c : Config) {Roop Rmark Rbox Rscratch : Register}
    (hregs : RegsOK Roop Rmark Rbox Rscratch) (counters : Option BiasedLockingCounters)
    (s : Machine) (m : Nat) (hRmark : s.reg Rmark = m) (hnb : m &&& 7 ≠ 5) :
    (biased_locking_enter c Roop Rmark Rscratch false counters s).1 = BiasExit.cas_label ∧
    (biased_locking_enter c Roop Rmark Rscratch false counters s).2.mem = s.mem ∧
    (biased_locking_enter c Roop Rmark Rscratch false counters s).2.log = s.log ∧
    (∀ r, r ≠ Rscratch →
      (biased_locking_enter c Roop Rmark Rscratch false counters s).2.reg r = s.reg r) := by
  obtain ⟨⟨a1, a2, a3, a4⟩, ⟨b1, b2, b3, b4⟩, ⟨c1, c2, c3, c4⟩, ⟨d1, d2, d3, d4⟩,
    ⟨e1, e2, e3, e4⟩, ⟨f1, f2, f3, f4⟩, ⟨g1, g2, g3, g4, g5, g6⟩, ⟨k1, k2, k3, k4, k5, k6⟩⟩ :=
    hregs.ne
  have e5 : markWord.biased_lock_pattern = 5 := rfl
  have e7 : markWord.biased_lock_mask_in_place = 7 := rfl
  have h5 : immVal 5 = 5 := by decide
  have h7 : immVal 7 = 7 := by decide
  have hz : ¬ wsub (m &&& 7) 5 = 0 := by
    rw [wsub_eq_zero_iff (and_seven_lt m) (by decide)]; exact hnb
  by_cases hcb : c.use_cbcond <;>
  simp [biased_locking_enter, cmp_and_brx_short, and3, cmp, subcc, nop, is_simm,
    Machine.get, Machine.set, Machine.val, Condition.holds, hcb, *] <;>
  intro r hr <;> simp [hr]

/-- The triage code does not depend on what the scratch register and the condition
code hold on entry. -/
theorem triage_congr (c : Config) {Roop Rmark Rbox Rscratch : Register}
    (hregs : RegsOK Roop Rmark Rbox Rscratch) (s s' : Machine)
    (hmem : s'.mem = s.mem) (hlog : s'.log = s.log)
    (hreg : ∀ r, r ≠ Rscratch → s'.reg r = s.reg r) :
    compiler_lock_object_triage c Roop Rmark Rbox Rscratch none s' =
      compiler_lock_object_triage c Roop Rmark Rbox Rscratch none s := by
  obtain ⟨⟨a1, a2, a3, a4⟩, ⟨b1, b2, b3, b4⟩, ⟨c1, c2, c3, c4⟩, ⟨d1, d2, d3, d4⟩,
    ⟨e1, e2, e3, e4⟩, ⟨f1, f2, f3, f4⟩, ⟨g1, g2, g3, g4, g5, g6⟩, ⟨k1, k2, k3, k4, k5, k6⟩⟩ :=
    hregs.ne
  have hmk : s'.reg Rmark = s.reg Rmark := hreg Rmark g5
  have hcond : Condition.notZero.holds (andcc Rmark (Operand.i 2) G0 s') =
      Condition.notZero.holds (andcc Rmark (Operand.i 2) G0 s) := by
    simp [andcc, Condition.holds, Machine.get, Machine.set, Machine.val, *]
  have hpre : mov (Operand.i 0) Rscratch (andcc Rmark (Operand.i 2) G0 s') =
      mov (Operand.i 0) Rscratch (andcc Rmark (Operand.i 2) G0 s) := by
    cases s with
    | mk reg mem zf log =>
      cases s' with
      | mk reg' mem' zf' log' =>
        simp only at hmem hlog hreg hmk
        subst hmem hlog
        simp [mov, or3, andcc, Machine.get, Machine.set, Machine.val, *]
        funext x
        by_cases hx : x = Rscratch
        · simp [hx]
        · simp [hx, hreg x hx]
  simp only [compiler_lock_object_triage, hcond, hpre]

/-- With biasing compiled in, the lock code treats a mark without the bias pattern as
it does without biasing. -/
theorem lock_try_bias_skip (c : Config) {Roop Rmark Rbox Rscratch : Register}
    (hregs : RegsOK Roop Rmark Rbox Rscratch) (s : Machine) (obj m : Nat)
    (hRoop : s.reg Roop = obj) (hobj : obj < W) (hhdr : s.mem obj = m) (hnb : m &&& 7 ≠ 5) :
    compiler_lock_object c Roop Rmark Rbox Rscratch none true s =
      compiler_lock_object c Roop Rmark Rbox Rscratch none false s := by
  obtain ⟨-, -, f3, -, -, -, -⟩ := fetch_mark hregs s obj hRoop hobj
  obtain ⟨b1, b2, b3, b4⟩ := bias_skip c hregs none
    (ld_ptr ⟨Roop, mark_offset_in_bytes⟩ Rmark s) m (f3.trans hhdr) hnb
  have h := triage_congr c hregs (ld_ptr ⟨Roop, mark_offset_in_bytes⟩ Rmark s)
    (biased_locking_enter c Roop Rmark Rscratch false none
      (ld_ptr ⟨Roop, mark_offset_in_bytes⟩ Rmark s)).2 b2 b3 b4
  rw [lock_eq_triage, ← h]
  simp only [compiler_lock_object, if_true]
  generalize biased_locking_enter c Roop Rmark Rscratch false none
    (ld_ptr ⟨Roop, mark_offset_in_bytes⟩ Rmark s) = r at b1 ⊢
  obtain ⟨e, s2⟩ := r
  simp only at b1
  subst b1
  rfl

theorem holds_equal (s : Machine) : Condition.equal.holds s = s.zf := by
  cases s; rfl

theorem exit_not_taken {Roop Rmark Rbox Rscratch : Register}
    (hregs : RegsOK Roop Rmark Rbox Rscratch) (s : Machine) (obj h : Nat)
    (hRoop : s.reg Roop = obj) (hobj : obj < W) (hhdr : s.mem obj = h) (hnb : h &&& 7 ≠ 5) :
    (biased_locking_exit ⟨Roop, mark_offset_in_bytes⟩ Rscratch false s).1 = false ∧
    (biased_locking_exit ⟨Roop, mark_offset_in_bytes⟩ Rscratch false s).2.mem = s.mem ∧
    (biased_locking_exit ⟨Roop, mark_offset_in_bytes⟩ Rscratch false s).2.log = s.log ∧
    (∀ r, r ≠ Rscratch →
      (biased_locking_exit ⟨Roop, mark_offset_in_bytes⟩ Rscratch false s).2.reg r = s.reg r) := by
  obtain ⟨⟨a1, a2, a3, a4⟩, ⟨b1, b2, b3, b4⟩, ⟨c1, c2, c3, c4⟩, ⟨d1, d2, d3, d4⟩,
    ⟨e1, e2, e3, e4⟩, ⟨f1, f2, f3, f4⟩, ⟨g1, g2, g3, g4, g5, g6⟩, ⟨k1, k2, k3, k4, k5, k6⟩⟩ :=
    hregs.ne
  have e5 : markWord.biased_lock_pattern = 5 := rfl
  have e7 : markWord.biased_lock_mask_in_place = 7 := rfl
  have h5 : immVal 5 = 5 := by decide
  have h7 : immVal 7 = 7 := by decide
  have hz : ¬ wsub (h &&& 7) 5 = 0 := by
    rw [wsub_eq_zero_iff (and_seven_lt h) (by decide)]; exact hnb
  simp [biased_locking_exit, and3, cmp, subcc, ld_ptr, nop, Machine.get, Machine.set,
      Machine.val, Machine.ea, holds_equal, mark_offset_in_bytes, immVal_zero,
      wadd_zero hobj, *]
  intro r hr
  simp [hr]

theorem unlock_prefix_congr (c : Config) {Roop Rmark Rbox Rscratch : Register}
    (hregs : RegsOK Roop Rmark Rbox Rscratch) (s s' : Machine)
    (hmem : s'.mem = s.mem) (hlog : s'.log = s.log)
    (hreg : ∀ r, r ≠ Rscratch → s'.reg r = s.reg r) :
    andcc Rscratch (Operand.r Rscratch) G0
      (ld_ptr ⟨Rbox, c.displaced_header_offset_in_bytes⟩ Rscratch
        (ld_ptr ⟨Roop, mark_offset_in_bytes⟩ Rmark s')) =
    andcc Rscratch (Operand.r Rscratch) G0
      (ld_ptr ⟨Rbox, c.displaced_header_offset_in_bytes⟩ Rscratch
        (ld_ptr ⟨Roop, mark_offset_in_bytes⟩ Rmark s)) := by
  obtain ⟨⟨a1, a2, a3, a4⟩, ⟨b1, b2, b3, b4⟩, ⟨c1, c2, c3, c4⟩, ⟨d1, d2, d3, d4⟩,
    ⟨e1, e2, e3, e4⟩, ⟨f1, f2, f3, f4⟩, ⟨g1, g2, g3, g4, g5, g6⟩, ⟨k1, k2, k3, k4, k5, k6⟩⟩ :=
    hregs.ne
  have r1 := hreg Roop g3
  have r2 := hreg Rbox g6
  cases s with
  | mk reg mem zf log =>
    cases s' with
    | mk reg' mem' zf' log' =>
      simp only at hmem hlog hreg r1 r2
      subst hmem hlog
      simp [andcc, ld_ptr, Machine.get, Machine.set, Machine.val, Machine.ea, *]
      funext x
      by_cases hx : x = Rscratch
      · simp [hx]
      · by_cases hx2 : x = Rmark
        · simp [hx, hx2]
        · simp [hx, hx2, hreg x hx]

/-- With biasing compiled in (and the branch of `biased_locking_exit` not annulling),
the unlock code treats a header without the bias pattern as it does without biasing. -/
theorem unlock_try_bias_skip (c : Config) {Roop Rmark Rbox Rscratch : Register}
    (hregs : RegsOK Roop Rmark Rbox Rscratch) (s : Machine) (obj h : Nat)
    (hRoop : s.reg Roop = obj) (hobj : obj < W) (hhdr : s.mem obj = h) (hnb : h &&& 7 ≠ 5)
    (hdef : c.allow_delay_slot_filling = false) :
    compiler_unlock_object c Roop Rmark Rbox Rscratch true s =
      compiler_unlock_object c Roop Rmark Rbox Rscratch false s := by
  obtain ⟨x1, x2, x3, x4⟩ := exit_not_taken hregs s obj h hRoop hobj hhdr hnb
  have h2 := unlock_prefix_congr c hregs s _ x2 x3 x4
  unfold compiler_unlock_object
  simp only [hdef, if_true, Bool.and_false]
  generalize biased_locking_exit ⟨Roop, mark_offset_in_bytes⟩ Rscratch false s = r at x1 h2 ⊢
  obtain ⟨b, s2⟩ := r
  simp only at x1 h2
  subst x1
  simp only [Bool.false_eq_true, if_false]
  rw [h2]

theorem and_seven (m : Nat) : m &&& 7 = m % 8 := by
  have h2 := Nat.and_pow_two_sub_one_eq_mod m 3
  norm_num at h2
  exact h2

theorem not_biased_of_monitor {m : Nat} (h : m &&& 2 ≠ 0) : m &&& 7 ≠ 5 := by
  intro h5
  rw [and_seven] at h5
  exact h ((and_two_eq_zero_iff m).2 (by omega))

theorem not_biased_of_aligned {b : Nat} (h : b % 4 = 0) : b &&& 7 ≠ 5 := by
  rw [and_seven]; omega

theorem not_biased_of_neutral {m : Nat} (h : m % 8 = 1) : m &&& 7 ≠ 5 := by
  rw [and_seven]; omega

/-- The lock code with or without biasing compiled in agrees on every mark that does
not carry the bias pattern. -/
theorem lock_any_bias (c : Config) {Roop Rmark Rbox Rscratch : Register}
    (hregs : RegsOK Roop Rmark Rbox Rscratch) (try_bias : Bool) (s : Machine) (obj m : Nat)
    (hRoop : s.reg Roop = obj) (hobj : obj < W) (hhdr : s.mem obj = m)
    (hnb : try_bias = true → m &&& 7 ≠ 5) :
    compiler_lock_object c Roop Rmark Rbox Rscratch none try_bias s =
      compiler_lock_object c Roop Rmark Rbox Rscratch none false s := by
  cases try_bias
  · rfl
  · exact lock_try_bias_skip c hregs s obj m hRoop hobj hhdr (hnb rfl)

/-- The unlock code with or without biasing compiled in agrees on every header that
does not carry the bias pattern. -/
theorem unlock_any_bias (c : Config) {Roop Rmark Rbox Rscratch : Register}
    (hregs : RegsOK Roop Rmark Rbox Rscratch) (try_bias : Bool) (s : Machine) (obj h : Nat)
    (hRoop : s.reg Roop = obj) (hobj : obj < W) (hhdr : s.mem obj = h)
    (hnb : try_bias = true → h &&& 7 ≠ 5)
    (hdef : try_bias = true → c.allow_delay_slot_filling = false) :
    compiler_unlock_object c Roop Rmark Rbox Rscratch try_bias s =
      compiler_unlock_object c Roop Rmark Rbox Rscratch false s := by
  cases try_bias
  · rfl
  · exact unlock_try_bias_skip c hregs s obj h hRoop hobj hhdr (hnb rfl) (hdef rfl)

/-! ## The stack-lock protocol -/

/-- C1: locking an object whose mark has lock bits 01 (a neutral mark) through the
stack-lock fast path and then unlocking it with the same record, nobody else touching
the header in between, restores the mark word bit for bit; both calls report success.
The state `t` is the one in which the unlock code is entered: the memory is as the lock
code left it and the caller has put object and record into the registers again. -/
theorem lock_unlock_restores_mark (c : Config) (Roop Rmark Rbox Rscratch : Register)
    (hregs : RegsOK Roop Rmark Rbox Rscratch) (s t : Machine) (obj box m : Nat)
    (hRoop : s.reg Roop = obj) (hRbox : s.reg Rbox = box)
    (hobj : obj < W) (hbox : box < W)
    (hhdr : s.mem obj = m) (hneutral : m % 4 = 1) (halign : box % 4 = 0)
    (hsep : dhwAddr c box ≠ obj)
    (htmem : t.mem = (compiler_lock_object c Roop Rmark Rbox Rscratch none false s).mem)
    (htRoop : t.reg Roop = obj) (htRbox : t.reg Rbox = box) :
    (compiler_lock_object c Roop Rmark Rbox Rscratch none false s).zf = true ∧
    (compiler_unlock_object c Roop Rmark Rbox Rscratch false t).zf = true ∧
    (compiler_unlock_object c Roop Rmark Rbox Rscratch false t).mem obj = m := by
  obtain ⟨f1, f2, f3, -, -, f6, -⟩ := fetch_mark hregs s obj hRoop hobj
  have hodd : m ||| 1 = m := or_one_of_odd (by omega)
  have hmon : m &&& 2 = 0 := (and_two_eq_zero_iff m).2 (by omega)
  rw [lock_eq_triage] at htmem ⊢
  obtain ⟨l1, l2, -⟩ := triage_stack_success c hregs _ obj box m f1 (f2.trans hRbox)
    (f3.trans hhdr) hobj hmon (by rw [f6, hhdr, hodd])
  have t1 : t.mem obj = box := by rw [htmem, l1]; simp
  have t2 : t.mem (dhwAddr c box) = m := by rw [htmem, l1]; simp [hsep, hodd]
  obtain ⟨u1, u2, -⟩ := unlock_stacked c hregs t obj box box m htRoop htRbox hobj hbox t1 hbox
    ((and_two_eq_zero_iff box).2 (by omega)) t2 (by omega)
  refine ⟨l2, ?_, ?_⟩
  · rw [u2]; simp
  · rw [u1]; simp

/-- Witness for `lock_unlock_restores_mark`. -/
theorem lock_unlock_restores_mark_witness :
    (compiler_lock_object sampleConfig Register.I0 Register.O7 Register.O1 Register.L0 none false
      (sampleMachine 0x29 0)).zf = true ∧
    (compiler_unlock_object sampleConfig Register.I0 Register.O7 Register.O1 Register.L0 false
      (compiler_lock_object sampleConfig Register.I0 Register.O7 Register.O1 Register.L0 none
        false (sampleMachine 0x29 0))).zf = true ∧
    (compiler_unlock_object sampleConfig Register.I0 Register.O7 Register.O1 Register.L0 false
      (compiler_lock_object sampleConfig Register.I0 Register.O7 Register.O1 Register.L0 none
        false (sampleMachine 0x29 0))).mem 0x1000 = 0x29 :=
  lock_unlock_restores_mark sampleConfig Register.I0 Register.O7 Register.O1 Register.L0
    (by decide) (sampleMachine 0x29 0) _ 0x1000 0x7000 0x29
    rfl rfl (by decide) (by decide) rfl (by decide) (by decide) (by decide)
    rfl rfl rfl

theorem inStackWindow_iff_bits (c : Config) (sp v : Nat) :
    stackOffsetBits c sp v = 0 ↔ inStackWindow c sp v :=
  and_stackMask_eq_zero_iff (wsub_lt _ _)

theorem inStackWindow_iff_range (c : Config) (sp v : Nat) (hv : v < W)
    (hwin : sp + c.STACK_BIAS + 4096 ≤ W) :
    inStackWindow c sp v ↔
      sp + c.STACK_BIAS ≤ v ∧ v - (sp + c.STACK_BIAS) < 4096 ∧ (v - (sp + c.STACK_BIAS)) % 4 = 0 := by
  have hb : immVal (c.STACK_BIAS : Int) = c.STACK_BIAS := immVal_ofNat (by omega)
  simp only [inStackWindow, hb, wsub, W] at *
  norm_num at *
  omega

/-- C2: when the header CAS of the stack-lock path succeeds (the fetched mark `m` has the
monitor bit clear and the header still equals the candidate `m | unlocked_value`), the
call ends with the candidate in `record.displaced` and the record's address in the header,
reports success, and wrote `record.displaced` before it wrote the header. -/
theorem stack_lock_cas_success (c : Config) (Roop Rmark Rbox Rscratch : Register)
    (hregs : RegsOK Roop Rmark Rbox Rscratch) (s : Machine) (obj box m : Nat)
    (hRoop : s.reg Roop = obj) (hRbox : s.reg Rbox = box) (hRmark : s.reg Rmark = m)
    (hobj : obj < W) (hmon : m &&& markWord.monitor_value = 0)
    (hcas : s.mem obj = m ||| markWord.unlocked_value) (hsep : dhwAddr c box ≠ obj) :
    (compiler_lock_object_triage c Roop Rmark Rbox Rscratch none s).mem (dhwAddr c box) =
        m ||| markWord.unlocked_value ∧
    (compiler_lock_object_triage c Roop Rmark Rbox Rscratch none s).mem obj = box ∧
    (compiler_lock_object_triage c Roop Rmark Rbox Rscratch none s).zf = true ∧
    (compiler_lock_object_triage c Roop Rmark Rbox Rscratch none s).log =
        s.log ++ [Event.cas obj (m ||| markWord.unlocked_value) 0 (m ||| markWord.unlocked_value),
          Event.store (dhwAddr c box) (m ||| markWord.unlocked_value), Event.store obj box] := by
  obtain ⟨l1, l2, l3⟩ := triage_stack_success c hregs s obj box m hRoop hRbox hRmark hobj hmon hcas
  refine ⟨?_, ?_, l2, l3⟩
  · rw [l1]; simp [hsep]; rfl
  · rw [l1]; simp

/-- Witness for `stack_lock_cas_success`. -/
theorem stack_lock_cas_success_witness :
    (compiler_lock_object_triage sampleConfig Register.I0 Register.O7 Register.O1 Register.L0 none
      (ld_ptr ⟨Register.I0, 0⟩ Register.O7 (sampleMachine 0x29 0))).log =
    [Event.cas 0x1000 0x29 0 0x29, Event.store 0x7000 0x29, Event.store 0x1000 0x7000] :=
  (stack_lock_cas_success sampleConfig Register.I0 Register.O7 Register.O1 Register.L0 (by decide)
    (ld_ptr ⟨Register.I0, 0⟩ Register.O7 (sampleMachine 0x29 0)) 0x1000 0x7000 0x29
    rfl rfl rfl (by decide) (by decide) rfl (by decide)).2.2.2

/-- C4: when the header CAS of the stack-lock path fails and observes the header value
`v`, the call stores `(v - STACK_BIAS - SP) & 0xfffff003` (wrapping 64-bit subtraction,
the immediate sign-extended) into `record.displaced` and leaves the header equal to `v`;
it reports success, with `record.displaced = 0`, exactly when `v` lies in the caller's
own stack window, and otherwise `record.displaced` is non-zero and it reports failure.
When the window does not wrap around the address space, lying in it means
`0 <= v - STACK_BIAS - SP < 4096` with the low two bits of the difference clear. -/
theorem stack_lock_cas_failure (c : Config) (Roop Rmark Rbox Rscratch : Register)
    (hregs : RegsOK Roop Rmark Rbox Rscratch) (s : Machine) (obj box m v sp : Nat)
    (hRoop : s.reg Roop = obj) (hRbox : s.reg Rbox = box) (hRmark : s.reg Rmark = m)
    (hSP : s.reg SP = sp) (hm : m < W) (hv : v < W)
    (hmon : m &&& markWord.monitor_value = 0) (hhdr : s.mem obj = v)
    (hfail : v ≠ m ||| markWord.unlocked_value) (hsep : dhwAddr c box ≠ obj) :
    (compiler_lock_object_triage c Roop Rmark Rbox Rscratch none s).mem (dhwAddr c box) =
        wsub (wsub v (immVal c.STACK_BIAS)) sp &&& immVal (toInt 0xfffff003) ∧
    (compiler_lock_object_triage c Roop Rmark Rbox Rscratch none s).mem obj = v ∧
    (inStackWindow c sp v →
      (compiler_lock_object_triage c Roop Rmark Rbox Rscratch none s).zf = true ∧
      (compiler_lock_object_triage c Roop Rmark Rbox Rscratch none s).mem (dhwAddr c box) = 0) ∧
    (¬ inStackWindow c sp v →
      (compiler_lock_object_triage c Roop Rmark Rbox Rscratch none s).zf = false ∧
      (compiler_lock_object_triage c Roop Rmark Rbox Rscratch none s).mem (dhwAddr c box) ≠ 0) ∧
    (sp + c.STACK_BIAS + 4096 ≤ W →
      (inStackWindow c sp v ↔ sp + c.STACK_BIAS ≤ v ∧ v - (sp + c.STACK_BIAS) < 4096 ∧
        (v - (sp + c.STACK_BIAS)) % 4 = 0)) := by
  obtain ⟨l1, l2, -⟩ :=
    triage_stack_fail c hregs s obj box m v hRoop hRbox hRmark hmon hhdr hv hm hfail
  rw [hSP] at l1 l2
  have hd : (compiler_lock_object_triage c Roop Rmark Rbox Rscratch none s).mem (dhwAddr c box) =
      stackOffsetBits c sp v := by rw [l1]; simp
  refine ⟨hd, ?_, ?_, ?_, inStackWindow_iff_range c sp v hv⟩
  · rw [l1]; simp [Ne.symm hsep, hhdr]
  · intro hw
    have := (inStackWindow_iff_bits c sp v).2 hw
    rw [l2, hd]; simp [this]
  · intro hw
    have : stackOffsetBits c sp v ≠ 0 := fun h => hw ((inStackWindow_iff_bits c sp v).1 h)
    rw [l2, hd]; simp [this]

/-- Witness for `stack_lock_cas_failure`: the header holds `0x6900`, a lock record in
the caller's own stack window. -/
theorem stack_lock_cas_failure_witness :
    (compiler_lock_object_triage sampleConfig Register.I0 Register.O7 Register.O1 Register.L0 none
      (ld_ptr ⟨Register.I0, 0⟩ Register.O7 (sampleMachine 0x6900 5))).mem 0x7000 = 0 :=
  ((stack_lock_cas_failure sampleConfig Register.I0 Register.O7 Register.O1 Register.L0
    (by decide) (ld_ptr ⟨Register.I0, 0⟩ Register.O7 (sampleMachine 0x6900 5))
    0x1000 0x7000 0x6900 0x6900 0x6001 rfl rfl rfl rfl (by decide) (by decide) (by decide) rfl
    (by decide) (by decide)).2.2.1 (by decide)).2

/-- C6: in the unlock code, with a non-zero `record.displaced` and a loaded mark whose
monitor bit is clear: if the header holds the record's address, the CAS replaces it by
`record.displaced` and the call reports released; if the header holds any other value,
the header is left unchanged and the call reports not-released.  No other word of memory
changes.  With biasing compiled in (`try_bias`), the mark is loaded only when the header
does not carry the bias pattern. -/
theorem unlock_stack_locked (c : Config) (Roop Rmark Rbox Rscratch : Register)
    (hregs : RegsOK Roop Rmark Rbox Rscratch) (try_bias : Bool) (s : Machine)
    (obj box h d : Nat)
    (hRoop : s.reg Roop = obj) (hRbox : s.reg Rbox = box) (hobj : obj < W) (hbox : box < W)
    (hhdr : s.mem obj = h) (hh : h < W) (hmon : h &&& markWord.monitor_value = 0)
    (hdhw : s.mem (dhwAddr c box) = d) (hd : d ≠ 0)
    (hnb : try_bias = true →
      h &&& markWord.biased_lock_mask_in_place ≠ markWord.biased_lock_pattern)
    (hdef : try_bias = true → c.allow_delay_slot_filling = false) :
    (h = box →
      (compiler_unlock_object c Roop Rmark Rbox Rscratch try_bias s).mem obj = d ∧
      (compiler_unlock_object c Roop Rmark Rbox Rscratch try_bias s).zf = true) ∧
    (h ≠ box →
      (compiler_unlock_object c Roop Rmark Rbox Rscratch try_bias s).mem obj = h ∧
      (compiler_unlock_object c Roop Rmark Rbox Rscratch try_bias s).zf = false) ∧
    (∀ x, x ≠ obj →
      (compiler_unlock_object c Roop Rmark Rbox Rscratch try_bias s).mem x = s.mem x) ∧
    (compiler_unlock_object c Roop Rmark Rbox Rscratch try_bias s).log =
      s.log ++ [Event.cas obj box d h] := by
  rw [unlock_any_bias c hregs try_bias s obj h hRoop hobj hhdr hnb hdef]
  obtain ⟨u1, u2, u3⟩ :=
    unlock_stacked c hregs s obj box h d hRoop hRbox hobj hbox hhdr hh hmon hdhw hd
  refine ⟨?_, ?_, ?_, u3⟩
  · intro e
    rw [u1, u2]; simp [e]
  · intro e
    rw [u1, u2]; simp [e, hhdr]
  · intro x hx
    rw [u1]; simp [hx]

/-- Witness for `unlock_stack_locked`: the header holds the record's address `0x7000`
and the record holds the displaced mark `0x29`; biasing is compiled in. -/
theorem unlock_stack_locked_witness :
    (compiler_unlock_object sampleConfig Register.I0 Register.O7 Register.O1 Register.L0 true
      (sampleMachine 0x7000 0x29)).mem 0x1000 = 0x29 ∧
    (compiler_unlock_object sampleConfig Register.I0 Register.O7 Register.O1 Register.L0 true
      (sampleMachine 0x7000 0x29)).zf = true :=
  (unlock_stack_locked sampleConfig Register.I0 Register.O7 Register.O1 Register.L0 (by decide)
    true (sampleMachine 0x7000 0x29) 0x1000 0x7000 0x7000 0x29 rfl rfl (by decide) (by decide)
    rfl (by decide) (by decide) rfl (by decide) (by decide) (by decide)).1 rfl

/-- C7: the unlock code (`try_bias = false`) called with a record whose displaced header
is zero is a no-op whatever the state of the object: no word of memory changes (neither
the header, nor the record, nor a monitor field), no write is even attempted, and the
call reports success. -/
theorem unlock_recursive_noop (c : Config) (Roop Rmark Rbox Rscratch : Register)
    (hregs : RegsOK Roop Rmark Rbox Rscratch) (s : Machine) (box : Nat)
    (hRbox : s.reg Rbox = box) (hdhw : s.mem (dhwAddr c box) = 0) :
    (compiler_unlock_object c Roop Rmark Rbox Rscratch false s).mem = s.mem ∧
    (compiler_unlock_object c Roop Rmark Rbox Rscratch false s).log = s.log ∧
    (compiler_unlock_object c Roop Rmark Rbox Rscratch false s).zf = true := by
  obtain ⟨u1, u2, u3⟩ := unlock_recursive c hregs s box hRbox hdhw
  exact ⟨u1, u3, u2⟩

/-- Witness for `unlock_recursive_noop`: a stack-locked header and a zero record. -/
theorem unlock_recursive_noop_witness :
    (compiler_unlock_object sampleConfig Register.I0 Register.O7 Register.O1 Register.L0 false
      (sampleMachine 0x6900 0)).mem = (sampleMachine 0x6900 0).mem ∧
    (compiler_unlock_object sampleConfig Register.I0 Register.O7 Register.O1 Register.L0 false
      (sampleMachine 0x6900 0)).log = (sampleMachine 0x6900 0).log ∧
    (compiler_unlock_object sampleConfig Register.I0 Register.O7 Register.O1 Register.L0 false
      (sampleMachine 0x6900 0)).zf = true :=
  unlock_recursive_noop sampleConfig Register.I0 Register.O7 Register.O1 Register.L0 (by decide)
    (sampleMachine 0x6900 0) 0x7000 rfl rfl

/-! ## The inflated paths -/

/-- C8: the lock code takes the inflated path exactly when the fetched mark has the
monitor tag: with the tag its writes are the CAS of the monitor's owner field from null
to the calling thread followed by the store into the record; without it the first write
is the CAS on the header (with biasing compiled in, a mark with the bias pattern, which
has the monitor bit clear, goes through `biased_locking_enter` instead).  On the
inflated path the header is not modified, the call reports success iff the owner was
null, the owner then is the calling thread and `record.displaced` is non-zero, and a
non-null owner is left unchanged. -/
theorem lock_inflated_path (c : Config) (Roop Rmark Rbox Rscratch : Register)
    (hregs : RegsOK Roop Rmark Rbox Rscratch) (try_bias : Bool) (s : Machine)
    (obj box m thread : Nat)
    (hRoop : s.reg Roop = obj) (hRbox : s.reg Rbox = box) (hthread : s.reg G2_thread = thread)
    (hobj : obj < W) (hm : m < W) (hhdr : s.mem obj = m) (hbox : box ≠ 0)
    (hsep1 : fieldAddr m c.owner_offset_in_bytes ≠ obj) (hsep2 : dhwAddr c box ≠ obj)
    (hsep3 : dhwAddr c box ≠ fieldAddr m c.owner_offset_in_bytes) :
    (m &&& markWord.monitor_value ≠ 0 →
      (compiler_lock_object c Roop Rmark Rbox Rscratch none try_bias s).log =
        s.log ++ [Event.cas (fieldAddr m c.owner_offset_in_bytes) 0 thread
            (s.mem (fieldAddr m c.owner_offset_in_bytes)),
          Event.store (dhwAddr c box) box]) ∧
    (m &&& markWord.monitor_value = 0 →
      (try_bias = true →
        m &&& markWord.biased_lock_mask_in_place ≠ markWord.biased_lock_pattern) →
      ∃ rest, (compiler_lock_object c Roop Rmark Rbox Rscratch none try_bias s).log =
        s.log ++ Event.cas obj (m ||| markWord.unlocked_value) 0 m :: rest) ∧
    (m &&& markWord.monitor_value ≠ 0 →
      (compiler_lock_object c Roop Rmark Rbox Rscratch none try_bias s).mem obj = m ∧
      ((compiler_lock_object c Roop Rmark Rbox Rscratch none try_bias s).zf = true ↔
        s.mem (fieldAddr m c.owner_offset_in_bytes) = 0) ∧
      (s.mem (fieldAddr m c.owner_offset_in_bytes) = 0 →
        (compiler_lock_object c Roop Rmark Rbox Rscratch none try_bias s).mem
            (fieldAddr m c.owner_offset_in_bytes) = thread ∧
        (compiler_lock_object c Roop Rmark Rbox Rscratch none try_bias s).mem
            (dhwAddr c box) ≠ 0) ∧
      (s.mem (fieldAddr m c.owner_offset_in_bytes) ≠ 0 →
        (compiler_lock_object c Roop Rmark Rbox Rscratch none try_bias s).mem
            (fieldAddr m c.owner_offset_in_bytes) =
          s.mem (fieldAddr m c.owner_offset_in_bytes))) := by
  obtain ⟨f1, f2, f3, -, f5, f6, f7⟩ := fetch_mark hregs s obj hRoop hobj
  have hmain : (try_bias = true → m &&& 7 ≠ 5) →
      compiler_lock_object c Roop Rmark Rbox Rscratch none try_bias s =
        compiler_lock_object_triage c Roop Rmark Rbox Rscratch none
          (ld_ptr ⟨Roop, mark_offset_in_bytes⟩ Rmark s) := fun hnb =>
    (lock_any_bias c hregs try_bias s obj m hRoop hobj hhdr hnb).trans
      (lock_eq_triage c Roop Rmark Rbox Rscratch s)
  have key : m &&& 2 ≠ 0 →
      (∀ x, (compiler_lock_object_triage c Roop Rmark Rbox Rscratch none
          (ld_ptr ⟨Roop, mark_offset_in_bytes⟩ Rmark s)).mem x =
        if x = dhwAddr c box then box
        else if x = fieldAddr m c.owner_offset_in_bytes ∧
          s.mem (fieldAddr m c.owner_offset_in_bytes) = 0 then thread
        else s.mem x) ∧
      (compiler_lock_object_triage c Roop Rmark Rbox Rscratch none
          (ld_ptr ⟨Roop, mark_offset_in_bytes⟩ Rmark s)).zf =
        decide (s.mem (fieldAddr m c.owner_offset_in_bytes) = 0) ∧
      (compiler_lock_object_triage c Roop Rmark Rbox Rscratch none
          (ld_ptr ⟨Roop, mark_offset_in_bytes⟩ Rmark s)).log =
        s.log ++ [Event.cas (fieldAddr m c.owner_offset_in_bytes) 0 thread
            (s.mem (fieldAddr m c.owner_offset_in_bytes)),
          Event.store (dhwAddr c box) box] := by
    intro hmon
    have := triage_inflated c hregs (ld_ptr ⟨Roop, mark_offset_in_bytes⟩ Rmark s) box m
      (f2.trans hRbox) (f3.trans hhdr) hmon
    rw [f5, f6, f7, hthread] at this
    exact this
  refine ⟨fun hmon => ?_, fun hmon hnb => ?_, fun hmon => ?_⟩
  · rw [hmain (fun _ => not_biased_of_monitor hmon)]
    exact (key hmon).2.2
  · rw [hmain hnb]
    by_cases hodd : m = m ||| 1
    · obtain ⟨-, -, l3⟩ := triage_stack_success c hregs _ obj box m f1 (f2.trans hRbox)
        (f3.trans hhdr) hobj hmon (by rw [f6, hhdr]; exact hodd)
      refine ⟨[Event.store (dhwAddr c box) (m ||| 1), Event.store obj box], ?_⟩
      rw [l3, f7]
      have e : markWord.unlocked_value = 1 := rfl
      rw [e, ← hodd]
    · obtain ⟨-, -, l3⟩ := triage_stack_fail c hregs _ obj box m m f1 (f2.trans hRbox)
        (f3.trans hhdr) hmon (by rw [f6, hhdr]) hm hm hodd
      refine ⟨[Event.store (dhwAddr c box) (m ||| 1),
        Event.store (dhwAddr c box) (stackOffsetBits c
          ((ld_ptr ⟨Roop, mark_offset_in_bytes⟩ Rmark s).reg SP) m)], ?_⟩
      rw [l3, f7]
      rfl
  · rw [hmain (fun _ => not_biased_of_monitor hmon)]
    obtain ⟨k1, k2, -⟩ := key hmon
    refine ⟨?_, ?_, ?_, ?_⟩
    · rw [k1]; simp [Ne.symm hsep1, Ne.symm hsep2, hhdr]
    · rw [k2]; simp
    · intro h0
      constructor
      · rw [k1]; simp [Ne.symm hsep3, h0]
      · rw [k1]; simpa using hbox
    · intro h0
      rw [k1]; simp [Ne.symm hsep3, h0]

/-- Witness for `lock_inflated_path`: the header points to a monitor without owner;
biasing is compiled in. -/
theorem lock_inflated_path_witness :
    (compiler_lock_object sampleConfig Register.I0 Register.O7 Register.O1 Register.L0 none true
      (sampleMonitorMachine 0 0 0 0 0)).log =
    [Event.cas 0x8010 0 0x4000 0, Event.store 0x7000 0x7000] :=
  (lock_inflated_path sampleConfig Register.I0 Register.O7 Register.O1 Register.L0 (by decide)
    true (sampleMonitorMachine 0 0 0 0 0) 0x1000 0x7000 0x8002 0x4000 rfl rfl rfl (by decide)
    (by decide) rfl (by decide) (by decide) (by decide) (by decide)).1 (by decide)

/-- C9, as stated, fails: the header holds `0x5000`, the lock record of another thread
(outside the caller's stack window).  The header CAS fails, and the call reports failure
at once: its writes are the failed header CAS and two stores into the record, no
compare-and-swap of a monitor owner is attempted. -/
theorem lock_cas_failure_inflates_counterexample :
    ¬ inStackWindow sampleConfig 0x6001 0x5000 ∧
    (compiler_lock_object sampleConfig Register.I0 Register.O7 Register.O1 Register.L0 none false
      (sampleMachine 0x5000 5)).log =
      [Event.cas 0x1000 0x5001 0 0x5000, Event.store 0x7000 0x5001,
        Event.store 0x7000 0xffffffffffffe000] ∧
    ¬ attemptsOwnerCas 0x4000
      (compiler_lock_object sampleConfig Register.I0 Register.O7 Register.O1 Register.L0 none false
        (sampleMachine 0x5000 5)).log ∧
    (compiler_lock_object sampleConfig Register.I0 Register.O7 Register.O1 Register.L0 none false
      (sampleMachine 0x5000 5)).zf = false := by
  have hlog : (compiler_lock_object sampleConfig Register.I0 Register.O7 Register.O1 Register.L0
      none false (sampleMachine 0x5000 5)).log =
      [Event.cas 0x1000 0x5001 0 0x5000, Event.store 0x7000 0x5001,
        Event.store 0x7000 0xffffffffffffe000] := by decide
  refine ⟨by decide, hlog, ?_, by decide⟩
  rw [hlog]
  rintro ⟨a, o, h⟩
  simp at h

/-- C9, amended: when the header CAS of the stack-lock path fails and the observed header
value `v` does not point into the caller's own stack window, the lock code does not go
to inflation.  Its writes are the failed header CAS and two stores into the record; no
compare-and-swap of a monitor owner is attempted, no word other than `record.displaced`
changes, `record.displaced` ends non-zero, and the call reports failure, which hands
the acquisition to the slow path. -/
theorem lock_cas_failure_hands_off (c : Config) (Roop Rmark Rbox Rscratch : Register)
    (hregs : RegsOK Roop Rmark Rbox Rscratch) (s : Machine) (obj box m v sp thread : Nat)
    (hRoop : s.reg Roop = obj) (hRbox : s.reg Rbox = box) (hRmark : s.reg Rmark = m)
    (hSP : s.reg SP = sp) (hm : m < W) (hv : v < W)
    (hmon : m &&& markWord.monitor_value = 0) (hhdr : s.mem obj = v)
    (hfail : v ≠ m ||| markWord.unlocked_value) (hwin : ¬ inStackWindow c sp v) :
    (compiler_lock_object_triage c Roop Rmark Rbox Rscratch none s).log =
      s.log ++ [Event.cas obj (m ||| markWord.unlocked_value) 0 v,
        Event.store (dhwAddr c box) (m ||| markWord.unlocked_value),
        Event.store (dhwAddr c box) (stackOffsetBits c sp v)] ∧
    ¬ attemptsOwnerCas thread [Event.cas obj (m ||| markWord.unlocked_value) 0 v,
        Event.store (dhwAddr c box) (m ||| markWord.unlocked_value),
        Event.store (dhwAddr c box) (stackOffsetBits c sp v)] ∧
    (∀ x, x ≠ dhwAddr c box →
      (compiler_lock_object_triage c Roop Rmark Rbox Rscratch none s).mem x = s.mem x) ∧
    (compiler_lock_object_triage c Roop Rmark Rbox Rscratch none s).mem (dhwAddr c box) ≠ 0 ∧
    (compiler_lock_object_triage c Roop Rmark Rbox Rscratch none s).zf = false := by
  obtain ⟨l1, l2, l3⟩ :=
    triage_stack_fail c hregs s obj box m v hRoop hRbox hRmark hmon hhdr hv hm hfail
  rw [hSP] at l1 l2 l3
  have hbits : stackOffsetBits c sp v ≠ 0 := fun h => hwin ((inStackWindow_iff_bits c sp v).1 h)
  refine ⟨l3, ?_, ?_, ?_, ?_⟩
  · rintro ⟨a, o, h⟩
    have hodd : m ||| markWord.unlocked_value ≠ 0 := by
      intro h0
      have : (m ||| markWord.unlocked_value) % 2 = 1 := by
        rw [Nat.or_mod_two_eq_one]; right; rfl
      omega
    simp at h
    exact hodd h.2.1.symm
  · intro x hx
    rw [l1]; simp [hx]
  · rw [l1]; simpa using hbits
  · rw [l2]; simpa using hbits

/-- Witness for `lock_cas_failure_hands_off`: the header holds another thread's record. -/
theorem lock_cas_failure_hands_off_witness :
    (compiler_lock_object_triage sampleConfig Register.I0 Register.O7 Register.O1 Register.L0 none
      (ld_ptr ⟨Register.I0, 0⟩ Register.O7 (sampleMachine 0x5000 5))).zf = false :=
  (lock_cas_failure_hands_off sampleConfig Register.I0 Register.O7 Register.O1 Register.L0
    (by decide) (ld_ptr ⟨Register.I0, 0⟩ Register.O7 (sampleMachine 0x5000 5))
    0x1000 0x7000 0x5000 0x5000 0x6001 0x4000 rfl rfl rfl rfl (by decide) (by decide) (by decide)
    rfl (by decide) (by decide)).2.2.2.2

/-- C10, as stated, fails: the monitor's owner field holds `0x5555`, which is not the
calling thread `0x4000`; `recursions`, `EntryList` and `cxq` are zero.  The unlock code
does not leave the owner unchanged: it performs one plain store of null, no
compare-and-swap, and reports released. -/
theorem unlock_inflated_owner_cas_counterexample :
    (sampleMonitorMachine 0x5555 0 0 0 0).mem 0x8010 = 0x5555 ∧
    (sampleMonitorMachine 0x5555 0 0 0 0).reg G2_thread = 0x4000 ∧
    (compiler_unlock_object sampleConfig Register.I0 Register.O7 Register.O1 Register.L0 false
      (sampleMonitorMachine 0x5555 0 0 0 0)).mem 0x8010 = 0 ∧
    (compiler_unlock_object sampleConfig Register.I0 Register.O7 Register.O1 Register.L0 false
      (sampleMonitorMachine 0x5555 0 0 0 0)).log = [Event.store 0x8010 0] ∧
    (compiler_unlock_object sampleConfig Register.I0 Register.O7 Register.O1 Register.L0 false
      (sampleMonitorMachine 0x5555 0 0 0 0)).zf = true := by
  decide

/-- C10, amended: in the inflated branch of the unlock code, when the monitor's
`recursions` is 0 and both `EntryList` and `cxq` are empty, the owner field is set to
null by a plain store, whatever it held before (the code does not check that the owner
is the calling thread and performs no compare-and-swap); no other word changes and the
call returns released. -/
theorem unlock_inflated_uncontended_releases (c : Config) (Roop Rmark Rbox Rscratch : Register)
    (hregs : RegsOK Roop Rmark Rbox Rscratch) (try_bias : Bool) (s : Machine) (obj box h : Nat)
    (hRoop : s.reg Roop = obj) (hRbox : s.reg Rbox = box) (hobj : obj < W)
    (hhdr : s.mem obj = h) (hmon : h &&& markWord.monitor_value ≠ 0)
    (hdhw : s.mem (dhwAddr c box) ≠ 0)
    (hrec : s.mem (fieldAddr h c.recursions_offset_in_bytes) = 0)
    (hentry : s.mem (fieldAddr h c.EntryList_offset_in_bytes) = 0)
    (hcxq : s.mem (fieldAddr h c.cxq_offset_in_bytes) = 0)
    (hdef : try_bias = true → c.allow_delay_slot_filling = false) :
    (compiler_unlock_object c Roop Rmark Rbox Rscratch try_bias s).mem
        (fieldAddr h c.owner_offset_in_bytes) = 0 ∧
    (∀ x, x ≠ fieldAddr h c.owner_offset_in_bytes →
      (compiler_unlock_object c Roop Rmark Rbox Rscratch try_bias s).mem x = s.mem x) ∧
    (compiler_unlock_object c Roop Rmark Rbox Rscratch try_bias s).log =
      s.log ++ [Event.store (fieldAddr h c.owner_offset_in_bytes) 0] ∧
    (compiler_unlock_object c Roop Rmark Rbox Rscratch try_bias s).zf = true := by
  rw [unlock_any_bias c hregs try_bias s obj h hRoop hobj hhdr
    (fun _ => not_biased_of_monitor hmon) hdef]
  obtain ⟨u1, u2, u3⟩ := unlock_inflated_uncontended c hregs s obj box h hRoop hRbox hobj hhdr
    hmon hdhw hrec hentry hcxq
  refine ⟨?_, ?_, u3, u2⟩
  · rw [u1]; simp
  · intro x hx
    rw [u1]; simp [hx]

/-- Witness for `unlock_inflated_uncontended_releases`: the owner is the calling thread;
biasing is compiled in. -/
theorem unlock_inflated_uncontended_releases_witness :
    (compiler_unlock_object sampleConfig Register.I0 Register.O7 Register.O1 Register.L0 true
      (sampleMonitorMachine 0x4000 0 0 0 0)).mem 0x8010 = 0 :=
  (unlock_inflated_uncontended_releases sampleConfig Register.I0 Register.O7 Register.O1
    Register.L0 (by decide) true (sampleMonitorMachine 0x4000 0 0 0 0) 0x1000 0x7000 0x8002
    rfl rfl (by decide) rfl (by decide) (by decide) rfl rfl rfl (by decide)).1

/-! ## Nested acquisitions -/

/-- What the caller's set-up leaves in the registers and the memory. -/
theorem enter_facts {Roop Rmark Rbox Rscratch : Register}
    (hregs : RegsOK Roop Rmark Rbox Rscratch) (obj box sp : Nat) (s : Machine) :
    (enter Roop Rbox obj box sp s).reg Roop = obj ∧
    (enter Roop Rbox obj box sp s).reg Rbox = box ∧
    (enter Roop Rbox obj box sp s).reg SP = sp ∧
    (enter Roop Rbox obj box sp s).mem = s.mem ∧
    (enter Roop Rbox obj box sp s).log = s.log := by
  obtain ⟨⟨a1, a2, a3, a4⟩, ⟨b1, b2, b3, b4⟩, ⟨c1, c2, c3, c4⟩, ⟨d1, d2, d3, d4⟩,
    ⟨e1, e2, e3, e4⟩, ⟨f1, f2, f3, f4⟩, ⟨g1, g2, g3, g4, g5, g6⟩, ⟨k1, k2, k3, k4, k5, k6⟩⟩ :=
    hregs.ne
  simp [enter, *]

/-- The first acquisition of an unlocked object. -/
theorem lock_first_mem (c : Config) {Roop Rmark Rbox Rscratch : Register}
    (hregs : RegsOK Roop Rmark Rbox Rscratch) (try_bias : Bool) (s : Machine)
    (obj box sp m : Nat)
    (hobj : obj < W) (hhdr : s.mem obj = m) (hneutral : m % 4 = 1)
    (hnb : try_bias = true → m &&& 7 ≠ 5) :
    ∀ x, (compiler_lock_object c Roop Rmark Rbox Rscratch none try_bias
        (enter Roop Rbox obj box sp s)).mem x =
      if x = obj then box else if x = dhwAddr c box then m else s.mem x := by
  obtain ⟨e1, e2, -, e4, -⟩ := enter_facts hregs obj box sp s
  obtain ⟨f1, f2, f3, -, -, f6, -⟩ := fetch_mark hregs (enter Roop Rbox obj box sp s) obj e1 hobj
  have hodd : m ||| 1 = m := or_one_of_odd (by omega)
  have hmon : m &&& 2 = 0 := (and_two_eq_zero_iff m).2 (by omega)
  rw [lock_any_bias c hregs try_bias _ obj m e1 hobj (by rw [e4]; exact hhdr) hnb,
    lock_eq_triage]
  obtain ⟨l1, -, -⟩ := triage_stack_success c hregs _ obj box m f1 (f2.trans e2)
    (by rw [f3, e4, hhdr]) hobj hmon (by rw [f6, e4, hhdr, hodd])
  intro x
  rw [l1 x, f6, e4, hodd]

/-- A nested acquisition: the header holds a record in the caller's stack window. -/
theorem lock_nested_mem (c : Config) {Roop Rmark Rbox Rscratch : Register}
    (hregs : RegsOK Roop Rmark Rbox Rscratch) (try_bias : Bool) (s : Machine)
    (obj box sp b1 : Nat)
    (hobj : obj < W) (hhdr : s.mem obj = b1) (hb1 : b1 < W) (halign : b1 % 4 = 0)
    (hwin : inStackWindow c sp b1) :
    ∀ x, (compiler_lock_object c Roop Rmark Rbox Rscratch none try_bias
        (enter Roop Rbox obj box sp s)).mem x =
      if x = dhwAddr c box then 0 else s.mem x := by
  obtain ⟨e1, e2, e3, e4, -⟩ := enter_facts hregs obj box sp s
  obtain ⟨f1, f2, f3, f4, -, f6, -⟩ :=
    fetch_mark hregs (enter Roop Rbox obj box sp s) obj e1 hobj
  have hmon : b1 &&& 2 = 0 := (and_two_eq_zero_iff b1).2 (by omega)
  have hne : b1 ≠ b1 ||| 1 := by
    intro h
    have : (b1 ||| 1) % 2 = 1 := by rw [Nat.or_mod_two_eq_one]; right; rfl
    omega
  rw [lock_any_bias c hregs try_bias _ obj b1 e1 hobj (by rw [e4]; exact hhdr)
    (fun _ => not_biased_of_aligned halign), lock_eq_triage]
  obtain ⟨l1, -, -⟩ := triage_stack_fail c hregs _ obj box b1 b1 f1 (f2.trans e2)
    (by rw [f3, e4, hhdr]) hmon (by rw [f6, e4, hhdr]) hb1 hb1 hne
  intro x
  rw [l1 x, f6, e4, f4, e3, (inStackWindow_iff_bits c sp b1).2 hwin]

/-- Nested acquisitions zero their own records and touch nothing else. -/
theorem lockAll_nested_mem (c : Config) {Roop Rmark Rbox Rscratch : Register}
    (hregs : RegsOK Roop Rmark Rbox Rscratch) (try_bias : Bool) (obj b1 : Nat)
    (hobj : obj < W) (hb1 : b1 < W) (halign : b1 % 4 = 0) :
    ∀ (nested : List (Nat × Nat)) (s : Machine), s.mem obj = b1 →
      (∀ p ∈ nested, inStackWindow c p.2 b1 ∧ dhwAddr c p.1 ≠ obj) →
      ∀ x, (lockAll c Roop Rmark Rbox Rscratch try_bias obj nested s).mem x =
        if x ∈ nested.map (fun p => dhwAddr c p.1) then 0 else s.mem x := by
  intro nested
  induction nested with
  | nil => intro s _ _ x; simp [lockAll]
  | cons p rest ih =>
    intro s hhdr hall x
    have hp := hall p (List.mem_cons_self _ _)
    have hstep := lock_nested_mem c hregs try_bias s obj p.1 p.2 b1 hobj hhdr hb1 halign hp.1
    have hhdr2 : (compiler_lock_object c Roop Rmark Rbox Rscratch none try_bias
        (enter Roop Rbox obj p.1 p.2 s)).mem obj = b1 := by
      rw [hstep]; simp [Ne.symm hp.2, hhdr]
    have := ih _ hhdr2 (fun q hq => hall q (List.mem_cons_of_mem _ hq)) x
    simp only [lockAll]
    rw [this, hstep]
    simp only [List.map_cons, List.mem_cons]
    by_cases h1 : x ∈ List.map (fun p => dhwAddr c p.1) rest
    · simp [h1]
    · by_cases h2 : x = dhwAddr c p.1
      · simp [h2]
      · simp [h1, h2]

/-- One unlock call during the release of nested acquisitions: the record of the first
acquisition restores the mark, a nested record changes nothing. -/
theorem unlock_step_mem (c : Config) {Roop Rmark Rbox Rscratch : Register}
    (hregs : RegsOK Roop Rmark Rbox Rscratch) (try_bias : Bool) (t : Machine) (obj m : Nat)
    (first : Nat × Nat) (nested : List (Nat × Nat)) (p : Nat × Nat)
    (hobj : obj < W) (hm : m < W) (hneutral : m % 4 = 1)
    (hb1 : first.1 < W) (halign : first.1 % 4 = 0)
    (hp : p = first ∨ p ∈ nested)
    (hinv1 : t.mem (dhwAddr c first.1) = m)
    (hinv2 : ∀ q ∈ nested, t.mem (dhwAddr c q.1) = 0)
    (hhdr : t.mem obj = first.1 ∨ t.mem obj = m)
    (hnb : try_bias = true → m &&& 7 ≠ 5)
    (hdef : try_bias = true → c.allow_delay_slot_filling = false) :
    (∀ x, x ≠ obj → (compiler_unlock_object c Roop Rmark Rbox Rscratch try_bias
        (enter Roop Rbox obj p.1 p.2 t)).mem x = t.mem x) ∧
    (p = first → (compiler_unlock_object c Roop Rmark Rbox Rscratch try_bias
        (enter Roop Rbox obj p.1 p.2 t)).mem obj = m) ∧
    ((compiler_unlock_object c Roop Rmark Rbox Rscratch try_bias
        (enter Roop Rbox obj p.1 p.2 t)).mem obj = first.1 ∨
      (compiler_unlock_object c Roop Rmark Rbox Rscratch try_bias
        (enter Roop Rbox obj p.1 p.2 t)).mem obj = m) ∧
    (t.mem obj = m → (compiler_unlock_object c Roop Rmark Rbox Rscratch try_bias
        (enter Roop Rbox obj p.1 p.2 t)).mem obj = m) := by
  obtain ⟨e1, e2, -, e4, -⟩ := enter_facts hregs obj p.1 p.2 t
  have hnb2 : try_bias = true → t.mem obj &&& 7 ≠ 5 := by
    intro ht
    rcases hhdr with h | h
    · rw [h]; exact not_biased_of_aligned halign
    · rw [h]; exact hnb ht
  rw [unlock_any_bias c hregs try_bias (enter Roop Rbox obj p.1 p.2 t) obj (t.mem obj) e1 hobj
    (by rw [e4]) hnb2 hdef]
  rcases hp with rfl | hp
  · have hh : t.mem obj < W := by rcases hhdr with h | h <;> rw [h] <;> assumption
    have hmon : t.mem obj &&& 2 = 0 := by
      rw [and_two_eq_zero_iff]
      rcases hhdr with h | h <;> rw [h] <;> omega
    obtain ⟨u1, -, -⟩ := unlock_stacked c hregs (enter Roop Rbox obj p.1 p.2 t) obj p.1
      (t.mem obj) m e1 e2 hobj hb1 (by rw [e4]) hh hmon (by rw [e4, hinv1]) (by omega)
    refine ⟨?_, ?_, ?_, ?_⟩
    · intro x hx
      rw [u1, e4]; simp [hx]
    · intro _
      rw [u1, e4]
      rcases hhdr with h | h
      · simp [h]
      · have : m ≠ p.1 := by omega
        simp [h, this]
    · right
      rw [u1, e4]
      rcases hhdr with h | h
      · simp [h]
      · have : m ≠ p.1 := by omega
        simp [h, this]
    · intro h
      have : m ≠ p.1 := by omega
      rw [u1, e4]; simp [h, this]
  · obtain ⟨u1, -, -⟩ := unlock_recursive c hregs (enter Roop Rbox obj p.1 p.2 t) p.1 e2
      (by rw [e4]; exact hinv2 p hp)
    rw [u1, e4]
    refine ⟨fun x _ => rfl, ?_, hhdr, fun h => h⟩
    rintro rfl
    have h1 := hinv2 p hp
    rw [hinv1] at h1
    omega

/-- Releasing nested acquisitions in any order keeps the records as they are and ends
with the original mark in the header once the first record has been released. -/
theorem unlockAll_mem (c : Config) {Roop Rmark Rbox Rscratch : Register}
    (hregs : RegsOK Roop Rmark Rbox Rscratch) (try_bias : Bool) (obj m : Nat)
    (first : Nat × Nat) (nested : List (Nat × Nat))
    (hobj : obj < W) (hm : m < W) (hneutral : m % 4 = 1)
    (hb1 : first.1 < W) (halign : first.1 % 4 = 0)
    (hsep : ∀ q ∈ first :: nested, dhwAddr c q.1 ≠ obj)
    (hnb : try_bias = true → m &&& 7 ≠ 5)
    (hdef : try_bias = true → c.allow_delay_slot_filling = false) :
    ∀ (us : List (Nat × Nat)) (t : Machine), (∀ p ∈ us, p = first ∨ p ∈ nested) →
      t.mem (dhwAddr c first.1) = m → (∀ q ∈ nested, t.mem (dhwAddr c q.1) = 0) →
      (t.mem obj = first.1 ∨ t.mem obj = m) →
      (first ∈ us ∨ t.mem obj = m) →
      (unlockAll c Roop Rmark Rbox Rscratch try_bias obj us t).mem obj = m := by
  intro us
  induction us with
  | nil =>
    intro t _ _ _ _ h
    rcases h with h | h
    · exact absurd h (List.not_mem_nil _)
    · simpa [unlockAll] using h
  | cons p rest ih =>
    intro t hall hinv1 hinv2 hhdr hgoal
    obtain ⟨s1, s2, s3, s4⟩ := unlock_step_mem c hregs try_bias t obj m first nested p hobj hm
      hneutral hb1 halign (hall p (List.mem_cons_self _ _)) hinv1 hinv2 hhdr hnb hdef
    simp only [unlockAll]
    apply ih _ (fun q hq => hall q (List.mem_cons_of_mem _ hq))
    · rw [s1 _ (hsep first (List.mem_cons_self _ _))]; exact hinv1
    · intro q hq
      rw [s1 _ (hsep q (List.mem_cons_of_mem _ hq))]; exact hinv2 q hq
    · exact s3
    · rcases hgoal with h | h
      · rcases List.mem_cons.1 h with h' | h'
        · right; exact s2 h'.symm
        · left; exact h'
      · right; exact s4 h

/-- C3: one thread locks an object with neutral mark `m` (lock bits 01) `N >= 1` times,
with `N` distinct lock records, every nested call seeing the header's record pointer
inside its own stack window, and then unlocks once per record, in any order.  After the
locks the header holds the first record, that record holds `m` and every record of a
nested acquisition holds `displaced = 0`; after the unlocks the header equals `m` again.
A pair is a record address and the stack pointer at the call.  With biasing compiled in
the neutral mark is one without the bias pattern. -/
theorem nested_lock_unlock_restores_mark (c : Config) (Roop Rmark Rbox Rscratch : Register)
    (hregs : RegsOK Roop Rmark Rbox Rscratch) (try_bias : Bool) (s : Machine) (obj m : Nat)
    (first : Nat × Nat) (nested unlocks : List (Nat × Nat))
    (hobj : obj < W) (hm : m < W) (hhdr : s.mem obj = m) (hneutral : m % 4 = 1)
    (hb1 : first.1 < W) (halign : first.1 % 4 = 0)
    (hsep : ∀ q ∈ first :: nested, dhwAddr c q.1 ≠ obj)
    (hdistinct : ((first :: nested).map (fun p => dhwAddr c p.1)).Nodup)
    (hwin : ∀ p ∈ nested, inStackWindow c p.2 first.1)
    (hperm : unlocks.Perm (first :: nested))
    (hnb : try_bias = true →
      m &&& markWord.biased_lock_mask_in_place ≠ markWord.biased_lock_pattern)
    (hdef : try_bias = true → c.allow_delay_slot_filling = false) :
    (∀ p ∈ nested,
      (lockAll c Roop Rmark Rbox Rscratch try_bias obj (first :: nested) s).mem (dhwAddr c p.1) = 0) ∧
    (lockAll c Roop Rmark Rbox Rscratch try_bias obj (first :: nested) s).mem obj = first.1 ∧
    (lockAll c Roop Rmark Rbox Rscratch try_bias obj (first :: nested) s).mem (dhwAddr c first.1) = m ∧
    (unlockAll c Roop Rmark Rbox Rscratch try_bias obj unlocks
      (lockAll c Roop Rmark Rbox Rscratch try_bias obj (first :: nested) s)).mem obj = m := by
  have hfirst := lock_first_mem c hregs try_bias s obj first.1 first.2 m hobj hhdr hneutral hnb
  have hsep1 := hsep first (List.mem_cons_self _ _)
  have hhdr1 : (compiler_lock_object c Roop Rmark Rbox Rscratch none try_bias
      (enter Roop Rbox obj first.1 first.2 s)).mem obj = first.1 := by
    rw [hfirst]; simp
  have hnested := lockAll_nested_mem c hregs try_bias obj first.1 hobj hb1 halign nested _ hhdr1
    (fun p hp => ⟨hwin p hp, hsep p (List.mem_cons_of_mem _ hp)⟩)
  have hnd := List.nodup_cons.1 hdistinct
  have hsepn : obj ∉ nested.map (fun p => dhwAddr c p.1) := by
    intro h
    obtain ⟨q, hq, e⟩ := List.mem_map.1 h
    exact hsep q (List.mem_cons_of_mem _ hq) e
  have r1 : ∀ p ∈ nested,
      (lockAll c Roop Rmark Rbox Rscratch try_bias obj (first :: nested) s).mem (dhwAddr c p.1) = 0 := by
    intro p hp
    simp only [lockAll]
    rw [hnested]
    have : dhwAddr c p.1 ∈ nested.map (fun p => dhwAddr c p.1) :=
      List.mem_map.2 ⟨p, hp, rfl⟩
    simp only [this, if_true]
  have r2 : (lockAll c Roop Rmark Rbox Rscratch try_bias obj (first :: nested) s).mem obj = first.1 := by
    simp only [lockAll]
    rw [hnested]
    simp only [hsepn, if_false]
    exact hhdr1
  have r3 : (lockAll c Roop Rmark Rbox Rscratch try_bias obj (first :: nested) s).mem
      (dhwAddr c first.1) = m := by
    simp only [lockAll]
    rw [hnested]
    simp only [hnd.1, if_false]
    rw [hfirst]; simp [hsep1]
  refine ⟨r1, r2, r3, ?_⟩
  apply unlockAll_mem c hregs try_bias obj m first nested hobj hm hneutral hb1 halign hsep hnb
    hdef unlocks _
    (fun p hp => List.mem_cons.1 (hperm.mem_iff.1 hp)) r3 r1 (Or.inl r2)
  left
  exact hperm.mem_iff.2 (List.mem_cons_self _ _)

/-- Witness for `nested_lock_unlock_restores_mark`: three acquisitions with records at
`0x7000`, `0x6f00` and `0x6e00`, released innermost first; biasing is compiled in. -/
theorem nested_lock_unlock_restores_mark_witness :
    (unlockAll sampleConfig Register.I0 Register.O7 Register.O1 Register.L0 true 0x1000
      [(0x6e00, 0x5e01), (0x6f00, 0x5f01), (0x7000, 0x6001)]
      (lockAll sampleConfig Register.I0 Register.O7 Register.O1 Register.L0 true 0x1000
        [(0x7000, 0x6001), (0x6f00, 0x5f01), (0x6e00, 0x5e01)] (sampleMachine 0x29 0))).mem
      0x1000 = 0x29 :=
  (nested_lock_unlock_restores_mark sampleConfig Register.I0 Register.O7 Register.O1 Register.L0
    (by decide) true (sampleMachine 0x29 0) 0x1000 0x29 (0x7000, 0x6001)
    [(0x6f00, 0x5f01), (0x6e00, 0x5e01)] [(0x6e00, 0x5e01), (0x6f00, 0x5f01), (0x7000, 0x6001)]
    (by decide) (by decide) rfl (by decide) (by decide) (by decide) (by decide) (by decide)
    (by decide) (by decide) (by decide) (by decide)).2.2.2

/-! ## The race of two threads for one header -/

/-- Three uninterrupted steps of the step-wise code are the triage code of
`compiler_lock_object`. -/
theorem lockRun_eq_triage (c : Config) (Roop Rmark Rbox Rscratch : Register) (s : Machine) :
    (lockRun c Roop Rmark Rbox Rscratch 3 (LockPc.triage, s)) =
      (LockPc.done, compiler_lock_object_triage c Roop Rmark Rbox Rscratch none s) := by
  simp only [lockRun, lockStep, compiler_lock_object_triage, compiler_lock_object_IsInflated,
    compiler_lock_object_Recursive]
  split_ifs <;> simp_all [lockStep]

/-- The header CAS step of a thread whose fetched mark `m` has lock bits 01. -/
theorem phase_triage (c : Config) {Roop Rmark Rbox Rscratch : Register}
    (hregs : RegsOK Roop Rmark Rbox Rscratch) (s : Machine) (obj m : Nat)
    (hRoop : s.reg Roop = obj) (hRmark : s.reg Rmark = m)
    (hmon : m &&& 2 = 0) (hodd : m ||| 1 = m) :
    (lockStep c Roop Rmark Rbox Rscratch LockPc.triage s).1 = LockPc.afterCas ∧
    (lockStep c Roop Rmark Rbox Rscratch LockPc.triage s).2.reg Rscratch = s.mem obj ∧
    (lockStep c Roop Rmark Rbox Rscratch LockPc.triage s).2.reg Rmark = m ∧
    (lockStep c Roop Rmark Rbox Rscratch LockPc.triage s).2.reg Roop = s.reg Roop ∧
    (lockStep c Roop Rmark Rbox Rscratch LockPc.triage s).2.reg Rbox = s.reg Rbox ∧
    (lockStep c Roop Rmark Rbox Rscratch LockPc.triage s).2.reg SP = s.reg SP ∧
    (∀ x, (lockStep c Roop Rmark Rbox Rscratch LockPc.triage s).2.mem x =
      if x = obj ∧ s.mem obj = m then 0 else s.mem x) ∧
    (lockStep c Roop Rmark Rbox Rscratch LockPc.triage s).2.log =
      s.log ++ [Event.cas obj m 0 (s.mem obj)] := by
  obtain ⟨⟨a1, a2, a3, a4⟩, ⟨b1, b2, b3, b4⟩, ⟨c1, c2, c3, c4⟩, ⟨d1, d2, d3, d4⟩,
    ⟨e1, e2, e3, e4⟩, ⟨f1, f2, f3, f4⟩, ⟨g1, g2, g3, g4, g5, g6⟩, ⟨k1, k2, k3, k4, k5, k6⟩⟩ :=
    hregs.ne
  simp [lockStep, andcc, mov, or3, cas_ptr, Machine.get, Machine.set, Machine.val,
    Condition.holds, immVal_zero, immVal_two, immVal_unlocked, *]
  intro x
  split_ifs <;> simp_all

/-- The step after the header CAS: the comparison and the store in the delay slot. -/
theorem phase_afterCas (c : Config) {Roop Rmark Rbox Rscratch : Register}
    (hregs : RegsOK Roop Rmark Rbox Rscratch) (s : Machine) (box m v : Nat)
    (hRbox : s.reg Rbox = box) (hRmark : s.reg Rmark = m) (hRscratch : s.reg Rscratch = v)
    (hm : m < W) (hv : v < W) :
    (lockStep c Roop Rmark Rbox Rscratch LockPc.afterCas s).1 =
      (if v = m then LockPc.stHeader else LockPc.Recursive) ∧
    (lockStep c Roop Rmark Rbox Rscratch LockPc.afterCas s).2.zf = decide (v = m) ∧
    (lockStep c Roop Rmark Rbox Rscratch LockPc.afterCas s).2.reg Rscratch = v ∧
    (lockStep c Roop Rmark Rbox Rscratch LockPc.afterCas s).2.reg Roop = s.reg Roop ∧
    (lockStep c Roop Rmark Rbox Rscratch LockPc.afterCas s).2.reg Rbox = s.reg Rbox ∧
    (lockStep c Roop Rmark Rbox Rscratch LockPc.afterCas s).2.reg SP = s.reg SP ∧
    (∀ x, (lockStep c Roop Rmark Rbox Rscratch LockPc.afterCas s).2.mem x =
      if x = dhwAddr c box then m else s.mem x) ∧
    (lockStep c Roop Rmark Rbox Rscratch LockPc.afterCas s).2.log =
      s.log ++ [Event.store (dhwAddr c box) m] := by
  obtain ⟨⟨a1, a2, a3, a4⟩, ⟨b1, b2, b3, b4⟩, ⟨c1, c2, c3, c4⟩, ⟨d1, d2, d3, d4⟩,
    ⟨e1, e2, e3, e4⟩, ⟨f1, f2, f3, f4⟩, ⟨g1, g2, g3, g4, g5, g6⟩, ⟨k1, k2, k3, k4, k5, k6⟩⟩ :=
    hregs.ne
  have hz : (wsub v m = 0) = (v = m) := propext (wsub_eq_zero_iff hv hm)
  simp [lockStep, cmp, subcc, st_ptr, Machine.get, Machine.set, Machine.val, Machine.ea,
    Machine.write, Condition.holds, dhwAddr, *]

/-- The last step of a successful stack-lock: the store of the record into the header. -/
theorem phase_stHeader (c : Config) {Roop Rmark Rbox Rscratch : Register}
    (hregs : RegsOK Roop Rmark Rbox Rscratch) (s : Machine) (obj box : Nat)
    (hRoop : s.reg Roop = obj) (hRbox : s.reg Rbox = box) (hobj : obj < W) :
    (lockStep c Roop Rmark Rbox Rscratch LockPc.stHeader s).1 = LockPc.done ∧
    (lockStep c Roop Rmark Rbox Rscratch LockPc.stHeader s).2.zf = s.zf ∧
    (lockStep c Roop Rmark Rbox Rscratch LockPc.stHeader s).2.reg = s.reg ∧
    (∀ x, (lockStep c Roop Rmark Rbox Rscratch LockPc.stHeader s).2.mem x =
      if x = obj then box else s.mem x) ∧
    (lockStep c Roop Rmark Rbox Rscratch LockPc.stHeader s).2.log =
      s.log ++ [Event.store obj box] := by
  obtain ⟨⟨a1, a2, a3, a4⟩, ⟨b1, b2, b3, b4⟩, ⟨c1, c2, c3, c4⟩, ⟨d1, d2, d3, d4⟩,
    ⟨e1, e2, e3, e4⟩, ⟨f1, f2, f3, f4⟩, ⟨g1, g2, g3, g4, g5, g6⟩, ⟨k1, k2, k3, k4, k5, k6⟩⟩ :=
    hregs.ne
  simp [lockStep, st_ptr, Machine.get, Machine.ea, Machine.write, mark_offset_in_bytes,
    immVal_zero, wadd_zero hobj, *]

/-- The recursion test and the store of its result into the record. -/
theorem phase_Recursive (c : Config) {Roop Rmark Rbox Rscratch : Register}
    (hregs : RegsOK Roop Rmark Rbox Rscratch) (s : Machine) (box sp v : Nat)
    (hRbox : s.reg Rbox = box) (hSP : s.reg SP = sp) (hRscratch : s.reg Rscratch = v) :
    (lockStep c Roop Rmark Rbox Rscratch LockPc.Recursive s).1 = LockPc.done ∧
    (lockStep c Roop Rmark Rbox Rscratch LockPc.Recursive s).2.zf =
      decide (stackOffsetBits c sp v = 0) ∧
    (lockStep c Roop Rmark Rbox Rscratch LockPc.Recursive s).2.reg Roop = s.reg Roop ∧
    (lockStep c Roop Rmark Rbox Rscratch LockPc.Recursive s).2.reg Rbox = s.reg Rbox ∧
    (lockStep c Roop Rmark Rbox Rscratch LockPc.Recursive s).2.reg SP = s.reg SP ∧
    (∀ x, (lockStep c Roop Rmark Rbox Rscratch LockPc.Recursive s).2.mem x =
      if x = dhwAddr c box then stackOffsetBits c sp v else s.mem x) ∧
    (lockStep c Roop Rmark Rbox Rscratch LockPc.Recursive s).2.log =
      s.log ++ [Event.store (dhwAddr c box) (stackOffsetBits c sp v)] := by
  obtain ⟨⟨a1, a2, a3, a4⟩, ⟨b1, b2, b3, b4⟩, ⟨c1, c2, c3, c4⟩, ⟨d1, d2, d3, d4⟩,
    ⟨e1, e2, e3, e4⟩, ⟨f1, f2, f3, f4⟩, ⟨g1, g2, g3, g4, g5, g6⟩, ⟨k1, k2, k3, k4, k5, k6⟩⟩ :=
    hregs.ne
  simp [lockStep, sub, andcc, st_ptr, Machine.get, Machine.set, Machine.val, Machine.ea,
    Machine.write, dhwAddr, stackOffsetBits, stackMask, *]

theorem step_mem (c : Config) (σ : System) (w : Bool) :
    (σ.step c w).mem =
      (lockStep c (σ.thread w).Roop (σ.thread w).Rmark (σ.thread w).Rbox (σ.thread w).Rscratch
        (σ.thread w).pc ⟨(σ.thread w).reg, σ.mem, (σ.thread w).zf, σ.log⟩).2.mem := rfl

theorem step_log (c : Config) (σ : System) (w : Bool) :
    (σ.step c w).log =
      (lockStep c (σ.thread w).Roop (σ.thread w).Rmark (σ.thread w).Rbox (σ.thread w).Rscratch
        (σ.thread w).pc ⟨(σ.thread w).reg, σ.mem, (σ.thread w).zf, σ.log⟩).2.log := rfl

theorem step_thread_self (c : Config) (σ : System) (w : Bool) :
    (σ.step c w).thread w =
      { σ.thread w with
        reg := (lockStep c (σ.thread w).Roop (σ.thread w).Rmark (σ.thread w).Rbox
          (σ.thread w).Rscratch (σ.thread w).pc
          ⟨(σ.thread w).reg, σ.mem, (σ.thread w).zf, σ.log⟩).2.reg
        zf := (lockStep c (σ.thread w).Roop (σ.thread w).Rmark (σ.thread w).Rbox
          (σ.thread w).Rscratch (σ.thread w).pc
          ⟨(σ.thread w).reg, σ.mem, (σ.thread w).zf, σ.log⟩).2.zf
        pc := (lockStep c (σ.thread w).Roop (σ.thread w).Rmark (σ.thread w).Rbox
          (σ.thread w).Rscratch (σ.thread w).pc
          ⟨(σ.thread w).reg, σ.mem, (σ.thread w).zf, σ.log⟩).1 } := by
  simp [System.step]

theorem step_thread_other (c : Config) (σ : System) (w i : Bool) (h : i ≠ w) :
    (σ.step c w).thread i = σ.thread i := by
  simp [System.step, h]

/-- The winner's progress survives every change that leaves the header, the winner's
record and the header's write record alone. -/
theorem WinnerInv.winner_frame {c : Config} {obj m boxw : Nat} {base : List Event}
    {mem mem' : Nat → Nat} {log log' : List Event} {t : Thread}
    (h : WinnerInv c obj m boxw base mem log t) (h1 : mem' obj = mem obj)
    (h2 : mem' (dhwAddr c boxw) = mem (dhwAddr c boxw))
    (h3 : log'.filter (changesAt obj) = log.filter (changesAt obj)) :
    WinnerInv c obj m boxw base mem' log' t := by
  unfold WinnerInv at *
  rw [h1, h2, h3]
  exact h

theorem WinnerInv.header {c : Config} {obj m boxw : Nat} {base : List Event}
    {mem : Nat → Nat} {log : List Event} {t : Thread}
    (h : WinnerInv c obj m boxw base mem log t) : mem obj = 0 ∨ mem obj = boxw := by
  rcases h with h | h | h
  · exact Or.inl h.2.2.2.1
  · exact Or.inl h.2.2.1
  · exact Or.inr h.2.2.1

/-- The loser's progress survives every change that leaves its record non-zero. -/
theorem LoserInv.loser_frame {c : Config} {m boxw boxl : Nat} {mem mem' : Nat → Nat} {t : Thread}
    (h : LoserInv c m boxw boxl mem t)
    (h1 : mem (dhwAddr c boxl) ≠ 0 → mem' (dhwAddr c boxl) ≠ 0) :
    LoserInv c m boxw boxl mem' t := by
  rcases h with h | h | h | h
  · exact Or.inl h
  · exact Or.inr (Or.inl h)
  · exact Or.inr (Or.inr (Or.inl h))
  · exact Or.inr (Or.inr (Or.inr ⟨h.1, h.2.1, h1 h.2.2⟩))

theorem filter_append_one (p : Event → Bool) (l : List Event) (e : Event) :
    (l ++ [e]).filter p = if p e then l.filter p ++ [e] else l.filter p := by
  rw [List.filter_append]
  by_cases h : p e <;> simp [List.filter, h]

/-- A step of the winner keeps the invariant. -/
theorem RaceInv.step_winner {c : Config} {obj m : Nat} {box sp : Bool → Nat}
    {base : List Event} {w : Bool} {σ : System} (hok : RaceOK c obj m box sp)
    (h : RaceInv c obj m box sp base w σ) : RaceInv c obj m box sp base w (σ.step c w) := by
  obtain ⟨hargs, hW, hL⟩ := h
  obtain ⟨hregs, aRoop, aRbox, aSP⟩ := hargs w
  have hnw : (!w) ≠ w := by cases w <;> decide
  have hdist : dhwAddr c (box (!w)) ≠ dhwAddr c (box w) := by
    cases w
    · exact Ne.symm hok.box_distinct
    · exact hok.box_distinct
  rcases hW with ⟨hpc, hs, hmk, hhdr, hlog⟩ | ⟨hpc, hz, hhdr, hdhw, hlog⟩ |
    ⟨hpc, hz, hhdr, hdhw, hlog⟩
  · -- the winner compares and saves the mark in its record
    obtain ⟨p1, p2, p3, p4, p5, p6, p7, p8⟩ := phase_afterCas c hregs
      ⟨(σ.thread w).reg, σ.mem, (σ.thread w).zf, σ.log⟩ (box w) m m aRbox hmk hs
      hok.mark_lt hok.mark_lt
    refine ⟨?_, ?_, ?_⟩
    · intro i
      by_cases hi : i = w
      · subst hi
        rw [step_thread_self, hpc]
        exact ⟨hregs, p4.trans aRoop, p5.trans aRbox, p6.trans aSP⟩
      · rw [step_thread_other c σ w i hi]; exact hargs i
    · right; left
      rw [step_thread_self, step_mem, step_log, hpc]
      refine ⟨by simpa using p1, by simpa using p2, ?_, ?_, ?_⟩
      · rw [p7]; simp [Ne.symm (hok.box_sep w), hhdr]
      · rw [p7]; simp
      · rw [p8, filter_append_one]
        simp [changesAt, hok.box_sep w, hlog]
    · rw [step_thread_other c σ w _ hnw]
      apply hL.loser_frame
      intro hne
      rw [step_mem, hpc, p7]
      simpa [hdist] using hne
  · -- the winner publishes its record in the header
    obtain ⟨p1, p2, p3, p4, p5⟩ := phase_stHeader c hregs
      ⟨(σ.thread w).reg, σ.mem, (σ.thread w).zf, σ.log⟩ obj (box w) aRoop aRbox hok.obj_lt
    refine ⟨?_, ?_, ?_⟩
    · intro i
      by_cases hi : i = w
      · subst hi
        rw [step_thread_self, hpc]
        simp only [p3]
        exact ⟨hregs, aRoop, aRbox, aSP⟩
      · rw [step_thread_other c σ w i hi]; exact hargs i
    · right; right
      rw [step_thread_self, step_mem, step_log, hpc]
      refine ⟨p1, by simpa [p2] using hz, ?_, ?_, ?_⟩
      · rw [p4]; simp
      · rw [p4]; simp [hok.box_sep w, hdhw]
      · rw [p5, filter_append_one]
        simp [changesAt, hlog]
    · rw [step_thread_other c σ w _ hnw]
      apply hL.loser_frame
      intro hne
      rw [step_mem, hpc, p4]
      simpa [hok.box_sep (!w)] using hne
  · -- the winner is done
    have hstep : σ.step c w = σ := by
      cases σ with
      | mk mem log thread =>
        simp only [System.step]
        simp only at hpc
        rw [hpc]
        simp only [lockStep]
        congr
        funext i
        by_cases hi : i = w
        · subst hi; simp [← hpc]
        · simp [hi]
    rw [hstep]
    exact ⟨hargs, Or.inr (Or.inr ⟨hpc, hz, hhdr, hdhw, hlog⟩), hL⟩

theorem step_done (c : Config) (σ : System) (w : Bool) (hpc : (σ.thread w).pc = LockPc.done) :
    σ.step c w = σ := by
  cases σ with
  | mk mem log thread =>
    simp only [System.step]
    simp only at hpc
    rw [hpc]
    simp only [lockStep]
    congr
    funext i
    by_cases hi : i = w
    · subst hi; simp [← hpc]
    · simp [hi]

/-- The arguments of both threads survive a step that leaves the stepping thread's
argument registers alone. -/
theorem ArgsInv.args_step {obj : Nat} {box sp : Bool → Nat} {σ : System}
    (hargs : ArgsInv obj box sp σ) (c : Config) (i : Bool)
    (h1 : (lockStep c (σ.thread i).Roop (σ.thread i).Rmark (σ.thread i).Rbox
      (σ.thread i).Rscratch (σ.thread i).pc
      ⟨(σ.thread i).reg, σ.mem, (σ.thread i).zf, σ.log⟩).2.reg (σ.thread i).Roop =
        (σ.thread i).reg (σ.thread i).Roop)
    (h2 : (lockStep c (σ.thread i).Roop (σ.thread i).Rmark (σ.thread i).Rbox
      (σ.thread i).Rscratch (σ.thread i).pc
      ⟨(σ.thread i).reg, σ.mem, (σ.thread i).zf, σ.log⟩).2.reg (σ.thread i).Rbox =
        (σ.thread i).reg (σ.thread i).Rbox)
    (h3 : (lockStep c (σ.thread i).Roop (σ.thread i).Rmark (σ.thread i).Rbox
      (σ.thread i).Rscratch (σ.thread i).pc
      ⟨(σ.thread i).reg, σ.mem, (σ.thread i).zf, σ.log⟩).2.reg SP = (σ.thread i).reg SP) :
    ArgsInv obj box sp (σ.step c i) := by
  intro j
  by_cases hj : j = i
  · subst hj
    obtain ⟨q1, q2, q3, q4⟩ := hargs j
    rw [step_thread_self]
    exact ⟨q1, h1.trans q2, h2.trans q3, h3.trans q4⟩
  · rw [step_thread_other c σ i j hj]
    exact hargs j

/-- A step of the loser keeps the invariant. -/
theorem RaceInv.step_loser {c : Config} {obj m : Nat} {box sp : Bool → Nat}
    {base : List Event} {w : Bool} {σ : System} (hok : RaceOK c obj m box sp)
    (h : RaceInv c obj m box sp base w σ) : RaceInv c obj m box sp base w (σ.step c (!w)) := by
  obtain ⟨hargs, hW, hL⟩ := h
  obtain ⟨hregs, aRoop, aRbox, aSP⟩ := hargs (!w)
  have hnw : w ≠ (!w) := by cases w <;> decide
  have hdist : dhwAddr c (box w) ≠ dhwAddr c (box (!w)) := by
    cases w
    · exact hok.box_distinct
    · exact Ne.symm hok.box_distinct
  have hodd : m ||| 1 = m := or_one_of_odd (by have := hok.neutral; omega)
  have hmon : m &&& 2 = 0 := (and_two_eq_zero_iff m).2 (by have := hok.neutral; omega)
  have hm0 : (0 : Nat) ≠ m := by have := hok.neutral; omega
  have hmb : box w ≠ m := by
    have := hok.neutral
    have := hok.box_aligned w
    omega
  rcases hL with ⟨hpc, hmk⟩ | ⟨hpc, hmk, hs⟩ | ⟨hpc, hs⟩ | ⟨hpc, hz, hdhw⟩
  · -- the loser's header CAS fails
    obtain ⟨p1, p2, p3, p4, p5, p6, p7, p8⟩ := phase_triage c hregs
      ⟨(σ.thread (!w)).reg, σ.mem, (σ.thread (!w)).zf, σ.log⟩ obj m aRoop hmk hmon hodd
    have hv : σ.mem obj ≠ m := by
      rcases hW.header with h | h <;> rw [h]
      · exact hm0
      · exact hmb
    have hmem : (σ.step c (!w)).mem = σ.mem := by
      funext x
      rw [step_mem, hpc, p7]
      simp [hv]
    refine ⟨?_, ?_, ?_⟩
    · apply hargs.args_step c (!w)
      · rw [hpc]; exact p4
      · rw [hpc]; exact p5
      · rw [hpc]; exact p6
    · rw [step_thread_other c σ _ _ hnw]
      apply hW.winner_frame (by rw [hmem]) (by rw [hmem])
      rw [step_log, hpc, p8, filter_append_one]
      simp [changesAt, Ne.symm hv]
    · right; left
      rw [step_thread_self, hpc]
      refine ⟨p1, p3, ?_⟩
      simp only [p2]
      exact hW.header
  · -- the loser sees the failure and goes to the recursion test
    have hvW : (σ.thread (!w)).reg (σ.thread (!w)).Rscratch < W := by
      rcases hs with h | h <;> rw [h]
      · decide
      · exact hok.box_lt w
    have hvm : (σ.thread (!w)).reg (σ.thread (!w)).Rscratch ≠ m := by
      rcases hs with h | h <;> rw [h]
      · exact hm0
      · exact hmb
    obtain ⟨p1, p2, p3, p4, p5, p6, p7, p8⟩ := phase_afterCas c hregs
      ⟨(σ.thread (!w)).reg, σ.mem, (σ.thread (!w)).zf, σ.log⟩ (box (!w)) m _ aRbox hmk rfl
      hok.mark_lt hvW
    refine ⟨?_, ?_, ?_⟩
    · apply hargs.args_step c (!w)
      · rw [hpc]; exact p4
      · rw [hpc]; exact p5
      · rw [hpc]; exact p6
    · rw [step_thread_other c σ _ _ hnw]
      apply hW.winner_frame
      · rw [step_mem, hpc, p7]; simp [Ne.symm (hok.box_sep (!w))]
      · rw [step_mem, hpc, p7]; simp [hdist]
      · rw [step_log, hpc, p8, filter_append_one]
        simp [changesAt, hok.box_sep (!w)]
    · right; right; left
      rw [step_thread_self, hpc]
      refine ⟨?_, ?_⟩
      · simp only [p1]; simp [hvm]
      · simp only [p3]; exact hs
  · -- the recursion test fails and the loser reports failure
    obtain ⟨p1, p2, p3, p4, p5, p6, p7⟩ := phase_Recursive c hregs
      ⟨(σ.thread (!w)).reg, σ.mem, (σ.thread (!w)).zf, σ.log⟩ (box (!w)) (sp (!w)) _
      aRbox aSP rfl
    have hbits : stackOffsetBits c (sp (!w)) ((σ.thread (!w)).reg (σ.thread (!w)).Rscratch)
        ≠ 0 := by
      intro h0
      have hwin := (inStackWindow_iff_bits c _ _).1 h0
      rcases hs with h | h <;> rw [h] at hwin
      · exact hok.null_outside (!w) hwin
      · have := hok.other_outside (!w)
        rw [Bool.not_not] at this
        exact this hwin
    refine ⟨?_, ?_, ?_⟩
    · apply hargs.args_step c (!w)
      · rw [hpc]; exact p3
      · rw [hpc]; exact p4
      · rw [hpc]; exact p5
    · rw [step_thread_other c σ _ _ hnw]
      apply hW.winner_frame
      · rw [step_mem, hpc, p6]; simp [Ne.symm (hok.box_sep (!w))]
      · rw [step_mem, hpc, p6]; simp [hdist]
      · rw [step_log, hpc, p7, filter_append_one]
        simp [changesAt, hok.box_sep (!w)]
    · right; right; right
      rw [step_thread_self, step_mem, hpc]
      refine ⟨p1, ?_, ?_⟩
      · simp only [p2]; simpa using hbits
      · rw [p6]; simpa using hbits
  · -- the loser is done
    rw [step_done c σ (!w) hpc]
    exact ⟨hargs, hW, Or.inr (Or.inr (Or.inr ⟨hpc, hz, hdhw⟩))⟩

/-- Every step keeps the invariant. -/
theorem RaceInv.race_step {c : Config} {obj m : Nat} {box sp : Bool → Nat}
    {base : List Event} {w : Bool} {σ : System} (hok : RaceOK c obj m box sp)
    (h : RaceInv c obj m box sp base w σ) (i : Bool) :
    RaceInv c obj m box sp base w (σ.step c i) := by
  by_cases hi : i = w
  · subst hi; exact h.step_winner hok
  · have : i = !w := by cases i <;> cases w <;> simp_all
    subst this; exact h.step_loser hok

/-- Every schedule keeps the invariant. -/
theorem RaceInv.run_sched {c : Config} {obj m : Nat} {box sp : Bool → Nat}
    {base : List Event} {w : Bool} (hok : RaceOK c obj m box sp) (sched : List Bool) :
    ∀ σ : System, RaceInv c obj m box sp base w σ →
      RaceInv c obj m box sp base w (σ.run c sched) := by
  induction sched with
  | nil => intro σ h; exact h
  | cons i rest ih =>
    intro σ h
    exact ih _ (h.race_step hok i)

/-- The thread that steps first wins the header CAS. -/
theorem RaceInv.of_start {c : Config} {obj m : Nat} {box sp : Bool → Nat} {σ : System}
    (hok : RaceOK c obj m box sp) (h : RaceStart obj m box sp σ) (w : Bool) :
    RaceInv c obj m box sp (σ.log.filter (changesAt obj)) w (σ.step c w) := by
  obtain ⟨hhdr, hall⟩ := h
  obtain ⟨hregs, hpc, aRoop, aRmark, aRbox, aSP⟩ := hall w
  obtain ⟨-, hpc', -, aRmark', -, -⟩ := hall (!w)
  have hnw : (!w) ≠ w := by cases w <;> decide
  have hodd : m ||| 1 = m := or_one_of_odd (by have := hok.neutral; omega)
  have hmon : m &&& 2 = 0 := (and_two_eq_zero_iff m).2 (by have := hok.neutral; omega)
  obtain ⟨p1, p2, p3, p4, p5, p6, p7, p8⟩ := phase_triage c hregs
    ⟨(σ.thread w).reg, σ.mem, (σ.thread w).zf, σ.log⟩ obj m aRoop aRmark hmon hodd
  refine ⟨?_, ?_, ?_⟩
  · intro i
    by_cases hi : i = w
    · subst hi
      rw [step_thread_self, hpc]
      exact ⟨hregs, p4.trans aRoop, p5.trans aRbox, p6.trans aSP⟩
    · rw [step_thread_other c σ w i hi]
      obtain ⟨q1, -, q3, -, q5, q6⟩ := hall i
      exact ⟨q1, q3, q5, q6⟩
  · left
    rw [step_thread_self, step_mem, step_log, hpc]
    refine ⟨p1, ?_, p3, ?_, ?_⟩
    · simp only [p2]; exact hhdr
    · rw [p7]; simp [hhdr]
    · rw [p8, filter_append_one]
      simp [changesAt, hhdr]
  · rw [step_thread_other c σ w _ hnw]
    exact Or.inl ⟨hpc', aRmark'⟩

/-- A step of a thread uses up one of the steps it has left. -/
theorem lockStep_rank (c : Config) (Roop Rmark Rbox Rscratch : Register) (pc : LockPc)
    (s : Machine) : (lockStep c Roop Rmark Rbox Rscratch pc s).1.rank ≤ pc.rank - 1 := by
  cases pc <;> simp only [lockStep, LockPc.rank] <;>
    first
      | (split_ifs <;> simp [LockPc.rank])
      | simp [LockPc.rank]

/-- A thread that is scheduled three times has reached `done`. -/
theorem run_rank (c : Config) (i : Bool) (sched : List Bool) :
    ∀ σ : System, ((σ.run c sched).thread i).pc.rank ≤ (σ.thread i).pc.rank - sched.count i := by
  induction sched with
  | nil => intro σ; simp [System.run]
  | cons j rest ih =>
    intro σ
    have h := ih (σ.step c j)
    have hrun : σ.run c (j :: rest) = (σ.step c j).run c rest := rfl
    rw [hrun]
    by_cases hj : j = i
    · subst hj
      have h2 : ((σ.step c j).thread j).pc.rank ≤ (σ.thread j).pc.rank - 1 := by
        rw [step_thread_self]
        exact lockStep_rank _ _ _ _ _ _ _
      rw [List.count_cons_self]
      omega
    · rw [step_thread_other c σ j i (Ne.symm hj)] at h
      rw [List.count_cons_of_ne (Ne.symm hj)]
      exact h

theorem rank_eq_zero {pc : LockPc} (h : pc.rank = 0) : pc = LockPc.done := by
  cases pc <;> simp [LockPc.rank] at h ⊢

/-- C5: two threads run the lock code on the same object after both fetched the same
neutral mark `m`; their steps are interleaved by an arbitrary schedule, whose first
entry `w` is the thread that performs its header CAS first.  Whenever both calls have
finished (and they have as soon as each thread was scheduled three times), exactly one
call reports acquired, the one of `w`: its record holds `m` and the header holds its
record.  The CAS of the other thread failed: it reports failure with a non-zero
`record.displaced`, and the only changes of the header are the winner's CAS and the
winner's store of its record. -/
theorem lock_race_one_winner (c : Config) (obj m : Nat) (box sp : Bool → Nat)
    (hok : RaceOK c obj m box sp) (σ : System) (hstart : RaceStart obj m box sp σ)
    (w : Bool) (sched : List Bool) :
    (3 ≤ (w :: sched).count false → 3 ≤ (w :: sched).count true →
      ((σ.run c (w :: sched)).thread false).pc = LockPc.done ∧
      ((σ.run c (w :: sched)).thread true).pc = LockPc.done) ∧
    (((σ.run c (w :: sched)).thread false).pc = LockPc.done →
      ((σ.run c (w :: sched)).thread true).pc = LockPc.done →
      ((σ.run c (w :: sched)).thread w).zf = true ∧
      ((σ.run c (w :: sched)).thread (!w)).zf = false ∧
      (σ.run c (w :: sched)).mem obj = box w ∧
      (σ.run c (w :: sched)).mem (dhwAddr c (box w)) = m ∧
      (σ.run c (w :: sched)).mem (dhwAddr c (box (!w))) ≠ 0 ∧
      (σ.run c (w :: sched)).log.filter (changesAt obj) =
        σ.log.filter (changesAt obj) ++ [Event.cas obj m 0 m, Event.store obj (box w)]) := by
  constructor
  · intro h1 h2
    have r1 := run_rank c false (w :: sched) σ
    have r2 := run_rank c true (w :: sched) σ
    rw [(hstart.2 false).2.1] at r1
    rw [(hstart.2 true).2.1] at r2
    have h3 : LockPc.triage.rank = 3 := rfl
    rw [h3] at r1 r2
    exact ⟨rank_eq_zero (by omega), rank_eq_zero (by omega)⟩
  · intro d1 d2
    have hinv : RaceInv c obj m box sp (σ.log.filter (changesAt obj)) w (σ.run c (w :: sched)) :=
      RaceInv.run_sched hok sched _ (RaceInv.of_start hok hstart w)
    obtain ⟨-, hW, hL⟩ := hinv
    have dw : ((σ.run c (w :: sched)).thread w).pc = LockPc.done := by
      cases w
      · exact d1
      · exact d2
    have dl : ((σ.run c (w :: sched)).thread (!w)).pc = LockPc.done := by
      cases w
      · exact d2
      · exact d1
    rcases hW with h | h | h
    · rw [dw] at h; exact absurd h.1 (by decide)
    · rw [dw] at h; exact absurd h.1 (by decide)
    · rcases hL with g | g | g | g
      · rw [dl] at g; exact absurd g.1 (by decide)
      · rw [dl] at g; exact absurd g.1 (by decide)
      · rw [dl] at g; exact absurd g.1 (by decide)
      · exact ⟨h.2.1, g.2.1, h.2.2.1, h.2.2.2.1, g.2.2, h.2.2.2.2⟩

/-- Witness for `lock_race_one_winner`: thread `true` performs its CAS between the CAS
of thread `false` and the stores of thread `false`. -/
theorem lock_race_one_winner_witness :
    ((sampleRace.run sampleConfig [false, true, true, false, true, false]).thread false).zf
      = true ∧
    ((sampleRace.run sampleConfig [false, true, true, false, true, false]).thread true).zf
      = false ∧
    (sampleRace.run sampleConfig [false, true, true, false, true, false]).mem 0x1000 = 0x7000 ∧
    (sampleRace.run sampleConfig [false, true, true, false, true, false]).mem 0x7000 = 0x29 :=
  have h := (lock_race_one_winner sampleConfig 0x1000 0x29
    (fun i => if i then 0x17000 else 0x7000) (fun i => if i then 0x16001 else 0x6001)
    ⟨by decide, by decide, by decide, by decide, by decide, by decide, by decide, by decide,
      by decide⟩
    sampleRace ⟨rfl, by decide⟩ false [true, true, false, true, false]).2 (by decide) (by decide)
  ⟨h.1, h.2.1, h.2.2.1, h.2.2.2.1⟩

/-! ## Projections of the instructions

Each instruction is described by what it leaves in the memory, the write record, the
zero bit and the registers; the paths through the emitted code are followed by
rewriting with these facts. -/

@[simp]
theorem holds_notZero (s : Machine) : Condition.notZero.holds s = !s.zf := by
  cases s; rfl

@[simp]
theorem holds_zero (s : Machine) : Condition.zero.holds s = s.zf := by
  cases s; rfl

@[simp]
theorem holds_notEqual (s : Machine) : Condition.notEqual.holds s = !s.zf := by
  cases s; rfl

theorem wsub_zero_one : ¬ wsub 0 1 = 0 := by
  norm_num [wsub, W]

theorem or_eq_zero {a b : Nat} (h : a ||| b = 0) : a = 0 ∧ b = 0 := by
  constructor
  · apply Nat.eq_of_testBit_eq
    intro i
    have := congrArg (fun n => Nat.testBit n i) h
    simp only [Nat.testBit_or, Nat.zero_testBit, Bool.or_eq_false_iff] at this
    rw [this.1, Nat.zero_testBit]
  · apply Nat.eq_of_testBit_eq
    intro i
    have := congrArg (fun n => Nat.testBit n i) h
    simp only [Nat.testBit_or, Nat.zero_testBit, Bool.or_eq_false_iff] at this
    rw [this.2, Nat.zero_testBit]

@[simp]
theorem get_eq (s : Machine) (r : Register) :
    s.get r = if r = Register.G0 then 0 else s.reg r := by
  cases s; rfl

@[simp]
theorem val_r (s : Machine) (x : Register) : s.val (Operand.r x) = s.get x := by
  cases s; rfl

@[simp]
theorem val_i (s : Machine) (k : Int) : s.val (Operand.i k) = immVal k := by
  cases s; rfl

@[simp]
theorem ea_eq (s : Machine) (b : Register) (d : Int) :
    s.ea ⟨b, d⟩ = wadd (s.get b) (immVal d) := by
  cases s; rfl

@[simp]
theorem set_mem (s : Machine) (d : Register) (v : Nat) : (s.set d v).mem = s.mem := by
  unfold Machine.set; split <;> rfl

@[simp]
theorem set_log (s : Machine) (d : Register) (v : Nat) : (s.set d v).log = s.log := by
  unfold Machine.set; split <;> rfl

@[simp]
theorem set_zf (s : Machine) (d : Register) (v : Nat) : (s.set d v).zf = s.zf := by
  unfold Machine.set; split <;> rfl

@[simp]
theorem set_reg (s : Machine) (d : Register) (v : Nat) (r : Register) :
    (s.set d v).reg r = if d = Register.G0 then s.reg r else if r = d then v else s.reg r := by
  unfold Machine.set; split <;> rfl

@[simp]
theorem add_keeps_mem (s1 : Register) (s2 : Operand) (d : Register) (s : Machine) :
    (add s1 s2 d s).mem = s.mem := set_mem s d _

@[simp]
theorem add_keeps_log (s1 : Register) (s2 : Operand) (d : Register) (s : Machine) :
    (add s1 s2 d s).log = s.log := set_log s d _

@[simp]
theorem add_keeps_zf (s1 : Register) (s2 : Operand) (d : Register) (s : Machine) :
    (add s1 s2 d s).zf = s.zf := set_zf s d _

@[simp]
theorem add_reg (s1 : Register) (s2 : Operand) (d : Register) (s : Machine) (r : Register) :
    (add s1 s2 d s).reg r =
      if d = Register.G0 then s.reg r else if r = d then wadd (s.get s1) (s.val s2) else s.reg r :=
  set_reg s d _ r

@[simp]
theorem sub_keeps_mem (s1 : Register) (s2 : Operand) (d : Register) (s : Machine) :
    (sub s1 s2 d s).mem = s.mem := set_mem s d _

@[simp]
theorem sub_keeps_log (s1 : Register) (s2 : Operand) (d : Register) (s : Machine) :
    (sub s1 s2 d s).log = s.log := set_log s d _

@[simp]
theorem sub_keeps_zf (s1 : Register) (s2 : Operand) (d : Register) (s : Machine) :
    (sub s1 s2 d s).zf = s.zf := set_zf s d _

@[simp]
theorem sub_reg (s1 : Register) (s2 : Operand) (d : Register) (s : Machine) (r : Register) :
    (sub s1 s2 d s).reg r =
      if d = Register.G0 then s.reg r else if r = d then wsub (s.get s1) (s.val s2) else s.reg r :=
  set_reg s d _ r

@[simp]
theorem and3_keeps_mem (s1 : Register) (s2 : Operand) (d : Register) (s : Machine) :
    (and3 s1 s2 d s).mem = s.mem := set_mem s d _

@[simp]
theorem and3_keeps_log (s1 : Register) (s2 : Operand) (d : Register) (s : Machine) :
    (and3 s1 s2 d s).log = s.log := set_log s d _

@[simp]
theorem and3_keeps_zf (s1 : Register) (s2 : Operand) (d : Register) (s : Machine) :
    (and3 s1 s2 d s).zf = s.zf := set_zf s d _

@[simp]
theorem and3_reg (s1 : Register) (s2 : Operand) (d : Register) (s : Machine) (r : Register) :
    (and3 s1 s2 d s).reg r =
      if d = Register.G0 then s.reg r else if r = d then s.get s1 &&& s.val s2 else s.reg r :=
  set_reg s d _ r

@[simp]
theorem or3_keeps_mem (s1 : Register) (s2 : Operand) (d : Register) (s : Machine) :
    (or3 s1 s2 d s).mem = s.mem := set_mem s d _

@[simp]
theorem or3_keeps_log (s1 : Register) (s2 : Operand) (d : Register) (s : Machine) :
    (or3 s1 s2 d s).log = s.log := set_log s d _

@[simp]
theorem or3_keeps_zf (s1 : Register) (s2 : Operand) (d : Register) (s : Machine) :
    (or3 s1 s2 d s).zf = s.zf := set_zf s d _

@[simp]
theorem or3_reg (s1 : Register) (s2 : Operand) (d : Register) (s : Machine) (r : Register) :
    (or3 s1 s2 d s).reg r =
      if d = Register.G0 then s.reg r else if r = d then s.get s1 ||| s.val s2 else s.reg r :=
  set_reg s d _ r

@[simp]
theorem xor3_keeps_mem (s1 : Register) (s2 : Operand) (d : Register) (s : Machine) :
    (xor3 s1 s2 d s).mem = s.mem := set_mem s d _

@[simp]
theorem xor3_keeps_log (s1 : Register) (s2 : Operand) (d : Register) (s : Machine) :
    (xor3 s1 s2 d s).log = s.log := set_log s d _

@[simp]
theorem xor3_keeps_zf (s1 : Register) (s2 : Operand) (d : Register) (s : Machine) :
    (xor3 s1 s2 d s).zf = s.zf := set_zf s d _

@[simp]
theorem xor3_reg (s1 : Register) (s2 : Operand) (d : Register) (s : Machine) (r : Register) :
    (xor3 s1 s2 d s).reg r =
      if d = Register.G0 then s.reg r else if r = d then s.get s1 ^^^ s.val s2 else s.reg r :=
  set_reg s d _ r

@[simp]
theorem andcc_keeps_mem (s1 : Register) (s2 : Operand) (d : Register) (s : Machine) :
    (andcc s1 s2 d s).mem = s.mem := set_mem s d _

@[simp]
theorem andcc_keeps_log (s1 : Register) (s2 : Operand) (d : Register) (s : Machine) :
    (andcc s1 s2 d s).log = s.log := set_log s d _

@[simp]
theorem andcc_zf (s1 : Register) (s2 : Operand) (d : Register) (s : Machine) :
    (andcc s1 s2 d s).zf = decide (s.get s1 &&& s.val s2 = 0) := by
  cases s; rfl

@[simp]
theorem andcc_reg (s1 : Register) (s2 : Operand) (d : Register) (s : Machine) (r : Register) :
    (andcc s1 s2 d s).reg r =
      if d = Register.G0 then s.reg r else if r = d then s.get s1 &&& s.val s2 else s.reg r :=
  set_reg s d _ r

@[simp]
theorem orcc_keeps_mem (s1 : Register) (s2 : Operand) (d : Register) (s : Machine) :
    (orcc s1 s2 d s).mem = s.mem := set_mem s d _

@[simp]
theorem orcc_keeps_log (s1 : Register) (s2 : Operand) (d : Register) (s : Machine) :
    (orcc s1 s2 d s).log = s.log := set_log s d _

@[simp]
theorem orcc_zf (s1 : Register) (s2 : Operand) (d : Register) (s : Machine) :
    (orcc s1 s2 d s).zf = decide (s.get s1 ||| s.val s2 = 0) := by
  cases s; rfl

@[simp]
theorem orcc_reg (s1 : Register) (s2 : Operand) (d : Register) (s : Machine) (r : Register) :
    (orcc s1 s2 d s).reg r =
      if d = Register.G0 then s.reg r else if r = d then s.get s1 ||| s.val s2 else s.reg r :=
  set_reg s d _ r

@[simp]
theorem subcc_keeps_mem (s1 : Register) (s2 : Operand) (d : Register) (s : Machine) :
    (subcc s1 s2 d s).mem = s.mem := set_mem s d _

@[simp]
theorem subcc_keeps_log (s1 : Register) (s2 : Operand) (d : Register) (s : Machine) :
    (subcc s1 s2 d s).log = s.log := set_log s d _

@[simp]
theorem subcc_zf (s1 : Register) (s2 : Operand) (d : Register) (s : Machine) :
    (subcc s1 s2 d s).zf = decide (wsub (s.get s1) (s.val s2) = 0) := by
  cases s; rfl

@[simp]
theorem subcc_reg (s1 : Register) (s2 : Operand) (d : Register) (s : Machine) (r : Register) :
    (subcc s1 s2 d s).reg r =
      if d = Register.G0 then s.reg r else if r = d then wsub (s.get s1) (s.val s2) else s.reg r :=
  set_reg s d _ r

@[simp]
theorem cmp_keeps_mem (s1 : Register) (s2 : Operand) (s : Machine) :
    (cmp s1 s2 s).mem = s.mem := set_mem s _ _

@[simp]
theorem cmp_keeps_log (s1 : Register) (s2 : Operand) (s : Machine) :
    (cmp s1 s2 s).log = s.log := set_log s _ _

@[simp]
theorem cmp_zf (s1 : Register) (s2 : Operand) (s : Machine) :
    (cmp s1 s2 s).zf = decide (wsub (s.get s1) (s.val s2) = 0) := by
  cases s; rfl

@[simp]
theorem cmp_keeps_reg (s1 : Register) (s2 : Operand) (s : Machine) (r : Register) :
    (cmp s1 s2 s).reg r = s.reg r := by
  cases s; rfl

@[simp]
theorem btst_keeps_mem (s2 : Operand) (s1 : Register) (s : Machine) :
    (btst s2 s1 s).mem = s.mem := set_mem s _ _

@[simp]
theorem btst_keeps_log (s2 : Operand) (s1 : Register) (s : Machine) :
    (btst s2 s1 s).log = s.log := set_log s _ _

@[simp]
theorem btst_zf (s2 : Operand) (s1 : Register) (s : Machine) :
    (btst s2 s1 s).zf = decide (s.get s1 &&& s.val s2 = 0) := by
  cases s; rfl

@[simp]
theorem btst_keeps_reg (s2 : Operand) (s1 : Register) (s : Machine) (r : Register) :
    (btst s2 s1 s).reg r = s.reg r := by
  cases s; rfl

@[simp]
theorem mov_keeps_mem (s2 : Operand) (d : Register) (s : Machine) :
    (mov s2 d s).mem = s.mem := set_mem s d _

@[simp]
theorem mov_keeps_log (s2 : Operand) (d : Register) (s : Machine) :
    (mov s2 d s).log = s.log := set_log s d _

@[simp]
theorem mov_keeps_zf (s2 : Operand) (d : Register) (s : Machine) :
    (mov s2 d s).zf = s.zf := set_zf s d _

@[simp]
theorem mov_reg (s2 : Operand) (d : Register) (s : Machine) (r : Register) :
    (mov s2 d s).reg r =
      if d = Register.G0 then s.reg r else if r = d then s.val s2 else s.reg r := by
  have h : mov s2 d s = s.set d (s.val s2) := by
    unfold mov or3
    rw [get_eq, if_pos rfl, Nat.zero_or]
  rw [h]
  exact set_reg s d _ r

@[simp]
theorem nop_eq (s : Machine) : nop s = s := rfl

@[simp]
theorem ld_ptr_keeps_mem (a : Address) (d : Register) (s : Machine) :
    (ld_ptr a d s).mem = s.mem := set_mem s d _

@[simp]
theorem ld_ptr_keeps_log (a : Address) (d : Register) (s : Machine) :
    (ld_ptr a d s).log = s.log := set_log s d _

@[simp]
theorem ld_ptr_keeps_zf (a : Address) (d : Register) (s : Machine) :
    (ld_ptr a d s).zf = s.zf := set_zf s d _

@[simp]
theorem ld_ptr_reg (a : Address) (d : Register) (s : Machine) (r : Register) :
    (ld_ptr a d s).reg r =
      if d = Register.G0 then s.reg r else if r = d then s.mem (s.ea a) else s.reg r :=
  set_reg s d _ r

@[simp]
theorem st_ptr_mem (d : Register) (a : Address) (s : Machine) :
    (st_ptr d a s).mem = fun x => if x = s.ea a then s.get d else s.mem x := by
  cases s; rfl

@[simp]
theorem st_ptr_log (d : Register) (a : Address) (s : Machine) :
    (st_ptr d a s).log = s.log ++ [Event.store (s.ea a) (s.get d)] := by
  cases s; rfl

@[simp]
theorem st_ptr_keeps_zf (d : Register) (a : Address) (s : Machine) :
    (st_ptr d a s).zf = s.zf := by
  cases s; rfl

@[simp]
theorem st_ptr_keeps_reg (d : Register) (a : Address) (s : Machine) (r : Register) :
    (st_ptr d a s).reg r = s.reg r := by
  cases s; rfl

@[simp]
theorem cas_ptr_mem (rs1 rs2 rd : Register) (s : Machine) :
    (cas_ptr rs1 rs2 rd s).mem =
      if s.mem (s.get rs1) = s.get rs2
        then (fun x => if x = s.get rs1 then s.get rd else s.mem x) else s.mem := by
  unfold cas_ptr
  rw [set_mem]

@[simp]
theorem cas_ptr_log (rs1 rs2 rd : Register) (s : Machine) :
    (cas_ptr rs1 rs2 rd s).log =
      s.log ++ [Event.cas (s.get rs1) (s.get rs2) (s.get rd) (s.mem (s.get rs1))] := by
  unfold cas_ptr
  rw [set_log]

@[simp]
theorem cas_ptr_keeps_zf (rs1 rs2 rd : Register) (s : Machine) :
    (cas_ptr rs1 rs2 rd s).zf = s.zf := by
  unfold cas_ptr
  rw [set_zf]

@[simp]
theorem cas_ptr_reg (rs1 rs2 rd : Register) (s : Machine) (r : Register) :
    (cas_ptr rs1 rs2 rd s).reg r =
      if rd = Register.G0 then s.reg r
      else if r = rd then s.mem (s.get rs1) else s.reg r := by
  unfold cas_ptr
  rw [set_reg]

@[simp]
theorem membar_keeps_mem (s : Machine) : (membar_StoreLoad s).mem = s.mem := by
  cases s; rfl

@[simp]
theorem membar_log (s : Machine) : (membar_StoreLoad s).log = s.log ++ [Event.membar] := by
  cases s; rfl

@[simp]
theorem membar_keeps_zf (s : Machine) : (membar_StoreLoad s).zf = s.zf := by
  cases s; rfl

@[simp]
theorem membar_keeps_reg (s : Machine) (r : Register) :
    (membar_StoreLoad s).reg r = s.reg r := by
  cases s; rfl

/-! ## The inflated exit: nested and contended -/

/-- Effect of the unlock code on a monitor held at a nested depth. -/
theorem unlock_inflated_nested (c : Config) {Roop Rmark Rbox Rscratch : Register}
    (hregs : RegsOK Roop Rmark Rbox Rscratch) (s : Machine) (obj box h : Nat)
    (hRoop : s.reg Roop = obj) (hRbox : s.reg Rbox = box) (hobj : obj < W)
    (hhdr : s.mem obj = h) (hmon : h &&& 2 ≠ 0)
    (hdhw : s.mem (dhwAddr c box) ≠ 0)
    (hrec : s.mem (fieldAddr h c.recursions_offset_in_bytes) ≠ 0) :
    (compiler_unlock_object c Roop Rmark Rbox Rscratch false s).mem = s.mem ∧
    (compiler_unlock_object c Roop Rmark Rbox Rscratch false s).zf = false ∧
    (compiler_unlock_object c Roop Rmark Rbox Rscratch false s).log = s.log ∧
    (compiler_unlock_object c Roop Rmark Rbox Rscratch false s).reg G2_thread =
      s.reg G2_thread := by
  obtain ⟨⟨a1, a2, a3, a4⟩, ⟨b1, b2, b3, b4⟩, ⟨c1, c2, c3, c4⟩, ⟨d1, d2, d3, d4⟩,
    ⟨e1, e2, e3, e4⟩, ⟨f1, f2, f3, f4⟩, ⟨g1, g2, g3, g4, g5, g6⟩, ⟨k1, k2, k3, k4, k5, k6⟩⟩ :=
    hregs.ne
  rw [dhwAddr] at hdhw
  rw [fieldAddr] at hrec
  simp [compiler_unlock_object, compiler_unlock_object_inflated, andcc, orcc, ld_ptr, nop,
    st_ptr, Machine.get, Machine.set, Machine.val, Machine.ea, Machine.write, Condition.holds,
    mark_offset_in_bytes, immVal_zero, immVal_two, wadd_zero hobj, fieldAddr, *]

/-- C12: in the inflated branch of the unlock code (the header has the monitor tag and
`record.displaced` is non-zero), a non-zero `recursions` field makes the call a no-op:
no word of memory changes (so `owner`, `recursions`, `EntryList`, `cxq`, `succ` and the
header keep their values) and nothing is written; a monitor owned by the calling thread
is still owned by it, and the call reports not-released. -/
theorem unlock_inflated_nested_noop (c : Config) (Roop Rmark Rbox Rscratch : Register)
    (hregs : RegsOK Roop Rmark Rbox Rscratch) (try_bias : Bool) (s : Machine) (obj box h : Nat)
    (hRoop : s.reg Roop = obj) (hRbox : s.reg Rbox = box) (hobj : obj < W)
    (hhdr : s.mem obj = h) (hmon : h &&& markWord.monitor_value ≠ 0)
    (hdhw : s.mem (dhwAddr c box) ≠ 0)
    (hrec : s.mem (fieldAddr h c.recursions_offset_in_bytes) ≠ 0)
    (hdef : try_bias = true → c.allow_delay_slot_filling = false) :
    (∀ x, (compiler_unlock_object c Roop Rmark Rbox Rscratch try_bias s).mem x = s.mem x) ∧
    (compiler_unlock_object c Roop Rmark Rbox Rscratch try_bias s).log = s.log ∧
    (s.mem (fieldAddr h c.owner_offset_in_bytes) = s.reg G2_thread →
      (compiler_unlock_object c Roop Rmark Rbox Rscratch try_bias s).mem
          (fieldAddr h c.owner_offset_in_bytes) =
        (compiler_unlock_object c Roop Rmark Rbox Rscratch try_bias s).reg G2_thread) ∧
    (compiler_unlock_object c Roop Rmark Rbox Rscratch try_bias s).zf = false := by
  rw [unlock_any_bias c hregs try_bias s obj h hRoop hobj hhdr
    (fun _ => not_biased_of_monitor hmon) hdef]
  obtain ⟨u1, u2, u3, u4⟩ := unlock_inflated_nested c hregs s obj box h hRoop hRbox hobj hhdr
    hmon hdhw hrec
  refine ⟨fun x => by rw [u1], u3, fun h0 => ?_, u2⟩
  rw [u1, u4]
  exact h0

/-- Witness for `unlock_inflated_nested_noop`: the monitor is held by the calling thread
at depth 2 (`recursions = 1`); biasing is compiled in. -/
theorem unlock_inflated_nested_noop_witness :
    (compiler_unlock_object sampleConfig Register.I0 Register.O7 Register.O1 Register.L0 true
      (sampleMonitorMachine 0x4000 1 0 0 0)).zf = false :=
  (unlock_inflated_nested_noop sampleConfig Register.I0 Register.O7 Register.O1
    Register.L0 (by decide) true (sampleMonitorMachine 0x4000 1 0 0 0) 0x1000 0x7000 0x8002
    rfl rfl (by decide) rfl (by decide) (by decide) (by decide) (by decide)).2.2.2

/-- The segments `compiler_unlock_object_recheck` and `compiler_unlock_object_reacquire`
are the tail of the inflated exit. -/
theorem unlock_inflated_tail (c : Config) (Rmark Rbox Rscratch : Register) (s : Machine) :
    compiler_unlock_object_inflated c Rmark Rbox Rscratch s =
      (let s := ld_ptr ⟨Rmark, OM_OFFSET_NO_MONITOR_VALUE_TAG c.recursions_offset_in_bytes⟩ Rbox s
       let s := orcc Rbox (Operand.r G0) G0 s
       let nested := Condition.notZero.holds s
       let s :=
         ld_ptr ⟨Rmark, OM_OFFSET_NO_MONITOR_VALUE_TAG c.EntryList_offset_in_bytes⟩ Rscratch s
       if nested then s else
       let s := ld_ptr ⟨Rmark, OM_OFFSET_NO_MONITOR_VALUE_TAG c.cxq_offset_in_bytes⟩ Rbox s
       let s := orcc Rbox (Operand.r Rscratch) G0 s
       let uncontended := Condition.zero.holds s
       let s := st_ptr G0 ⟨Rmark, OM_OFFSET_NO_MONITOR_VALUE_TAG c.owner_offset_in_bytes⟩ s
       if uncontended then s else compiler_unlock_object_recheck c Rmark Rscratch s) :=
  rfl

/-- The instructions the unlock code executes from its entry to the store of null into
`owner`, on the path through the inflated branch with `recursions` zero and a waiter
queued. -/
theorem unlock_contended_entry (c : Config) {Roop Rmark Rbox Rscratch : Register}
    (hregs : RegsOK Roop Rmark Rbox Rscratch) (s : Machine) (obj box h : Nat)
    (hRoop : s.reg Roop = obj) (hRbox : s.reg Rbox = box) (hobj : obj < W)
    (hhdr : s.mem obj = h) (hmon : h &&& 2 ≠ 0)
    (hdhw : s.mem (dhwAddr c box) ≠ 0)
    (hrec : s.mem (fieldAddr h c.recursions_offset_in_bytes) = 0)
    (hq : s.mem (fieldAddr h c.EntryList_offset_in_bytes) ≠ 0 ∨
      s.mem (fieldAddr h c.cxq_offset_in_bytes) ≠ 0) :
    compiler_unlock_object c Roop Rmark Rbox Rscratch false s =
      compiler_unlock_object_recheck c Rmark Rscratch
        (st_ptr G0 ⟨Rmark, OM_OFFSET_NO_MONITOR_VALUE_TAG c.owner_offset_in_bytes⟩
        (orcc Rbox (Operand.r Rscratch) G0
        (ld_ptr ⟨Rmark, OM_OFFSET_NO_MONITOR_VALUE_TAG c.cxq_offset_in_bytes⟩ Rbox
        (ld_ptr ⟨Rmark, OM_OFFSET_NO_MONITOR_VALUE_TAG c.EntryList_offset_in_bytes⟩ Rscratch
        (orcc Rbox (Operand.r G0) G0
        (ld_ptr ⟨Rmark, OM_OFFSET_NO_MONITOR_VALUE_TAG c.recursions_offset_in_bytes⟩ Rbox
        (andcc Rmark (Operand.i 2) G0
        (andcc Rscratch (Operand.r Rscratch) G0
        (ld_ptr ⟨Rbox, c.displaced_header_offset_in_bytes⟩ Rscratch
        (ld_ptr ⟨Roop, mark_offset_in_bytes⟩ Rmark s)))))))))) := by
  obtain ⟨⟨a1, a2, a3, a4⟩, ⟨b1, b2, b3, b4⟩, ⟨c1, c2, c3, c4⟩, ⟨d1, d2, d3, d4⟩,
    ⟨e1, e2, e3, e4⟩, ⟨f1, f2, f3, f4⟩, ⟨g1, g2, g3, g4, g5, g6⟩, ⟨k1, k2, k3, k4, k5, k6⟩⟩ :=
    hregs.ne
  rw [dhwAddr] at hdhw
  simp only [fieldAddr] at hrec hq
  have p1 : Condition.zero.holds (andcc Rscratch (Operand.r Rscratch) G0
      (ld_ptr ⟨Rbox, c.displaced_header_offset_in_bytes⟩ Rscratch
      (ld_ptr ⟨Roop, mark_offset_in_bytes⟩ Rmark s))) = false := by
    simp [*]
  have p2 : Condition.zero.holds (andcc Rmark (Operand.i 2) G0
      (andcc Rscratch (Operand.r Rscratch) G0
      (ld_ptr ⟨Rbox, c.displaced_header_offset_in_bytes⟩ Rscratch
      (ld_ptr ⟨Roop, mark_offset_in_bytes⟩ Rmark s)))) = false := by
    simp [mark_offset_in_bytes, immVal_zero, immVal_two, wadd_zero hobj, *]
  have p3 : Condition.notZero.holds (orcc Rbox (Operand.r G0) G0
      (ld_ptr ⟨Rmark, OM_OFFSET_NO_MONITOR_VALUE_TAG c.recursions_offset_in_bytes⟩ Rbox
      (andcc Rmark (Operand.i 2) G0
      (andcc Rscratch (Operand.r Rscratch) G0
      (ld_ptr ⟨Rbox, c.displaced_header_offset_in_bytes⟩ Rscratch
      (ld_ptr ⟨Roop, mark_offset_in_bytes⟩ Rmark s)))))) = false := by
    simp [mark_offset_in_bytes, immVal_zero, wadd_zero hobj, *]
  have p4 : Condition.zero.holds (orcc Rbox (Operand.r Rscratch) G0
      (ld_ptr ⟨Rmark, OM_OFFSET_NO_MONITOR_VALUE_TAG c.cxq_offset_in_bytes⟩ Rbox
      (ld_ptr ⟨Rmark, OM_OFFSET_NO_MONITOR_VALUE_TAG c.EntryList_offset_in_bytes⟩ Rscratch
      (orcc Rbox (Operand.r G0) G0
      (ld_ptr ⟨Rmark, OM_OFFSET_NO_MONITOR_VALUE_TAG c.recursions_offset_in_bytes⟩ Rbox
      (andcc Rmark (Operand.i 2) G0
      (andcc Rscratch (Operand.r Rscratch) G0
      (ld_ptr ⟨Rbox, c.displaced_header_offset_in_bytes⟩ Rscratch
      (ld_ptr ⟨Roop, mark_offset_in_bytes⟩ Rmark s))))))))) = false := by
    simp [mark_offset_in_bytes, immVal_zero, wadd_zero hobj, *]
    intro h1
    have h2 := or_eq_zero h1
    rcases hq with hq | hq
    · exact hq h2.2
    · exact hq h2.1
  unfold compiler_unlock_object
  simp only [Bool.false_eq_true, if_false, Bool.false_and, nop_eq, p1, p2]
  rw [unlock_inflated_tail]
  simp only [p3, p4, Bool.false_eq_true, if_false]

/-- The re-acquisition segment when the owner field is seen null: the CAS succeeds. -/
theorem reacquire_won (c : Config) {Roop Rmark Rbox Rscratch : Register}
    (hregs : RegsOK Roop Rmark Rbox Rscratch) (u : Machine) (h : Nat) (hRmark : u.reg Rmark = h)
    (h0 : u.mem (fieldAddr h c.owner_offset_in_bytes) = 0) :
    compiler_unlock_object_reacquire c Rmark Rscratch u =
      cmp G0 (Operand.i 1) (cmp G0 (Operand.r G0) (cmp Rscratch (Operand.r G0)
        (cas_ptr Rmark G0 Rscratch (mov (Operand.r G2_thread) Rscratch
          (add Rmark (Operand.i (OM_OFFSET_NO_MONITOR_VALUE_TAG c.owner_offset_in_bytes))
            Rmark u))))) := by
  obtain ⟨⟨a1, a2, a3, a4⟩, ⟨b1, b2, b3, b4⟩, ⟨c1, c2, c3, c4⟩, ⟨d1, d2, d3, d4⟩,
    ⟨e1, e2, e3, e4⟩, ⟨f1, f2, f3, f4⟩, ⟨g1, g2, g3, g4, g5, g6⟩, ⟨k1, k2, k3, k4, k5, k6⟩⟩ :=
    hregs.ne
  rw [fieldAddr] at h0
  have hl : Condition.notZero.holds (cmp Rscratch (Operand.r G0)
        (cas_ptr Rmark G0 Rscratch (mov (Operand.r G2_thread) Rscratch
          (add Rmark (Operand.i (OM_OFFSET_NO_MONITOR_VALUE_TAG c.owner_offset_in_bytes))
            Rmark u)))) = false := by
    simp [wsub_self, *]
  unfold compiler_unlock_object_reacquire
  simp only [hl]
  rfl

/-- The re-acquisition segment when the owner field is seen non-null: the CAS fails. -/
theorem reacquire_lost (c : Config) {Roop Rmark Rbox Rscratch : Register}
    (hregs : RegsOK Roop Rmark Rbox Rscratch) (u : Machine) (h : Nat) (hRmark : u.reg Rmark = h)
    (hword : u.mem (fieldAddr h c.owner_offset_in_bytes) < W)
    (h0 : u.mem (fieldAddr h c.owner_offset_in_bytes) ≠ 0) :
    compiler_unlock_object_reacquire c Rmark Rscratch u =
      cmp G0 (Operand.r G0) (cmp Rscratch (Operand.r G0)
        (cas_ptr Rmark G0 Rscratch (mov (Operand.r G2_thread) Rscratch
          (add Rmark (Operand.i (OM_OFFSET_NO_MONITOR_VALUE_TAG c.owner_offset_in_bytes))
            Rmark u)))) := by
  obtain ⟨⟨a1, a2, a3, a4⟩, ⟨b1, b2, b3, b4⟩, ⟨c1, c2, c3, c4⟩, ⟨d1, d2, d3, d4⟩,
    ⟨e1, e2, e3, e4⟩, ⟨f1, f2, f3, f4⟩, ⟨g1, g2, g3, g4, g5, g6⟩, ⟨k1, k2, k3, k4, k5, k6⟩⟩ :=
    hregs.ne
  rw [fieldAddr] at h0 hword
  have hw := wsub_eq_zero_iff hword (by decide : 0 < W)
  have hl : Condition.notZero.holds (cmp Rscratch (Operand.r G0)
        (cas_ptr Rmark G0 Rscratch (mov (Operand.r G2_thread) Rscratch
          (add Rmark (Operand.i (OM_OFFSET_NO_MONITOR_VALUE_TAG c.owner_offset_in_bytes))
            Rmark u)))) = true := by
    simp [*]
  unfold compiler_unlock_object_reacquire
  simp only [hl]
  rfl

/-- Effect of the re-acquisition segment, entered with the mark in `Rmark`, on any
memory. -/
theorem unlock_reacquire (c : Config) {Roop Rmark Rbox Rscratch : Register}
    (hregs : RegsOK Roop Rmark Rbox Rscratch) (u : Machine) (h : Nat) (hRmark : u.reg Rmark = h)
    (hword : u.mem (fieldAddr h c.owner_offset_in_bytes) < W) :
    (∀ x, (compiler_unlock_object_reacquire c Rmark Rscratch u).mem x =
      if x = fieldAddr h c.owner_offset_in_bytes ∧
          u.mem (fieldAddr h c.owner_offset_in_bytes) = 0
        then u.reg G2_thread else u.mem x) ∧
    (compiler_unlock_object_reacquire c Rmark Rscratch u).zf =
      !decide (u.mem (fieldAddr h c.owner_offset_in_bytes) = 0) ∧
    (compiler_unlock_object_reacquire c Rmark Rscratch u).log =
      u.log ++ [Event.cas (fieldAddr h c.owner_offset_in_bytes) 0 (u.reg G2_thread)
        (u.mem (fieldAddr h c.owner_offset_in_bytes))] := by
  obtain ⟨⟨a1, a2, a3, a4⟩, ⟨b1, b2, b3, b4⟩, ⟨c1, c2, c3, c4⟩, ⟨d1, d2, d3, d4⟩,
    ⟨e1, e2, e3, e4⟩, ⟨f1, f2, f3, f4⟩, ⟨g1, g2, g3, g4, g5, g6⟩, ⟨k1, k2, k3, k4, k5, k6⟩⟩ :=
    hregs.ne
  by_cases h0 : u.mem (fieldAddr h c.owner_offset_in_bytes) = 0
  · rw [reacquire_won c hregs u h hRmark h0]
    rw [fieldAddr] at h0
    simp [fieldAddr, wsub_self, immVal_one, wsub_zero_one, *]
  · rw [reacquire_lost c hregs u h hRmark hword h0]
    rw [fieldAddr] at h0
    simp [fieldAddr, wsub_self, *]

/-- The recheck segment when `succ` is seen non-null: the barrier and nothing else. -/
theorem recheck_has_succ (c : Config) {Roop Rmark Rbox Rscratch : Register}
    (hregs : RegsOK Roop Rmark Rbox Rscratch) (t : Machine) (h : Nat) (hRmark : t.reg Rmark = h)
    (hsucc : t.mem (fieldAddr h c.succ_offset_in_bytes) ≠ 0) :
    compiler_unlock_object_recheck c Rmark Rscratch t =
      andcc G0 (Operand.r G0) G0 (andcc Rscratch (Operand.r Rscratch) G0
        (ld_ptr ⟨Rmark, OM_OFFSET_NO_MONITOR_VALUE_TAG c.succ_offset_in_bytes⟩ Rscratch
          (membar_StoreLoad t))) := by
  obtain ⟨⟨a1, a2, a3, a4⟩, ⟨b1, b2, b3, b4⟩, ⟨c1, c2, c3, c4⟩, ⟨d1, d2, d3, d4⟩,
    ⟨e1, e2, e3, e4⟩, ⟨f1, f2, f3, f4⟩, ⟨g1, g2, g3, g4, g5, g6⟩, ⟨k1, k2, k3, k4, k5, k6⟩⟩ :=
    hregs.ne
  rw [fieldAddr] at hsucc
  have hl : Condition.notZero.holds (andcc Rscratch (Operand.r Rscratch) G0
        (ld_ptr ⟨Rmark, OM_OFFSET_NO_MONITOR_VALUE_TAG c.succ_offset_in_bytes⟩ Rscratch
          (membar_StoreLoad t))) = true := by
    simp [*]
  unfold compiler_unlock_object_recheck
  simp only [hl]
  rfl

/-- The recheck segment when `succ` is seen null: the barrier, then the re-acquisition. -/
theorem recheck_no_succ (c : Config) {Roop Rmark Rbox Rscratch : Register}
    (hregs : RegsOK Roop Rmark Rbox Rscratch) (t : Machine) (h : Nat) (hRmark : t.reg Rmark = h)
    (hsucc : t.mem (fieldAddr h c.succ_offset_in_bytes) = 0) :
    compiler_unlock_object_recheck c Rmark Rscratch t =
      compiler_unlock_object_reacquire c Rmark Rscratch
        (andcc G0 (Operand.r G0) G0 (andcc Rscratch (Operand.r Rscratch) G0
          (ld_ptr ⟨Rmark, OM_OFFSET_NO_MONITOR_VALUE_TAG c.succ_offset_in_bytes⟩ Rscratch
            (membar_StoreLoad t)))) := by
  obtain ⟨⟨a1, a2, a3, a4⟩, ⟨b1, b2, b3, b4⟩, ⟨c1, c2, c3, c4⟩, ⟨d1, d2, d3, d4⟩,
    ⟨e1, e2, e3, e4⟩, ⟨f1, f2, f3, f4⟩, ⟨g1, g2, g3, g4, g5, g6⟩, ⟨k1, k2, k3, k4, k5, k6⟩⟩ :=
    hregs.ne
  rw [fieldAddr] at hsucc
  have hl : Condition.notZero.holds (andcc Rscratch (Operand.r Rscratch) G0
        (ld_ptr ⟨Rmark, OM_OFFSET_NO_MONITOR_VALUE_TAG c.succ_offset_in_bytes⟩ Rscratch
          (membar_StoreLoad t))) = false := by
    simp [*]
  unfold compiler_unlock_object_recheck
  simp only [hl, Bool.false_eq_true, if_false]

/-- What the unlock code has done when it reaches the barrier on the contended path:
one store of null into `owner`; the mark is in `Rmark`. -/
theorem unlock_contended_release (c : Config) {Roop Rmark Rbox Rscratch : Register}
    (hregs : RegsOK Roop Rmark Rbox Rscratch) (s : Machine) (obj box h : Nat)
    (hRoop : s.reg Roop = obj) (hRbox : s.reg Rbox = box) (hobj : obj < W)
    (hhdr : s.mem obj = h) (hmon : h &&& 2 ≠ 0)
    (hdhw : s.mem (dhwAddr c box) ≠ 0)
    (hrec : s.mem (fieldAddr h c.recursions_offset_in_bytes) = 0)
    (hq : s.mem (fieldAddr h c.EntryList_offset_in_bytes) ≠ 0 ∨
      s.mem (fieldAddr h c.cxq_offset_in_bytes) ≠ 0) :
    ∃ t, compiler_unlock_object c Roop Rmark Rbox Rscratch false s =
        compiler_unlock_object_recheck c Rmark Rscratch t ∧
      (∀ x, t.mem x = if x = fieldAddr h c.owner_offset_in_bytes then 0 else s.mem x) ∧
      t.log = s.log ++ [Event.store (fieldAddr h c.owner_offset_in_bytes) 0] ∧
      t.reg Rmark = h ∧ t.reg G2_thread = s.reg G2_thread := by
  refine ⟨_, unlock_contended_entry c hregs s obj box h hRoop hRbox hobj hhdr hmon hdhw hrec hq,
    ?_⟩
  obtain ⟨⟨a1, a2, a3, a4⟩, ⟨b1, b2, b3, b4⟩, ⟨c1, c2, c3, c4⟩, ⟨d1, d2, d3, d4⟩,
    ⟨e1, e2, e3, e4⟩, ⟨f1, f2, f3, f4⟩, ⟨g1, g2, g3, g4, g5, g6⟩, ⟨k1, k2, k3, k4, k5, k6⟩⟩ :=
    hregs.ne
  simp [fieldAddr, mark_offset_in_bytes, immVal_zero, wadd_zero hobj, *]

/-- Effect of the recheck segment when `succ` is seen non-null. -/
theorem unlock_recheck_has_succ (c : Config) {Roop Rmark Rbox Rscratch : Register}
    (hregs : RegsOK Roop Rmark Rbox Rscratch) (t : Machine) (h : Nat) (hRmark : t.reg Rmark = h)
    (hsucc : t.mem (fieldAddr h c.succ_offset_in_bytes) ≠ 0) :
    (compiler_unlock_object_recheck c Rmark Rscratch t).mem = t.mem ∧
    (compiler_unlock_object_recheck c Rmark Rscratch t).log = t.log ++ [Event.membar] ∧
    (compiler_unlock_object_recheck c Rmark Rscratch t).zf = true := by
  rw [recheck_has_succ c hregs t h hRmark hsucc]
  obtain ⟨⟨a1, a2, a3, a4⟩, ⟨b1, b2, b3, b4⟩, ⟨c1, c2, c3, c4⟩, ⟨d1, d2, d3, d4⟩,
    ⟨e1, e2, e3, e4⟩, ⟨f1, f2, f3, f4⟩, ⟨g1, g2, g3, g4, g5, g6⟩, ⟨k1, k2, k3, k4, k5, k6⟩⟩ :=
    hregs.ne
  simp

/-- The recheck segment when `succ` is seen null: after the barrier it enters the
re-acquisition with the memory as it is. -/
theorem unlock_recheck_no_succ (c : Config) {Roop Rmark Rbox Rscratch : Register}
    (hregs : RegsOK Roop Rmark Rbox Rscratch) (t : Machine) (h : Nat) (hRmark : t.reg Rmark = h)
    (hsucc : t.mem (fieldAddr h c.succ_offset_in_bytes) = 0) :
    ∃ u, compiler_unlock_object_recheck c Rmark Rscratch t =
        compiler_unlock_object_reacquire c Rmark Rscratch u ∧
      u.mem = t.mem ∧ u.log = t.log ++ [Event.membar] ∧ u.reg Rmark = h ∧
      u.reg G2_thread = t.reg G2_thread := by
  refine ⟨_, recheck_no_succ c hregs t h hRmark hsucc, ?_⟩
  obtain ⟨⟨a1, a2, a3, a4⟩, ⟨b1, b2, b3, b4⟩, ⟨c1, c2, c3, c4⟩, ⟨d1, d2, d3, d4⟩,
    ⟨e1, e2, e3, e4⟩, ⟨f1, f2, f3, f4⟩, ⟨g1, g2, g3, g4, g5, g6⟩, ⟨k1, k2, k3, k4, k5, k6⟩⟩ :=
    hregs.ne
  simp [*]

/-- C11: in the inflated branch of the unlock code, with `recursions` zero and
`EntryList` or `cxq` non-empty.  (1) The call stores null into `owner` and then runs the
segment that starts with the store-load barrier and only then reads `succ`.  (2) That
segment, on whatever memory it finds, reports released without a further write when
`succ` is non-null, and (3) enters the re-acquisition when `succ` is null.  (4) The
re-acquisition is one CAS of `owner` from null to the calling thread: when it succeeds
the owner is the caller and the call reports not-released, when it fails nothing
changes and the call reports released.  (5, 6) Without interference: a non-null `succ`
leaves `owner` null and reports released; a null `succ` ends with the caller as owner
and reports not-released. -/
theorem unlock_inflated_contended (c : Config) (Roop Rmark Rbox Rscratch : Register)
    (hregs : RegsOK Roop Rmark Rbox Rscratch) (try_bias : Bool) (s : Machine)
    (obj box h thread : Nat)
    (hRoop : s.reg Roop = obj) (hRbox : s.reg Rbox = box) (hthread : s.reg G2_thread = thread)
    (hobj : obj < W) (hhdr : s.mem obj = h) (hmon : h &&& markWord.monitor_value ≠ 0)
    (hdhw : s.mem (dhwAddr c box) ≠ 0)
    (hrec : s.mem (fieldAddr h c.recursions_offset_in_bytes) = 0)
    (hq : s.mem (fieldAddr h c.EntryList_offset_in_bytes) ≠ 0 ∨
      s.mem (fieldAddr h c.cxq_offset_in_bytes) ≠ 0)
    (hsep : fieldAddr h c.succ_offset_in_bytes ≠ fieldAddr h c.owner_offset_in_bytes)
    (hdef : try_bias = true → c.allow_delay_slot_filling = false) :
    (∃ t, compiler_unlock_object c Roop Rmark Rbox Rscratch try_bias s =
        compiler_unlock_object_recheck c Rmark Rscratch t ∧
      (∀ x, t.mem x = if x = fieldAddr h c.owner_offset_in_bytes then 0 else s.mem x) ∧
      t.log = s.log ++ [Event.store (fieldAddr h c.owner_offset_in_bytes) 0] ∧
      t.reg Rmark = h ∧ t.reg G2_thread = thread) ∧
    (∀ t : Machine, t.reg Rmark = h → t.mem (fieldAddr h c.succ_offset_in_bytes) ≠ 0 →
      (compiler_unlock_object_recheck c Rmark Rscratch t).mem = t.mem ∧
      (compiler_unlock_object_recheck c Rmark Rscratch t).log = t.log ++ [Event.membar] ∧
      (compiler_unlock_object_recheck c Rmark Rscratch t).zf = true) ∧
    (∀ t : Machine, t.reg Rmark = h → t.reg G2_thread = thread →
      t.mem (fieldAddr h c.succ_offset_in_bytes) = 0 →
      ∃ u, compiler_unlock_object_recheck c Rmark Rscratch t =
          compiler_unlock_object_reacquire c Rmark Rscratch u ∧
        u.mem = t.mem ∧ u.log = t.log ++ [Event.membar] ∧ u.reg Rmark = h ∧
        u.reg G2_thread = thread) ∧
    (∀ u : Machine, u.reg Rmark = h → u.reg G2_thread = thread →
      u.mem (fieldAddr h c.owner_offset_in_bytes) < W →
      (∀ x, (compiler_unlock_object_reacquire c Rmark Rscratch u).mem x =
        if x = fieldAddr h c.owner_offset_in_bytes ∧
            u.mem (fieldAddr h c.owner_offset_in_bytes) = 0
          then thread else u.mem x) ∧
      ((compiler_unlock_object_reacquire c Rmark Rscratch u).zf = true ↔
        u.mem (fieldAddr h c.owner_offset_in_bytes) ≠ 0) ∧
      (compiler_unlock_object_reacquire c Rmark Rscratch u).log =
        u.log ++ [Event.cas (fieldAddr h c.owner_offset_in_bytes) 0 thread
          (u.mem (fieldAddr h c.owner_offset_in_bytes))]) ∧
    (s.mem (fieldAddr h c.succ_offset_in_bytes) ≠ 0 →
      (compiler_unlock_object c Roop Rmark Rbox Rscratch try_bias s).mem
          (fieldAddr h c.owner_offset_in_bytes) = 0 ∧
      (compiler_unlock_object c Roop Rmark Rbox Rscratch try_bias s).zf = true ∧
      (compiler_unlock_object c Roop Rmark Rbox Rscratch try_bias s).log =
        s.log ++ [Event.store (fieldAddr h c.owner_offset_in_bytes) 0, Event.membar]) ∧
    (s.mem (fieldAddr h c.succ_offset_in_bytes) = 0 →
      (compiler_unlock_object c Roop Rmark Rbox Rscratch try_bias s).mem
          (fieldAddr h c.owner_offset_in_bytes) = thread ∧
      (compiler_unlock_object c Roop Rmark Rbox Rscratch try_bias s).zf = false ∧
      (compiler_unlock_object c Roop Rmark Rbox Rscratch try_bias s).log =
        s.log ++ [Event.store (fieldAddr h c.owner_offset_in_bytes) 0, Event.membar,
          Event.cas (fieldAddr h c.owner_offset_in_bytes) 0 thread 0]) := by
  rw [unlock_any_bias c hregs try_bias s obj h hRoop hobj hhdr
    (fun _ => not_biased_of_monitor hmon) hdef]
  obtain ⟨t, ht, tm, tl, tr, tg⟩ := unlock_contended_release c hregs s obj box h hRoop hRbox
    hobj hhdr hmon hdhw hrec hq
  rw [hthread] at tg
  have p4 : ∀ u : Machine, u.reg Rmark = h → u.reg G2_thread = thread →
      u.mem (fieldAddr h c.owner_offset_in_bytes) < W →
      (∀ x, (compiler_unlock_object_reacquire c Rmark Rscratch u).mem x =
        if x = fieldAddr h c.owner_offset_in_bytes ∧
            u.mem (fieldAddr h c.owner_offset_in_bytes) = 0
          then thread else u.mem x) ∧
      ((compiler_unlock_object_reacquire c Rmark Rscratch u).zf = true ↔
        u.mem (fieldAddr h c.owner_offset_in_bytes) ≠ 0) ∧
      (compiler_unlock_object_reacquire c Rmark Rscratch u).log =
        u.log ++ [Event.cas (fieldAddr h c.owner_offset_in_bytes) 0 thread
          (u.mem (fieldAddr h c.owner_offset_in_bytes))] := by
    intro u hu hg hw
    obtain ⟨r1, r2, r3⟩ := unlock_reacquire c hregs u h hu hw
    rw [hg] at r1 r3
    refine ⟨r1, ?_, r3⟩
    rw [r2]; simp
  have p3 : ∀ t : Machine, t.reg Rmark = h → t.reg G2_thread = thread →
      t.mem (fieldAddr h c.succ_offset_in_bytes) = 0 →
      ∃ u, compiler_unlock_object_recheck c Rmark Rscratch t =
          compiler_unlock_object_reacquire c Rmark Rscratch u ∧
        u.mem = t.mem ∧ u.log = t.log ++ [Event.membar] ∧ u.reg Rmark = h ∧
        u.reg G2_thread = thread := by
    intro t' hu hg hs
    obtain ⟨u, e1, e2, e3, e4, e5⟩ := unlock_recheck_no_succ c hregs t' h hu hs
    exact ⟨u, e1, e2, e3, e4, e5.trans hg⟩
  have tsucc : t.mem (fieldAddr h c.succ_offset_in_bytes) =
      s.mem (fieldAddr h c.succ_offset_in_bytes) := by
    rw [tm, if_neg hsep]
  have towner : t.mem (fieldAddr h c.owner_offset_in_bytes) = 0 := by
    rw [tm, if_pos rfl]
  refine ⟨⟨t, ht, tm, tl, tr, tg⟩,
    fun t' hu hs => unlock_recheck_has_succ c hregs t' h hu hs, p3, p4, ?_, ?_⟩
  · intro hs
    rw [← tsucc] at hs
    obtain ⟨q1, q2, q3⟩ := unlock_recheck_has_succ c hregs t h tr hs
    rw [ht, q1, q2, q3, tl, towner]
    simp
  · intro hs
    rw [← tsucc] at hs
    obtain ⟨u, e1, e2, e3, e4, e5⟩ := p3 t tr tg hs
    have uowner : u.mem (fieldAddr h c.owner_offset_in_bytes) = 0 := by rw [e2, towner]
    obtain ⟨r1, r2, r3⟩ := p4 u e4 e5 (by rw [uowner]; decide)
    rw [ht, e1]
    refine ⟨?_, ?_, ?_⟩
    · rw [r1, if_pos ⟨rfl, uowner⟩]
    · cases hz : (compiler_unlock_object_reacquire c Rmark Rscratch u).zf
      · rfl
      · exact absurd uowner (r2.1 hz)
    · rw [r3, e3, tl, uowner]
      simp

/-- Witness for `unlock_inflated_contended`: a waiter is queued on `cxq` and `succ` is
null, so the caller takes the monitor back and reports not-released. -/
theorem unlock_inflated_contended_witness :
    (compiler_unlock_object sampleConfig Register.I0 Register.O7 Register.O1 Register.L0 false
      (sampleMonitorMachine 0x4000 0 0 0x5100 0)).log =
    [Event.store 0x8010 0, Event.membar, Event.cas 0x8010 0 0x4000 0] :=
  ((unlock_inflated_contended sampleConfig Register.I0 Register.O7 Register.O1 Register.L0
    (by decide) false (sampleMonitorMachine 0x4000 0 0 0x5100 0) 0x1000 0x7000 0x8002 0x4000
    rfl rfl rfl (by decide) rfl (by decide) (by decide) rfl (Or.inr (by decide)) (by decide)
    (by decide)).2.2.2.2.2 rfl).2.2

/-! ## Biased exit -/

/-- The branch of `biased_locking_exit` is taken on a header with the bias pattern. -/
theorem exit_taken {Roop Rmark Rbox Rscratch : Register}
    (hregs : RegsOK Roop Rmark Rbox Rscratch) (allow : Bool) (s : Machine) (obj h : Nat)
    (hRoop : s.reg Roop = obj) (hobj : obj < W) (hhdr : s.mem obj = h) (hpat : h &&& 7 = 5) :
    (biased_locking_exit ⟨Roop, mark_offset_in_bytes⟩ Rscratch allow s).1 = true ∧
    (biased_locking_exit ⟨Roop, mark_offset_in_bytes⟩ Rscratch allow s).2.mem = s.mem ∧
    (biased_locking_exit ⟨Roop, mark_offset_in_bytes⟩ Rscratch allow s).2.log = s.log ∧
    (biased_locking_exit ⟨Roop, mark_offset_in_bytes⟩ Rscratch allow s).2.zf = true ∧
    (∀ r, r ≠ Rscratch →
      (biased_locking_exit ⟨Roop, mark_offset_in_bytes⟩ Rscratch allow s).2.reg r = s.reg r) := by
  obtain ⟨⟨a1, a2, a3, a4⟩, ⟨b1, b2, b3, b4⟩, ⟨c1, c2, c3, c4⟩, ⟨d1, d2, d3, d4⟩,
    ⟨e1, e2, e3, e4⟩, ⟨f1, f2, f3, f4⟩, ⟨g1, g2, g3, g4, g5, g6⟩, ⟨k1, k2, k3, k4, k5, k6⟩⟩ :=
    hregs.ne
  have e5 : markWord.biased_lock_pattern = 5 := rfl
  have e7 : markWord.biased_lock_mask_in_place = 7 := rfl
  have h5 : immVal 5 = 5 := by decide
  have h7 : immVal 7 = 7 := by decide
  cases allow <;>
  simp [biased_locking_exit, holds_equal, mark_offset_in_bytes, immVal_zero,
      wadd_zero hobj, wsub_self, *] <;>
  intro r hr <;> simp [hr]

/-- C17: on a header whose low three bits are the bias pattern, `biased_locking_exit`
takes its branch to `done`, and the unlock code with biasing compiled in is a no-op: no
word of memory changes (neither the header nor the lock record nor a monitor field),
nothing is written, and the call reports success.  The statement holds for every value
of the thread register and of the header's owner bits: neither is inspected. -/
theorem unlock_biased_noop (c : Config) (Roop Rmark Rbox Rscratch : Register)
    (hregs : RegsOK Roop Rmark Rbox Rscratch) (s : Machine) (obj h : Nat)
    (hRoop : s.reg Roop = obj) (hobj : obj < W) (hhdr : s.mem obj = h)
    (hpat : h &&& markWord.biased_lock_mask_in_place = markWord.biased_lock_pattern) :
    (∀ allow : Bool,
      (biased_locking_exit ⟨Roop, mark_offset_in_bytes⟩ Rscratch allow s).1 = true ∧
      (biased_locking_exit ⟨Roop, mark_offset_in_bytes⟩ Rscratch allow s).2.mem = s.mem ∧
      (biased_locking_exit ⟨Roop, mark_offset_in_bytes⟩ Rscratch allow s).2.log = s.log ∧
      (biased_locking_exit ⟨Roop, mark_offset_in_bytes⟩ Rscratch allow s).2.zf = true) ∧
    (compiler_unlock_object c Roop Rmark Rbox Rscratch true s).mem = s.mem ∧
    (compiler_unlock_object c Roop Rmark Rbox Rscratch true s).log = s.log ∧
    (compiler_unlock_object c Roop Rmark Rbox Rscratch true s).zf = true ∧
    (∀ thread : Nat,
      (compiler_unlock_object c Roop Rmark Rbox Rscratch true
        { s with reg := fun r => if r = G2_thread then thread else s.reg r }).mem = s.mem ∧
      (compiler_unlock_object c Roop Rmark Rbox Rscratch true
        { s with reg := fun r => if r = G2_thread then thread else s.reg r }).zf = true) := by
  have key : ∀ s' : Machine, s'.reg Roop = obj → s'.mem obj = h →
      (compiler_unlock_object c Roop Rmark Rbox Rscratch true s').mem = s'.mem ∧
      (compiler_unlock_object c Roop Rmark Rbox Rscratch true s').log = s'.log ∧
      (compiler_unlock_object c Roop Rmark Rbox Rscratch true s').zf = true := by
    intro s' hR hH
    obtain ⟨x1, x2, x3, x4, -⟩ :=
      exit_taken hregs c.allow_delay_slot_filling s' obj h hR hobj hH hpat
    unfold compiler_unlock_object
    simp only [if_true, Bool.true_and]
    generalize biased_locking_exit ⟨Roop, mark_offset_in_bytes⟩ Rscratch
      c.allow_delay_slot_filling s' = r at x1 x2 x3 x4 ⊢
    obtain ⟨b, s2⟩ := r
    simp only at x1 x2 x3 x4
    subst x1
    simp only [if_true]
    split <;> simp [*]
  refine ⟨fun allow => ?_, (key s hRoop hhdr).1, (key s hRoop hhdr).2.1,
    (key s hRoop hhdr).2.2, fun thread => ?_⟩
  · obtain ⟨x1, x2, x3, x4, -⟩ := exit_taken hregs allow s obj h hRoop hobj hhdr hpat
    exact ⟨x1, x2, x3, x4⟩
  · have hne : Roop ≠ G2_thread := by
      have := hregs.ne
      exact this.2.1.1
    have := key { s with reg := fun r => if r = G2_thread then thread else s.reg r }
      (by simp [hne, hRoop]) hhdr
    exact ⟨this.1, this.2.2⟩

/-- Witness for `unlock_biased_noop`: the header `0x5005` is biased to thread `0x5000`,
the caller is thread `0x4000`. -/
theorem unlock_biased_noop_witness :
    (compiler_unlock_object sampleConfig Register.I0 Register.O7 Register.O1 Register.L0 true
      (sampleMachine 0x5005 0x7000)).zf = true :=
  (unlock_biased_noop sampleConfig Register.I0 Register.O7 Register.O1 Register.L0 (by decide)
    (sampleMachine 0x5005 0x7000) 0x1000 0x5005 rfl (by decide) rfl (by decide)).2.2.2.1

/-! ## Bit masks of the mark word -/

/-- The immediate `~mask`, as a 64-bit register value. -/
theorem immVal_not {a : Nat} (h : a < W) : immVal (-(a : Int) - 1) = W - 1 - a := by
  simp only [immVal, W] at *
  norm_num at *
  omega

theorem testBit_notMask {a : Nat} (h : a < W) (i : Nat) :
    (W - 1 - a).testBit i = (decide (i < 64) && !a.testBit i) := by
  have e : W - 1 - a = 2 ^ 64 - (a + 1) := by simp only [W]; omega
  rw [e]
  exact Nat.testBit_two_pow_sub_succ h i

theorem testBit_of_lt_W {x : Nat} (h : x < W) {i : Nat} (hi : 64 ≤ i) : x.testBit i = false :=
  Nat.testBit_lt_two_pow (Nat.lt_of_lt_of_le h (Nat.pow_le_pow_right (by norm_num) hi))

theorem testBit_eq_of_and_eq {x y k : Nat} (h : x &&& k = y &&& k) (i : Nat)
    (hk : k.testBit i = true) : x.testBit i = y.testBit i := by
  have := congrArg (fun n => Nat.testBit n i) h
  simpa [Nat.testBit_and, hk] using this

theorem testBit_false_of_and_eq_zero {a k : Nat} (h : a &&& k = 0) (i : Nat)
    (hk : k.testBit i = true) : a.testBit i = false := by
  have := congrArg (fun n => Nat.testBit n i) h
  simpa [Nat.testBit_and, hk] using this

/-- Two words agree outside a mask exactly when their difference vanishes under the
complement of the mask. -/
theorem and_notMask_eq_zero_iff {m q a : Nat} (hm : m < W) (hq : q < W) (ha : a < W) :
    (m ^^^ q) &&& (W - 1 - a) = 0 ↔ m ||| a = q ||| a := by
  constructor
  · intro h
    apply Nat.eq_of_testBit_eq
    intro i
    have hi := congrArg (fun n => Nat.testBit n i) h
    simp only [Nat.testBit_and, Nat.testBit_xor, testBit_notMask ha, Nat.zero_testBit] at hi
    rw [Nat.testBit_or, Nat.testBit_or]
    by_cases h64 : i < 64
    · cases h1 : m.testBit i <;> cases h2 : q.testBit i <;> cases h3 : a.testBit i <;>
        simp_all
    · rw [testBit_of_lt_W hm (by omega), testBit_of_lt_W hq (by omega)]
  · intro h
    apply Nat.eq_of_testBit_eq
    intro i
    have hi := congrArg (fun n => Nat.testBit n i) h
    simp only [Nat.testBit_or] at hi
    simp only [Nat.testBit_and, Nat.testBit_xor, testBit_notMask ha, Nat.zero_testBit]
    cases h1 : m.testBit i <;> cases h2 : q.testBit i <;> cases h3 : a.testBit i <;>
      simp_all

/-- Masking with the complement of `a` is invisible under a mask disjoint from `a`. -/
theorem and_notMask_and {x a k : Nat} (ha : a < W) (hk : k < W) (hak : a &&& k = 0) :
    (x &&& (W - 1 - a)) &&& k = x &&& k := by
  apply Nat.eq_of_testBit_eq
  intro i
  simp only [Nat.testBit_and, testBit_notMask ha]
  cases h3 : k.testBit i
  · simp
  · have h64 : i < 64 := by
      by_contra hc
      rw [testBit_of_lt_W hk (by omega)] at h3
      exact Bool.noConfusion h3
    have := testBit_false_of_and_eq_zero hak i h3
    simp [h64, this]

theorem xor_and_eq_zero_iff {m q k : Nat} : (m ^^^ q) &&& k = 0 ↔ m &&& k = q &&& k := by
  rw [Nat.and_xor_distrib_right, Nat.xor_eq_zero]

theorem or_and_of_disjoint {t p k : Nat} (h : t &&& k = 0) : (t ||| p) &&& k = p &&& k := by
  apply Nat.eq_of_testBit_eq
  intro i
  simp only [Nat.testBit_and, Nat.testBit_or]
  cases h3 : k.testBit i
  · simp
  · rw [testBit_false_of_and_eq_zero h i h3]
    simp

/-! ## Loading the klass and the prototype header -/

@[simp]
theorem load_klass_keeps_mem (c : Config) (o k : Register) (s : Machine) :
    (load_klass c o k s).mem = s.mem := by
  unfold load_klass ld
  split <;> simp

@[simp]
theorem load_klass_keeps_log (c : Config) (o k : Register) (s : Machine) :
    (load_klass c o k s).log = s.log := by
  unfold load_klass ld
  split <;> simp

@[simp]
theorem load_klass_keeps_zf (c : Config) (o k : Register) (s : Machine) :
    (load_klass c o k s).zf = s.zf := by
  unfold load_klass ld
  split <;> simp

theorem load_klass_reg (c : Config) (o k : Register) (s : Machine) (r : Register)
    (hk : k ≠ Register.G0) :
    (load_klass c o k s).reg r =
      if r = k then klassOf c s.mem (s.get o) else s.reg r := by
  unfold load_klass ld klassOf
  split
  · by_cases hr : r = k <;> simp [hk, hr]
  · simp [hk]

/-! ## The paths through `biased_locking_enter` -/

theorem is_simm_pattern : is_simm (markWord.biased_lock_pattern : Int) 5 = true := by decide

theorem immVal_pattern : immVal (markWord.biased_lock_pattern : Int) = 5 := by decide

theorem immVal_bias_mask : immVal (markWord.biased_lock_mask_in_place : Int) = 7 := by decide

/-- The path to `done` without a CAS: the difference word is zero outside the age
bits. -/
theorem bias_enter_done_path (c : Config) {Roop Rmark Rbox Rscratch : Register}
    (hregs : RegsOK Roop Rmark Rbox Rscratch) (slow_case : Bool) (s : Machine) (obj m p : Nat)
    (hstat : c.PrintBiasedLockingStatistics = false)
    (hRoop : s.reg Roop = obj) (hRmark : s.reg Rmark = m)
    (hproto : prototype_header c s.mem obj = p)
    (hpat : m &&& 7 = 5)
    (hT : (m ^^^ (s.reg G2_thread ||| p)) &&& immVal (-(c.age_mask_in_place : Int) - 1) = 0) :
    (biased_locking_enter c Roop Rmark Rscratch slow_case none s).1 = BiasExit.done ∧
    (biased_locking_enter c Roop Rmark Rscratch slow_case none s).2.mem = s.mem ∧
    (biased_locking_enter c Roop Rmark Rscratch slow_case none s).2.log = s.log ∧
    (biased_locking_enter c Roop Rmark Rscratch slow_case none s).2.zf = true := by
  obtain ⟨⟨a1, a2, a3, a4⟩, ⟨b1, b2, b3, b4⟩, ⟨c1, c2, c3, c4⟩, ⟨d1, d2, d3, d4⟩,
    ⟨e1, e2, e3, e4⟩, ⟨f1, f2, f3, f4⟩, ⟨g1, g2, g3, g4, g5, g6⟩, ⟨k1, k2, k3, k4, k5, k6⟩⟩ :=
    hregs.ne
  rw [prototype_header] at hproto
  by_cases hcb : c.use_cbcond <;>
  simp [biased_locking_enter, cmp_and_brx_short, is_simm_pattern, immVal_pattern,
    immVal_bias_mask, load_klass_reg, holds_equal, wsub_self, hcb, *]

/-- The path through `try_revoke_bias`: the low three bits of the difference word are
not clear. -/
theorem bias_enter_revoke_path (c : Config) {Roop Rmark Rbox Rscratch : Register}
    (hregs : RegsOK Roop Rmark Rbox Rscratch) (slow_case : Bool) (s : Machine) (obj m p : Nat)
    (hstat : c.PrintBiasedLockingStatistics = false)
    (hRoop : s.reg Roop = obj) (hRmark : s.reg Rmark = m)
    (hproto : prototype_header c s.mem obj = p)
    (hpat : m &&& 7 = 5)
    (hT : ¬ (m ^^^ (s.reg G2_thread ||| p)) &&& immVal (-(c.age_mask_in_place : Int) - 1) = 0)
    (hT7 : ¬ ((m ^^^ (s.reg G2_thread ||| p)) &&& immVal (-(c.age_mask_in_place : Int) - 1))
      &&& 7 = 0) :
    (biased_locking_enter c Roop Rmark Rscratch slow_case none s).1 = BiasExit.cas_label ∧
    (∀ x, (biased_locking_enter c Roop Rmark Rscratch slow_case none s).2.mem x =
      if x = obj ∧ s.mem obj = m then p else s.mem x) ∧
    (biased_locking_enter c Roop Rmark Rscratch slow_case none s).2.log =
      s.log ++ [Event.cas obj m p (s.mem obj)] ∧
    (biased_locking_enter c Roop Rmark Rscratch slow_case none s).2.reg Rmark = m := by
  obtain ⟨⟨a1, a2, a3, a4⟩, ⟨b1, b2, b3, b4⟩, ⟨c1, c2, c3, c4⟩, ⟨d1, d2, d3, d4⟩,
    ⟨e1, e2, e3, e4⟩, ⟨f1, f2, f3, f4⟩, ⟨g1, g2, g3, g4, g5, g6⟩, ⟨k1, k2, k3, k4, k5, k6⟩⟩ :=
    hregs.ne
  rw [prototype_header] at hproto
  by_cases hcb : c.use_cbcond <;>
  simp [biased_locking_enter, biased_locking_enter_try_revoke_bias, cmp_and_brx_short,
    is_simm_pattern, immVal_pattern, immVal_bias_mask, load_klass_reg, holds_equal,
    wsub_self, hcb, *] <;>
  intro x <;> split_ifs <;> simp_all

theorem biasStateMask_lt (c : Config) (h : biasStateMask c < 4096) : biasStateMask c < W :=
  Nat.lt_trans h (by decide)

theorem lt_of_or_lt {a b n : Nat} (h : a ||| b < 2 ^ n) : a < 2 ^ n ∧ b < 2 ^ n := by
  have key : ∀ i, i ≥ n → a.testBit i = false ∧ b.testBit i = false := by
    intro i hi
    have := Nat.testBit_lt_two_pow
      (Nat.lt_of_lt_of_le h (Nat.pow_le_pow_right (by norm_num) hi))
    rw [Nat.testBit_or, Bool.or_eq_false_iff] at this
    exact this
  exact ⟨Nat.lt_pow_two_of_testBit a (fun i hi => (key i hi).1),
    Nat.lt_pow_two_of_testBit b (fun i hi => (key i hi).2)⟩

theorem epoch_lt (c : Config) (h : biasStateMask c < 4096) : c.epoch_mask_in_place < W := by
  have h2 : biasStateMask c < 2 ^ 64 := biasStateMask_lt c h
  exact (lt_of_or_lt h2).2

theorem age_lt (c : Config) (h : biasStateMask c < 4096) : c.age_mask_in_place < W := by
  have h2 : biasStateMask c < 2 ^ 64 := biasStateMask_lt c h
  exact (lt_of_or_lt (lt_of_or_lt h2).1).2

theorem immVal_state (c : Config) (h : biasStateMask c < 4096) :
    immVal ((markWord.biased_lock_mask_in_place ||| c.age_mask_in_place |||
      c.epoch_mask_in_place : Nat) : Int) = biasStateMask c :=
  immVal_ofNat (biasStateMask_lt c h)

/-- The path through `try_rebias`: the difference word is clear in its low three bits
and not clear in the epoch bits. -/
theorem bias_enter_rebias_path (c : Config) {Roop Rmark Rbox Rscratch : Register}
    (hregs : RegsOK Roop Rmark Rbox Rscratch) (slow_case : Bool) (s : Machine) (obj m p v : Nat)
    (hstat : c.PrintBiasedLockingStatistics = false)
    (hRoop : s.reg Roop = obj) (hRmark : s.reg Rmark = m)
    (hproto : prototype_header c s.mem obj = p)
    (hhdr : s.mem obj = v) (hv : v < W) (hstate : biasStateMask c < 4096)
    (hpat : m &&& 7 = 5)
    (hT : ¬ (m ^^^ (s.reg G2_thread ||| p)) &&& immVal (-(c.age_mask_in_place : Int) - 1) = 0)
    (hT7 : ((m ^^^ (s.reg G2_thread ||| p)) &&& immVal (-(c.age_mask_in_place : Int) - 1))
      &&& 7 = 0)
    (hTe : ¬ ((m ^^^ (s.reg G2_thread ||| p)) &&& immVal (-(c.age_mask_in_place : Int) - 1))
      &&& c.epoch_mask_in_place = 0) :
    (biased_locking_enter c Roop Rmark Rscratch slow_case none s).1 =
      (if slow_case = true ∧ v ≠ m &&& biasStateMask c then BiasExit.slow_case
        else BiasExit.done) ∧
    (∀ x, (biased_locking_enter c Roop Rmark Rscratch slow_case none s).2.mem x =
      if x = obj ∧ v = m &&& biasStateMask c then s.reg G2_thread ||| p else s.mem x) ∧
    (biased_locking_enter c Roop Rmark Rscratch slow_case none s).2.log =
      s.log ++ [Event.cas obj (m &&& biasStateMask c) (s.reg G2_thread ||| p) v] ∧
    (biased_locking_enter c Roop Rmark Rscratch slow_case none s).2.zf =
      decide (v = m &&& biasStateMask c) := by
  obtain ⟨⟨a1, a2, a3, a4⟩, ⟨b1, b2, b3, b4⟩, ⟨c1, c2, c3, c4⟩, ⟨d1, d2, d3, d4⟩,
    ⟨e1, e2, e3, e4⟩, ⟨f1, f2, f3, f4⟩, ⟨g1, g2, g3, g4, g5, g6⟩, ⟨k1, k2, k3, k4, k5, k6⟩⟩ :=
    hregs.ne
  rw [prototype_header] at hproto
  have hL := immVal_state c hstate
  have hE : immVal (c.epoch_mask_in_place : Int) = c.epoch_mask_in_place :=
    immVal_ofNat (epoch_lt c hstate)
  have hw : (wsub (m &&& biasStateMask c) v = 0) = (v = m &&& biasStateMask c) := by
    rw [wsub_eq_zero_iff (Nat.and_lt_two_pow m (biasStateMask_lt c hstate)) hv]
    exact propext eq_comm
  cases slow_case <;> by_cases hvm : v = m &&& biasStateMask c <;>
  by_cases hcb : c.use_cbcond <;>
  simp [biased_locking_enter, biased_locking_enter_try_rebias, cmp_and_brx_short,
    is_simm_pattern, immVal_pattern, immVal_bias_mask, load_klass_reg, holds_equal,
    holds_notEqual, ba_short, wsub_self, hcb, *]

/-- The path of the anonymous acquisition: the difference word is clear in its low
three bits and in the epoch bits. -/
theorem bias_enter_acquire_path (c : Config) {Roop Rmark Rbox Rscratch : Register}
    (hregs : RegsOK Roop Rmark Rbox Rscratch) (slow_case : Bool) (s : Machine) (obj m p v : Nat)
    (hstat : c.PrintBiasedLockingStatistics = false)
    (hRoop : s.reg Roop = obj) (hRmark : s.reg Rmark = m)
    (hproto : prototype_header c s.mem obj = p)
    (hhdr : s.mem obj = v) (hv : v < W) (hstate : biasStateMask c < 4096)
    (hpat : m &&& 7 = 5)
    (hT : ¬ (m ^^^ (s.reg G2_thread ||| p)) &&& immVal (-(c.age_mask_in_place : Int) - 1) = 0)
    (hT7 : ((m ^^^ (s.reg G2_thread ||| p)) &&& immVal (-(c.age_mask_in_place : Int) - 1))
      &&& 7 = 0)
    (hTe : ((m ^^^ (s.reg G2_thread ||| p)) &&& immVal (-(c.age_mask_in_place : Int) - 1))
      &&& c.epoch_mask_in_place = 0) :
    (biased_locking_enter c Roop Rmark Rscratch slow_case none s).1 =
      (if slow_case = true ∧ v ≠ m &&& biasStateMask c then BiasExit.slow_case
        else BiasExit.done) ∧
    (∀ x, (biased_locking_enter c Roop Rmark Rscratch slow_case none s).2.mem x =
      if x = obj ∧ v = m &&& biasStateMask c
        then s.reg G2_thread ||| (m &&& biasStateMask c) else s.mem x) ∧
    (biased_locking_enter c Roop Rmark Rscratch slow_case none s).2.log =
      s.log ++ [Event.cas obj (m &&& biasStateMask c)
        (s.reg G2_thread ||| (m &&& biasStateMask c)) v] ∧
    (biased_locking_enter c Roop Rmark Rscratch slow_case none s).2.zf =
      decide (v = m &&& biasStateMask c) := by
  obtain ⟨⟨a1, a2, a3, a4⟩, ⟨b1, b2, b3, b4⟩, ⟨c1, c2, c3, c4⟩, ⟨d1, d2, d3, d4⟩,
    ⟨e1, e2, e3, e4⟩, ⟨f1, f2, f3, f4⟩, ⟨g1, g2, g3, g4, g5, g6⟩, ⟨k1, k2, k3, k4, k5, k6⟩⟩ :=
    hregs.ne
  rw [prototype_header] at hproto
  have hL := immVal_state c hstate
  have hE : immVal (c.epoch_mask_in_place : Int) = c.epoch_mask_in_place :=
    immVal_ofNat (epoch_lt c hstate)
  have hw : (wsub (m &&& biasStateMask c) v = 0) = (v = m &&& biasStateMask c) := by
    rw [wsub_eq_zero_iff (Nat.and_lt_two_pow m (biasStateMask_lt c hstate)) hv]
    exact propext eq_comm
  cases slow_case <;> by_cases hvm : v = m &&& biasStateMask c <;>
  by_cases hcb : c.use_cbcond <;>
  simp [biased_locking_enter, cmp_and_brx_short,
    is_simm_pattern, immVal_pattern, immVal_bias_mask, load_klass_reg, holds_equal,
    holds_notEqual, ba_short, wsub_self, hcb, *]

/-! ## The tests of `biased_locking_enter`, read on the mark and the prototype header -/

theorem and_or_eq_zero {t a b : Nat} (h : t &&& (a ||| b) = 0) : t &&& a = 0 ∧ t &&& b = 0 := by
  constructor
  · apply Nat.eq_of_testBit_eq
    intro i
    have hi := congrArg (fun n => Nat.testBit n i) h
    simp only [Nat.testBit_and, Nat.testBit_or, Nat.zero_testBit] at hi ⊢
    cases h1 : t.testBit i <;> cases h2 : a.testBit i <;> simp_all
  · apply Nat.eq_of_testBit_eq
    intro i
    have hi := congrArg (fun n => Nat.testBit n i) h
    simp only [Nat.testBit_and, Nat.testBit_or, Nat.zero_testBit] at hi ⊢
    cases h1 : t.testBit i <;> cases h2 : b.testBit i <;> simp_all

theorem BiasLayout.thread_low {c : Config} {thread : Nat} (h : BiasLayout c thread) :
    thread &&& 7 = 0 :=
  (and_or_eq_zero (and_or_eq_zero h.thread_aligned).1).1

theorem BiasLayout.thread_age {c : Config} {thread : Nat} (h : BiasLayout c thread) :
    thread &&& c.age_mask_in_place = 0 :=
  (and_or_eq_zero (and_or_eq_zero h.thread_aligned).1).2

theorem BiasLayout.thread_epoch {c : Config} {thread : Nat} (h : BiasLayout c thread) :
    thread &&& c.epoch_mask_in_place = 0 :=
  (and_or_eq_zero h.thread_aligned).2

/-- The first test: the difference word vanishes outside the age bits exactly when the
mark agrees with `prototype | thread` outside the age bits. -/
theorem diff_zero_iff (c : Config) {m p thread : Nat} (hm : m < W) (hp : p < W)
    (ht : thread < W) (hage : c.age_mask_in_place < W) :
    (m ^^^ (thread ||| p)) &&& immVal (-(c.age_mask_in_place : Int) - 1) = 0 ↔
      agreeOutside c.age_mask_in_place m (p ||| thread) := by
  rw [immVal_not hage, and_notMask_eq_zero_iff hm (Nat.or_lt_two_pow ht hp) hage, agreeOutside,
    Nat.lor_comm thread p]

/-- The second test: the low three bits of the difference word are clear exactly when
the prototype header has the bias pattern, as the mark has. -/
theorem diff_low_iff (c : Config) {m p thread : Nat} (hlay : BiasLayout c thread)
    (hpat : m &&& 7 = 5) :
    ((m ^^^ (thread ||| p)) &&& immVal (-(c.age_mask_in_place : Int) - 1)) &&& 7 = 0 ↔
      p &&& 7 = 5 := by
  have hage := age_lt c hlay.state_simm13
  have hlow : c.age_mask_in_place &&& 7 = 0 := hlay.age_low
  rw [immVal_not hage, and_notMask_and hage (by decide) hlow, xor_and_eq_zero_iff,
    or_and_of_disjoint hlay.thread_low, hpat]
  exact eq_comm

/-- The third test: the epoch bits of the difference word are clear exactly when the
mark and the prototype header carry the same epoch. -/
theorem diff_epoch_iff (c : Config) {m p thread : Nat} (hlay : BiasLayout c thread) :
    ((m ^^^ (thread ||| p)) &&& immVal (-(c.age_mask_in_place : Int) - 1)) &&&
        c.epoch_mask_in_place = 0 ↔
      m &&& c.epoch_mask_in_place = p &&& c.epoch_mask_in_place := by
  have hage := age_lt c hlay.state_simm13
  rw [immVal_not hage, and_notMask_and hage (epoch_lt c hlay.state_simm13) hlay.age_epoch,
    xor_and_eq_zero_iff, or_and_of_disjoint hlay.thread_epoch]

/-- With biasing compiled in, the lock code ends where `biased_locking_enter` leaves it
unless that falls through at `cas_label`. -/
theorem lock_bias_exit (c : Config) (Roop Rmark Rbox Rscratch : Register) (s : Machine)
    (h : (biased_locking_enter c Roop Rmark Rscratch false none
      (ld_ptr ⟨Roop, mark_offset_in_bytes⟩ Rmark s)).1 ≠ BiasExit.cas_label) :
    compiler_lock_object c Roop Rmark Rbox Rscratch none true s =
      (biased_locking_enter c Roop Rmark Rscratch false none
        (ld_ptr ⟨Roop, mark_offset_in_bytes⟩ Rmark s)).2 := by
  simp only [compiler_lock_object, if_true]

/-- With biasing compiled in, the lock code continues with the stack-lock code where
`biased_locking_enter` falls through at `cas_label`. -/
theorem lock_bias_fall_through (c : Config) (Roop Rmark Rbox Rscratch : Register) (s : Machine)
    (h : (biased_locking_enter c Roop Rmark Rscratch false none
      (ld_ptr ⟨Roop, mark_offset_in_bytes⟩ Rmark s)).1 = BiasExit.cas_label) :
    compiler_lock_object c Roop Rmark Rbox Rscratch none true s =
      compiler_lock_object_triage c Roop Rmark Rbox Rscratch none
        (biased_locking_enter c Roop Rmark Rscratch false none
          (ld_ptr ⟨Roop, mark_offset_in_bytes⟩ Rmark s)).2 := by
  simp only [compiler_lock_object, if_true]
  generalize biased_locking_enter c Roop Rmark Rscratch false none
    (ld_ptr ⟨Roop, mark_offset_in_bytes⟩ Rmark s) = r at h ⊢
  obtain ⟨e, s2⟩ := r
  simp only at h
  subst h
  rfl

/-! ## No path through `biased_locking_enter` has two compare-and-swaps -/

@[simp]
theorem casCount_append (l1 l2 : List Event) : casCount (l1 ++ l2) = casCount l1 + casCount l2 :=
  List.countP_append _ _ _

@[simp]
theorem casCount_store (a v : Nat) : casCount [Event.store a v] = 0 := rfl

@[simp]
theorem casCount_cas (a e n o : Nat) : casCount [Event.cas a e n o] = 1 := rfl

@[simp]
theorem ld_keeps_log (a : Address) (d : Register) (s : Machine) : (ld a d s).log = s.log :=
  set_log s d _

@[simp]
theorem st_log (d : Register) (a : Address) (s : Machine) :
    (st d a s).log = s.log ++ [Event.store (s.ea a) (s.get d % 2 ^ 32)] := by
  cases s; rfl

@[simp]
theorem inc_keeps_log (d : Register) (s : Machine) : (inc d s).log = s.log :=
  set_log s d _

@[simp]
theorem sethi_keeps_log (addr : Nat) (d : Register) (s : Machine) :
    (sethi addr d s).log = s.log :=
  set_log s d _

theorem inc_counter_casCount (addr : Nat) (r1 r2 : Register) (s : Machine) :
    casCount (inc_counter addr r1 r2 s).log = casCount s.log := by
  simp [inc_counter]

theorem cond_inc_casCount (cond : Condition) (addr : Nat) (r1 r2 : Register) (s : Machine) :
    casCount (cond_inc cond addr r1 r2 s).log = casCount s.log := by
  unfold cond_inc
  simp only [nop_eq]
  split
  · rfl
  · exact inc_counter_casCount addr r1 r2 s

theorem cmp_and_brx_short_log (c : Config) (s1 : Register) (k : Int) (cond : Condition)
    (s : Machine) : (cmp_and_brx_short c s1 k cond s).2.log = s.log := by
  unfold cmp_and_brx_short
  split <;> simp

theorem try_rebias_casCount (c : Config) (o m t : Register) (slow_case : Bool)
    (counters : Option BiasedLockingCounters) (s : Machine) :
    casCount (biased_locking_enter_try_rebias c o m t slow_case counters s).2.log =
      casCount s.log + 1 := by
  unfold biased_locking_enter_try_rebias
  cases counters with
  | none => simp only []; split <;> simp [ba_short]
  | some k => simp only []; split <;> simp [ba_short, cond_inc_casCount]

theorem try_revoke_casCount (c : Config) (o m t : Register)
    (counters : Option BiasedLockingCounters) (s : Machine) :
    casCount (biased_locking_enter_try_revoke_bias c o m t counters s).2.log =
      casCount s.log + 1 := by
  unfold biased_locking_enter_try_revoke_bias
  cases counters with
  | none => simp
  | some k => simp [cond_inc_casCount]

/-- Every path through the code of `biased_locking_enter` adds at most one
compare-and-swap to the write record, whatever the configuration, the counters and the
state. -/
theorem bias_enter_casCount (c : Config) (o m t : Register) (slow_case : Bool)
    (counters : Option BiasedLockingCounters) (s : Machine) :
    casCount (biased_locking_enter c o m t slow_case counters s).2.log ≤ casCount s.log + 1 := by
  cases counters <;> cases hps : c.PrintBiasedLockingStatistics <;>
  simp only [biased_locking_enter, hps, Bool.false_eq_true, if_true, if_false] <;>
  split_ifs <;>
  simp [try_rebias_casCount, try_revoke_casCount, cond_inc_casCount, cmp_and_brx_short_log,
    ba_short]

/-! ## The statistics counters on the path to `done` -/

@[simp]
theorem ld_keeps_mem (a : Address) (d : Register) (s : Machine) : (ld a d s).mem = s.mem :=
  set_mem s d _

@[simp]
theorem ld_keeps_zf (a : Address) (d : Register) (s : Machine) : (ld a d s).zf = s.zf :=
  set_zf s d _

@[simp]
theorem ld_reg (a : Address) (d : Register) (s : Machine) (r : Register) :
    (ld a d s).reg r =
      if d = Register.G0 then s.reg r else if r = d then s.mem (s.ea a) % 2 ^ 32 else s.reg r :=
  set_reg s d _ r

@[simp]
theorem st_mem (d : Register) (a : Address) (s : Machine) :
    (st d a s).mem = fun x => if x = s.ea a then s.get d % 2 ^ 32 else s.mem x := by
  cases s; rfl

@[simp]
theorem st_keeps_zf (d : Register) (a : Address) (s : Machine) : (st d a s).zf = s.zf := by
  cases s; rfl

@[simp]
theorem st_keeps_reg (d : Register) (a : Address) (s : Machine) (r : Register) :
    (st d a s).reg r = s.reg r := by
  cases s; rfl

@[simp]
theorem inc_keeps_mem (d : Register) (s : Machine) : (inc d s).mem = s.mem :=
  set_mem s d _

@[simp]
theorem inc_keeps_zf (d : Register) (s : Machine) : (inc d s).zf = s.zf :=
  set_zf s d _

@[simp]
theorem inc_reg (d : Register) (s : Machine) (r : Register) :
    (inc d s).reg r =
      if d = Register.G0 then s.reg r else if r = d then wadd (s.get d) (immVal 1) else s.reg r :=
  set_reg s d _ r

@[simp]
theorem sethi_keeps_mem (addr : Nat) (d : Register) (s : Machine) :
    (sethi addr d s).mem = s.mem :=
  set_mem s d _

@[simp]
theorem sethi_keeps_zf (addr : Nat) (d : Register) (s : Machine) :
    (sethi addr d s).zf = s.zf :=
  set_zf s d _

@[simp]
theorem sethi_reg (addr : Nat) (d : Register) (s : Machine) (r : Register) :
    (sethi addr d s).reg r =
      if d = Register.G0 then s.reg r else if r = d then addr - low10 addr else s.reg r :=
  set_reg s d _ r

/-- The path to `done` with the statistics on: the counter of biased entries is
incremented, and nothing else is written. -/
theorem bias_enter_done_counted (c : Config) {Roop Rmark Rbox Rscratch : Register}
    (hregs : RegsOK Roop Rmark Rbox Rscratch) (slow_case : Bool)
    (counters : Option BiasedLockingCounters) (s : Machine) (obj m p : Nat)
    (hRoop : s.reg Roop = obj) (hRmark : s.reg Rmark = m)
    (hproto : prototype_header c s.mem obj = p)
    (hpat : m &&& 7 = 5)
    (hT : (m ^^^ (s.reg G2_thread ||| p)) &&& immVal (-(c.age_mask_in_place : Int) - 1) = 0) :
    (biased_locking_enter c Roop Rmark Rscratch slow_case counters s).1 = BiasExit.done ∧
    (biased_locking_enter c Roop Rmark Rscratch slow_case counters s).2.zf = true ∧
    casCount (biased_locking_enter c Roop Rmark Rscratch slow_case counters s).2.log =
      casCount s.log := by
  obtain ⟨⟨a1, a2, a3, a4⟩, ⟨b1, b2, b3, b4⟩, ⟨c1, c2, c3, c4⟩, ⟨d1, d2, d3, d4⟩,
    ⟨e1, e2, e3, e4⟩, ⟨f1, f2, f3, f4⟩, ⟨g1, g2, g3, g4, g5, g6⟩, ⟨k1, k2, k3, k4, k5, k6⟩⟩ :=
    hregs.ne
  rw [prototype_header] at hproto
  cases counters <;> cases hps : c.PrintBiasedLockingStatistics <;>
  by_cases hcb : c.use_cbcond <;>
  simp [biased_locking_enter, cmp_and_brx_short, cond_inc, inc_counter, negate_condition,
    is_simm_pattern, immVal_pattern, immVal_bias_mask, load_klass_reg, holds_equal,
    holds_notEqual, wsub_self, hcb, hps, *]

/-! ## Biased locking: the claims -/

/-- C13: for every mark with the bias pattern that agrees with
`prototype_header(class(obj)) | thread` on all bits except the age bits,
`biased_locking_enter` by that thread leaves at `done` with the success condition and
executes no compare-and-swap, with or without statistics counters; with the statistics
off it writes nothing at all and leaves the memory, the object header included, as it
was.  The lock code with biasing compiled in does the same. -/
theorem bias_enter_already_biased (c : Config) (Roop Rmark Rbox Rscratch : Register)
    (hregs : RegsOK Roop Rmark Rbox Rscratch) (slow_case : Bool)
    (counters : Option BiasedLockingCounters) (s : Machine)
    (obj m p thread : Nat)
    (hRoop : s.reg Roop = obj) (hRmark : s.reg Rmark = m) (hthread : s.reg G2_thread = thread)
    (hproto : prototype_header c s.mem obj = p)
    (hm : m < W) (hp : p < W) (ht : thread < W) (hage : c.age_mask_in_place < W)
    (hpat : markWord.has_bias_pattern m)
    (hown : agreeOutside c.age_mask_in_place m (p ||| thread)) :
    (biased_locking_enter c Roop Rmark Rscratch slow_case counters s).1 = BiasExit.done ∧
    (biased_locking_enter c Roop Rmark Rscratch slow_case counters s).2.zf = true ∧
    casCount (biased_locking_enter c Roop Rmark Rscratch slow_case counters s).2.log =
      casCount s.log ∧
    (c.PrintBiasedLockingStatistics = false →
      (biased_locking_enter c Roop Rmark Rscratch slow_case none s).2.log = s.log ∧
      (biased_locking_enter c Roop Rmark Rscratch slow_case none s).2.mem = s.mem) ∧
    (∀ s0 : Machine, s = ld_ptr ⟨Roop, mark_offset_in_bytes⟩ Rmark s0 →
      (compiler_lock_object c Roop Rmark Rbox Rscratch none true s0).zf = true ∧
      casCount (compiler_lock_object c Roop Rmark Rbox Rscratch none true s0).log =
        casCount s0.log ∧
      (c.PrintBiasedLockingStatistics = false →
        (compiler_lock_object c Roop Rmark Rbox Rscratch none true s0).log = s0.log ∧
        (compiler_lock_object c Roop Rmark Rbox Rscratch none true s0).mem = s0.mem)) := by
  have hT := (diff_zero_iff c hm hp ht hage).2 hown
  rw [← hthread] at hT
  obtain ⟨q1, q2, q3⟩ := bias_enter_done_counted c hregs slow_case counters s obj m p hRoop
    hRmark hproto hpat hT
  refine ⟨q1, q2, q3, ?_, ?_⟩
  · intro hstat
    obtain ⟨-, r2, r3, -⟩ := bias_enter_done_path c hregs slow_case s obj m p hstat hRoop hRmark
      hproto hpat hT
    exact ⟨r3, r2⟩
  · intro s0 hs0
    obtain ⟨r1, r2, r3⟩ := bias_enter_done_counted c hregs false none s obj m p hRoop
      hRmark hproto hpat hT
    have hexit : (biased_locking_enter c Roop Rmark Rscratch false none
        (ld_ptr ⟨Roop, mark_offset_in_bytes⟩ Rmark s0)).1 ≠ BiasExit.cas_label := by
      rw [← hs0, r1]; decide
    rw [lock_bias_exit c Roop Rmark Rbox Rscratch s0 hexit, ← hs0]
    refine ⟨r2, ?_, ?_⟩
    · rw [r3, hs0]; simp
    · intro hstat
      obtain ⟨-, t2, t3, -⟩ := bias_enter_done_path c hregs false s obj m p hstat hRoop hRmark
        hproto hpat hT
      rw [t2, t3, hs0]
      simp

/-- Witness for `bias_enter_already_biased`: the header `0x422d` is biased to the calling
thread `0x4000` in the epoch of the prototype header `0x205`, with age 5. -/
theorem bias_enter_already_biased_witness :
    (biased_locking_enter sampleConfig Register.I0 Register.O7 Register.L0 false none
      (sampleBiasMachine 0x422d 0x205)).1 = BiasExit.done :=
  (bias_enter_already_biased sampleConfig Register.I0 Register.O7 Register.O1 Register.L0
    (by decide) false none (sampleBiasMachine 0x422d 0x205) 0x1000 0x422d 0x205 0x4000
    rfl rfl rfl rfl
    (by decide) (by decide) (by decide) (by decide) (by decide) (by decide)).1

theorem state_and_age (c : Config) (m : Nat) :
    (m &&& biasStateMask c) &&& c.age_mask_in_place = m &&& c.age_mask_in_place := by
  apply Nat.eq_of_testBit_eq
  intro i
  simp only [Nat.testBit_and, biasStateMask, Nat.testBit_or]
  cases h1 : c.age_mask_in_place.testBit i <;> simp

theorem state_and_epoch (c : Config) (m : Nat) :
    (m &&& biasStateMask c) &&& c.epoch_mask_in_place = m &&& c.epoch_mask_in_place := by
  apply Nat.eq_of_testBit_eq
  intro i
  simp only [Nat.testBit_and, biasStateMask, Nat.testBit_or]
  cases h1 : c.epoch_mask_in_place.testBit i <;> simp

/-- C14: for every mark with the bias pattern whose epoch is the epoch of the prototype
header (which still has the bias pattern) and which is not biased to the caller,
`biased_locking_enter` writes exactly one compare-and-swap of the header, from the mark
with its owner bits cleared to `thread |` that cleared mark.  It acquires the bias iff
the header is that cleared mark, that is, for a header equal to the mark, iff the mark
is anonymously biased; the new header keeps the age and epoch bits.  When the header
is the mark and carries owner bits (it is biased to another thread), nothing changes
and the caller leaves to `slow_case`, or to `done` with the failure condition when
`slow_case` is NULL, as in the lock code. -/
theorem bias_enter_anonymous_acquire (c : Config) (Roop Rmark Rbox Rscratch : Register)
    (hregs : RegsOK Roop Rmark Rbox Rscratch) (slow_case : Bool) (s : Machine)
    (obj m p v thread : Nat)
    (hstat : c.PrintBiasedLockingStatistics = false)
    (hRoop : s.reg Roop = obj) (hRmark : s.reg Rmark = m) (hthread : s.reg G2_thread = thread)
    (hproto : prototype_header c s.mem obj = p) (hhdr : s.mem obj = v)
    (hlay : BiasLayout c thread) (hm : m < W) (hp : p < W) (hv : v < W)
    (hpat : markWord.has_bias_pattern m) (hppat : markWord.has_bias_pattern p)
    (hepoch : m &&& c.epoch_mask_in_place = p &&& c.epoch_mask_in_place)
    (hnot : ¬ agreeOutside c.age_mask_in_place m (p ||| thread)) :
    (biased_locking_enter c Roop Rmark Rscratch slow_case none s).2.log =
      s.log ++ [Event.cas obj (m &&& biasStateMask c) (thread ||| (m &&& biasStateMask c)) v] ∧
    ((biased_locking_enter c Roop Rmark Rscratch slow_case none s).2.zf = true ↔
      v = m &&& biasStateMask c) ∧
    (v = m → ((biased_locking_enter c Roop Rmark Rscratch slow_case none s).2.zf = true ↔
      m &&& biasStateMask c = m)) ∧
    (v = m &&& biasStateMask c →
      (biased_locking_enter c Roop Rmark Rscratch slow_case none s).1 = BiasExit.done ∧
      (biased_locking_enter c Roop Rmark Rscratch slow_case none s).2.mem obj =
        thread ||| (m &&& biasStateMask c) ∧
      (thread ||| (m &&& biasStateMask c)) &&& c.age_mask_in_place =
        m &&& c.age_mask_in_place ∧
      (thread ||| (m &&& biasStateMask c)) &&& c.epoch_mask_in_place =
        m &&& c.epoch_mask_in_place ∧
      (∀ x, x ≠ obj →
        (biased_locking_enter c Roop Rmark Rscratch slow_case none s).2.mem x = s.mem x)) ∧
    (v ≠ m &&& biasStateMask c →
      (biased_locking_enter c Roop Rmark Rscratch slow_case none s).1 =
        (if slow_case = true then BiasExit.slow_case else BiasExit.done) ∧
      (biased_locking_enter c Roop Rmark Rscratch slow_case none s).2.zf = false ∧
      (∀ x, (biased_locking_enter c Roop Rmark Rscratch slow_case none s).2.mem x = s.mem x)) ∧
    (∀ s0 : Machine, s = ld_ptr ⟨Roop, mark_offset_in_bytes⟩ Rmark s0 → slow_case = false →
      compiler_lock_object c Roop Rmark Rbox Rscratch none true s0 =
        (biased_locking_enter c Roop Rmark Rscratch slow_case none s).2) := by
  have hage := age_lt c hlay.state_simm13
  have hT : ¬ (m ^^^ (s.reg G2_thread ||| p)) &&&
      immVal (-(c.age_mask_in_place : Int) - 1) = 0 := by
    rw [hthread, diff_zero_iff c hm hp hlay.thread_word hage]; exact hnot
  have hT7 : ((m ^^^ (s.reg G2_thread ||| p)) &&&
      immVal (-(c.age_mask_in_place : Int) - 1)) &&& 7 = 0 := by
    rw [hthread, diff_low_iff c hlay hpat]; exact hppat
  have hTe : ((m ^^^ (s.reg G2_thread ||| p)) &&&
      immVal (-(c.age_mask_in_place : Int) - 1)) &&& c.epoch_mask_in_place = 0 := by
    rw [hthread, diff_epoch_iff c hlay]; exact hepoch
  obtain ⟨q1, q2, q3, q4⟩ := bias_enter_acquire_path c hregs slow_case s obj m p v hstat hRoop
    hRmark hproto hhdr hv hlay.state_simm13 hpat hT hT7 hTe
  rw [hthread] at q2 q3
  refine ⟨q3, ?_, ?_, ?_, ?_, ?_⟩
  · rw [q4]; simp
  · intro hvm
    rw [q4, hvm]; simp [eq_comm]
  · intro hvm
    refine ⟨?_, ?_, ?_, ?_, ?_⟩
    · rw [q1]; simp [hvm]
    · rw [q2]; simp [hvm]
    · rw [or_and_of_disjoint hlay.thread_age, state_and_age]
    · rw [or_and_of_disjoint hlay.thread_epoch, state_and_epoch]
    · intro x hx
      rw [q2]; simp [hx]
  · intro hvm
    refine ⟨?_, ?_, ?_⟩
    · rw [q1]; simp [hvm]
    · rw [q4]; simp [hvm]
    · intro x
      rw [q2]; simp [hvm]
  · intro s0 hs0 hsc
    subst hsc
    have hexit : (biased_locking_enter c Roop Rmark Rscratch false none
        (ld_ptr ⟨Roop, mark_offset_in_bytes⟩ Rmark s0)).1 ≠ BiasExit.cas_label := by
      rw [← hs0, q1]
      split <;> decide
    rw [lock_bias_exit c Roop Rmark Rbox Rscratch s0 hexit, ← hs0]

/-- Witness for `bias_enter_anonymous_acquire`: the header `0x522d` is biased to thread
`0x5000` in the current epoch, the caller is thread `0x4000`: the CAS fails. -/
theorem bias_enter_anonymous_acquire_witness :
    (biased_locking_enter sampleConfig Register.I0 Register.O7 Register.L0 false none
      (sampleBiasMachine 0x522d 0x205)).2.log = [Event.cas 0x1000 0x22d 0x422d 0x522d] :=
  (bias_enter_anonymous_acquire sampleConfig Register.I0 Register.O7 Register.O1 Register.L0
    (by decide) false (sampleBiasMachine 0x522d 0x205) 0x1000 0x522d 0x205 0x522d 0x4000
    rfl rfl rfl rfl rfl rfl (by decide) (by decide) (by decide) (by decide) (by decide)
    (by decide) (by decide) (by decide)).1

/-- The rebias path, read on the mark and the prototype header: when the prototype
header still has the bias pattern and the epochs differ, the compare-and-swap expects
the mark with its owner bits cleared (the `and3` in the delay slot of the epoch test has
already masked the mark register) and installs `thread | prototype`. -/
theorem bias_enter_rebias (c : Config) {Roop Rmark Rbox Rscratch : Register}
    (hregs : RegsOK Roop Rmark Rbox Rscratch) (slow_case : Bool) (s : Machine)
    (obj m p v thread : Nat)
    (hstat : c.PrintBiasedLockingStatistics = false)
    (hRoop : s.reg Roop = obj) (hRmark : s.reg Rmark = m) (hthread : s.reg G2_thread = thread)
    (hproto : prototype_header c s.mem obj = p) (hhdr : s.mem obj = v)
    (hlay : BiasLayout c thread) (hv : v < W)
    (hpat : markWord.has_bias_pattern m) (hppat : markWord.has_bias_pattern p)
    (hepoch : m &&& c.epoch_mask_in_place ≠ p &&& c.epoch_mask_in_place) :
    (biased_locking_enter c Roop Rmark Rscratch slow_case none s).2.log =
      s.log ++ [Event.cas obj (m &&& biasStateMask c) (thread ||| p) v] ∧
    ((biased_locking_enter c Roop Rmark Rscratch slow_case none s).2.zf = true ↔
      v = m &&& biasStateMask c) ∧
    (∀ x, (biased_locking_enter c Roop Rmark Rscratch slow_case none s).2.mem x =
      if x = obj ∧ v = m &&& biasStateMask c then thread ||| p else s.mem x) ∧
    (biased_locking_enter c Roop Rmark Rscratch slow_case none s).1 =
      (if slow_case = true ∧ v ≠ m &&& biasStateMask c then BiasExit.slow_case
        else BiasExit.done) := by
  have hage := age_lt c hlay.state_simm13
  have hTe : ¬ ((m ^^^ (s.reg G2_thread ||| p)) &&&
      immVal (-(c.age_mask_in_place : Int) - 1)) &&& c.epoch_mask_in_place = 0 := by
    rw [hthread, diff_epoch_iff c hlay]; exact hepoch
  have hT : ¬ (m ^^^ (s.reg G2_thread ||| p)) &&&
      immVal (-(c.age_mask_in_place : Int) - 1) = 0 := by
    intro h0
    rw [h0] at hTe
    exact hTe (Nat.zero_and _)
  have hT7 : ((m ^^^ (s.reg G2_thread ||| p)) &&&
      immVal (-(c.age_mask_in_place : Int) - 1)) &&& 7 = 0 := by
    rw [hthread, diff_low_iff c hlay hpat]; exact hppat
  obtain ⟨q1, q2, q3, q4⟩ := bias_enter_rebias_path c hregs slow_case s obj m p v hstat hRoop
    hRmark hproto hhdr hv hlay.state_simm13 hpat hT hT7 hTe
  rw [hthread] at q2 q3
  refine ⟨q3, ?_, q2, q1⟩
  rw [q4]; simp

/-- C15, the code at a failing input: the header `0x5105` is biased to thread `0x5000`
with epoch bits `0x100`, the prototype header `0x205` has the bias pattern and epoch
bits `0x200`, the caller is thread `0x4000`.  The compare-and-swap of the rebias path
does not expect the header's mark as loaded, `0x5105`, but the mark with its owner bits
cleared, `0x105`; it fails, the header keeps `0x5105`, and the call reports failure:
the bias is not transferred.  The lock code with biasing compiled in does the same. -/
theorem bias_enter_rebias_expects_cleared_mark :
    markWord.has_bias_pattern 0x5105 ∧ markWord.has_bias_pattern 0x205 ∧
    0x5105 &&& sampleConfig.epoch_mask_in_place ≠ 0x205 &&& sampleConfig.epoch_mask_in_place ∧
    (sampleBiasMachine 0x5105 0x205).mem 0x1000 = 0x5105 ∧
    (biased_locking_enter sampleConfig Register.I0 Register.O7 Register.L0 false none
      (sampleBiasMachine 0x5105 0x205)).2.log = [Event.cas 0x1000 0x105 0x4205 0x5105] ∧
    (biased_locking_enter sampleConfig Register.I0 Register.O7 Register.L0 false none
      (sampleBiasMachine 0x5105 0x205)).2.mem 0x1000 = 0x5105 ∧
    (biased_locking_enter sampleConfig Register.I0 Register.O7 Register.L0 false none
      (sampleBiasMachine 0x5105 0x205)).2.zf = false ∧
    (biased_locking_enter sampleConfig Register.I0 Register.O7 Register.L0 true none
      (sampleBiasMachine 0x5105 0x205)).1 = BiasExit.slow_case ∧
    (compiler_lock_object sampleConfig Register.I0 Register.O7 Register.O1 Register.L0 none true
      (sampleBiasMachine 0x5105 0x205)).log = [Event.cas 0x1000 0x105 0x4205 0x5105] := by
  decide

/-- C16: when the mark has the bias pattern and the prototype header of the class does
not, `biased_locking_enter` writes exactly one compare-and-swap of the header, from
the mark to the prototype header, and falls through at `cas_label` whether or not the
exchange took place, never to `done` or `slow_case`; the lock code continues with the
stack-lock code.  After an uncontended call (the header is the mark) the header is the
prototype header, which has no bias pattern. -/
theorem bias_enter_revoke (c : Config) (Roop Rmark Rbox Rscratch : Register)
    (hregs : RegsOK Roop Rmark Rbox Rscratch) (slow_case : Bool) (s : Machine)
    (obj m p v thread : Nat)
    (hstat : c.PrintBiasedLockingStatistics = false)
    (hRoop : s.reg Roop = obj) (hRmark : s.reg Rmark = m) (hthread : s.reg G2_thread = thread)
    (hproto : prototype_header c s.mem obj = p) (hhdr : s.mem obj = v)
    (hlay : BiasLayout c thread)
    (hpat : markWord.has_bias_pattern m) (hppat : ¬ markWord.has_bias_pattern p) :
    (biased_locking_enter c Roop Rmark Rscratch slow_case none s).2.log =
      s.log ++ [Event.cas obj m p v] ∧
    (biased_locking_enter c Roop Rmark Rscratch slow_case none s).1 = BiasExit.cas_label ∧
    (v = m →
      (biased_locking_enter c Roop Rmark Rscratch slow_case none s).2.mem obj = p ∧
      ¬ markWord.has_bias_pattern
        ((biased_locking_enter c Roop Rmark Rscratch slow_case none s).2.mem obj)) ∧
    (v ≠ m →
      ∀ x, (biased_locking_enter c Roop Rmark Rscratch slow_case none s).2.mem x = s.mem x) ∧
    (∀ x, x ≠ obj →
      (biased_locking_enter c Roop Rmark Rscratch slow_case none s).2.mem x = s.mem x) ∧
    (∀ s0 : Machine, s = ld_ptr ⟨Roop, mark_offset_in_bytes⟩ Rmark s0 → slow_case = false →
      compiler_lock_object c Roop Rmark Rbox Rscratch none true s0 =
        compiler_lock_object_triage c Roop Rmark Rbox Rscratch none
          (biased_locking_enter c Roop Rmark Rscratch slow_case none s).2) := by
  have hT7 : ¬ ((m ^^^ (s.reg G2_thread ||| p)) &&&
      immVal (-(c.age_mask_in_place : Int) - 1)) &&& 7 = 0 := by
    rw [hthread, diff_low_iff c hlay hpat]; exact hppat
  have hT : ¬ (m ^^^ (s.reg G2_thread ||| p)) &&&
      immVal (-(c.age_mask_in_place : Int) - 1) = 0 := by
    intro h0
    rw [h0] at hT7
    exact hT7 (Nat.zero_and _)
  obtain ⟨q1, q2, q3, -⟩ := bias_enter_revoke_path c hregs slow_case s obj m p hstat hRoop
    hRmark hproto hpat hT hT7
  rw [hhdr] at q2 q3
  refine ⟨q3, q1, ?_, ?_, ?_, ?_⟩
  · intro hvm
    have e : (biased_locking_enter c Roop Rmark Rscratch slow_case none s).2.mem obj = p := by
      rw [q2]; simp [hvm]
    rw [e]
    exact ⟨rfl, hppat⟩
  · intro hvm x
    rw [q2]; simp [hvm]
  · intro x hx
    rw [q2]; simp [hx]
  · intro s0 hs0 hsc
    subst hsc
    rw [lock_bias_fall_through c Roop Rmark Rbox Rscratch s0 (by rw [← hs0]; exact q1), ← hs0]

/-- Witness for `bias_enter_revoke`: the header `0x5005` is biased to thread `0x5000`,
the prototype header `0x1` is the unbiased neutral mark. -/
theorem bias_enter_revoke_witness :
    (biased_locking_enter sampleConfig Register.I0 Register.O7 Register.L0 false none
      (sampleBiasMachine 0x5005 0x1)).2.log = [Event.cas 0x1000 0x5005 0x1 0x5005] :=
  (bias_enter_revoke sampleConfig Register.I0 Register.O7 Register.O1 Register.L0
    (by decide) false (sampleBiasMachine 0x5005 0x1) 0x1000 0x5005 0x1 0x5005 0x4000
    rfl rfl rfl rfl rfl rfl (by decide) (by decide) (by decide)).1

/-- A mark without the bias pattern leaves `biased_locking_enter` at `cas_label` at
once, whatever `slow_case` is. -/
theorem bias_enter_skip_path (c : Config) {Roop Rmark Rbox Rscratch : Register}
    (hregs : RegsOK Roop Rmark Rbox Rscratch) (slow_case : Bool)
    (counters : Option BiasedLockingCounters)
    (s : Machine) (m : Nat) (hRmark : s.reg Rmark = m) (hnb : m &&& 7 ≠ 5) :
    (biased_locking_enter c Roop Rmark Rscratch slow_case counters s).1 = BiasExit.cas_label ∧
    (biased_locking_enter c Roop Rmark Rscratch slow_case counters s).2.mem = s.mem ∧
    (biased_locking_enter c Roop Rmark Rscratch slow_case counters s).2.log = s.log := by
  obtain ⟨⟨a1, a2, a3, a4⟩, ⟨b1, b2, b3, b4⟩, ⟨c1, c2, c3, c4⟩, ⟨d1, d2, d3, d4⟩,
    ⟨e1, e2, e3, e4⟩, ⟨f1, f2, f3, f4⟩, ⟨g1, g2, g3, g4, g5, g6⟩, ⟨k1, k2, k3, k4, k5, k6⟩⟩ :=
    hregs.ne
  have hz : ¬ wsub (m &&& 7) 5 = 0 := by
    rw [wsub_eq_zero_iff (and_seven_lt m) (by decide)]; exact hnb
  by_cases hcb : c.use_cbcond <;>
  simp [biased_locking_enter, cmp_and_brx_short, is_simm_pattern, immVal_pattern,
    immVal_bias_mask, holds_notEqual, hcb, *]

theorem failedCas_nil : ¬ failedCas [] := by
  rintro ⟨a, e, n, o, h, -⟩
  exact absurd h (List.not_mem_nil _)

theorem failedCas_single {a e n o : Nat} (h : failedCas [Event.cas a e n o]) : o ≠ e := by
  obtain ⟨a', e', n', o', hmem, hne⟩ := h
  rw [List.mem_singleton] at hmem
  injection hmem with h1 h2 h3 h4
  subst h2 h4
  exact hne

/-- With the statistics off, every path through `biased_locking_enter` writes at most
one entry, and a compare-and-swap that fails on a path that does not fall through at
`cas_label` (the rebias path or the anonymous acquisition) ends at `slow_case`, or at
`done` with the failure condition when `slow_case` is NULL. -/
theorem bias_enter_failure_exit (c : Config) {Roop Rmark Rbox Rscratch : Register}
    (hregs : RegsOK Roop Rmark Rbox Rscratch) (slow_case : Bool) (s : Machine)
    (hstat : c.PrintBiasedLockingStatistics = false)
    (hv : s.mem (s.reg Roop) < W) (hstate : biasStateMask c < 4096) :
    ∃ evs, (biased_locking_enter c Roop Rmark Rscratch slow_case none s).2.log = s.log ++ evs ∧
      evs.length ≤ 1 ∧
      (failedCas evs →
        (biased_locking_enter c Roop Rmark Rscratch slow_case none s).1 ≠ BiasExit.cas_label →
        (biased_locking_enter c Roop Rmark Rscratch slow_case none s).1 =
          (if slow_case = true then BiasExit.slow_case else BiasExit.done) ∧
        (biased_locking_enter c Roop Rmark Rscratch slow_case none s).2.zf = false) := by
  by_cases hpat : s.reg Rmark &&& 7 = 5
  · by_cases hT : (s.reg Rmark ^^^ (s.reg G2_thread ||| prototype_header c s.mem (s.reg Roop)))
        &&& immVal (-(c.age_mask_in_place : Int) - 1) = 0
    · obtain ⟨-, -, q3, -⟩ := bias_enter_done_path c hregs slow_case s _ _ _ hstat rfl rfl rfl
        hpat hT
      exact ⟨[], by rw [q3, List.append_nil], by simp, fun h => absurd h failedCas_nil⟩
    · by_cases hT7 : ((s.reg Rmark ^^^
          (s.reg G2_thread ||| prototype_header c s.mem (s.reg Roop)))
          &&& immVal (-(c.age_mask_in_place : Int) - 1)) &&& 7 = 0
      · by_cases hTe : ((s.reg Rmark ^^^
            (s.reg G2_thread ||| prototype_header c s.mem (s.reg Roop)))
            &&& immVal (-(c.age_mask_in_place : Int) - 1)) &&& c.epoch_mask_in_place = 0
        · obtain ⟨q1, -, q3, q4⟩ := bias_enter_acquire_path c hregs slow_case s _ _ _ _ hstat
            rfl rfl rfl rfl hv hstate hpat hT hT7 hTe
          refine ⟨_, q3, by simp, fun hf _ => ?_⟩
          have hne := failedCas_single hf
          rw [q1, q4]
          simp [hne]
        · obtain ⟨q1, -, q3, q4⟩ := bias_enter_rebias_path c hregs slow_case s _ _ _ _ hstat
            rfl rfl rfl rfl hv hstate hpat hT hT7 hTe
          refine ⟨_, q3, by simp, fun hf _ => ?_⟩
          have hne := failedCas_single hf
          rw [q1, q4]
          simp [hne]
      · obtain ⟨q1, -, q3, -⟩ := bias_enter_revoke_path c hregs slow_case s _ _ _ hstat rfl rfl
          rfl hpat hT hT7
        exact ⟨_, q3, by simp, fun _ h => absurd q1 h⟩
  · obtain ⟨q1, -, q3⟩ := bias_enter_skip_path c hregs slow_case none s _ rfl hpat
    exact ⟨[], by rw [q3, List.append_nil], by simp, fun _ h => absurd q1 h⟩

/-- C18: every path through the code of `biased_locking_enter` adds at most one
compare-and-swap to the write record, for every configuration, counters and state; no
branch of the emitted code goes backward, so nothing is retried; and with the statistics
off a path writes at most one entry, and a compare-and-swap that fails on a path that
does not fall through at `cas_label` (the rebias path or the anonymous acquisition)
leaves to `slow_case`, or to `done` with the failure condition when `slow_case` is
NULL. -/
theorem bias_enter_no_retry (c : Config) (Roop Rmark Rbox Rscratch : Register)
    (hregs : RegsOK Roop Rmark Rbox Rscratch) (slow_case : Bool) (s : Machine)
    (hstat : c.PrintBiasedLockingStatistics = false)
    (hv : s.mem (s.reg Roop) < W) (hstate : biasStateMask c < 4096) :
    (∀ (c' : Config) (o m t : Register) (sc : Bool) (counters : Option BiasedLockingCounters)
        (s' : Machine),
      casCount (biased_locking_enter c' o m t sc counters s').2.log ≤ casCount s'.log + 1) ∧
    (∀ sc counters : Bool, forwardOnly (biased_locking_enter_flow sc counters) = true) ∧
    (∃ evs, (biased_locking_enter c Roop Rmark Rscratch slow_case none s).2.log = s.log ++ evs ∧
      evs.length ≤ 1 ∧
      (failedCas evs →
        (biased_locking_enter c Roop Rmark Rscratch slow_case none s).1 ≠ BiasExit.cas_label →
        (biased_locking_enter c Roop Rmark Rscratch slow_case none s).1 =
          (if slow_case = true then BiasExit.slow_case else BiasExit.done) ∧
        (biased_locking_enter c Roop Rmark Rscratch slow_case none s).2.zf = false)) := by
  refine ⟨bias_enter_casCount, ?_, bias_enter_failure_exit c hregs slow_case s hstat hv hstate⟩
  intro sc counters
  cases sc <;> cases counters <;> decide

/-- Witness for `bias_enter_no_retry`: the header `0x522d` is biased to another thread in
the current epoch; the one compare-and-swap fails and the call leaves to `slow_case`. -/
theorem bias_enter_no_retry_witness :
    ∃ evs, (biased_locking_enter sampleConfig Register.I0 Register.O7 Register.L0 true none
        (sampleBiasMachine 0x522d 0x205)).2.log = (sampleBiasMachine 0x522d 0x205).log ++ evs ∧
      evs.length ≤ 1 ∧
      (failedCas evs →
        (biased_locking_enter sampleConfig Register.I0 Register.O7 Register.L0 true none
          (sampleBiasMachine 0x522d 0x205)).1 ≠ BiasExit.cas_label →
        (biased_locking_enter sampleConfig Register.I0 Register.O7 Register.L0 true none
          (sampleBiasMachine 0x522d 0x205)).1 =
          (if true = true then BiasExit.slow_case else BiasExit.done) ∧
        (biased_locking_enter sampleConfig Register.I0 Register.O7 Register.L0 true none
          (sampleBiasMachine 0x522d 0x205)).2.zf = false) :=
  (bias_enter_no_retry sampleConfig Register.I0 Register.O7 Register.O1 Register.L0 (by decide)
    true (sampleBiasMachine 0x522d 0x205) rfl (by decide) (by decide)).2.2

/-! ## The forwarding pointer -/

theorem is_marked_encode (u : Nat) : markWord.is_marked (markWord.encode_pointer_as_mark u) = true := by
  have h : markWord.encode_pointer_as_mark u &&& 3 = 3 := by
    apply Nat.eq_of_testBit_eq
    intro i
    have h3 : (3 : Nat) = 2 ^ 2 - 1 := by norm_num
    simp only [markWord.encode_pointer_as_mark, markWord.marked_value, Nat.testBit_and,
      Nat.testBit_or]
    rw [h3, Nat.testBit_two_pow_sub_one]
    by_cases hi : i < 2 <;> simp [hi]
  simp only [markWord.is_marked, decide_eq_true_eq]
  exact h

theorem clear_encode {u : Nat} (hu : u < W) (hlow : u &&& markWord.lock_mask_in_place = 0) :
    markWord.clear_lock_bits (markWord.encode_pointer_as_mark u) = u := by
  have h3 : markWord.lock_mask_in_place = 2 ^ 2 - 1 := by decide
  have hlt : markWord.lock_mask_in_place < W := by decide
  have hm : markWord.marked_value = 2 ^ 2 - 1 := by decide
  have hbit : ∀ i, i < 2 → u.testBit i = false := by
    intro i hi
    apply testBit_false_of_and_eq_zero hlow i
    rw [h3, Nat.testBit_two_pow_sub_one]
    simp [hi]
  apply Nat.eq_of_testBit_eq
  intro i
  simp only [markWord.clear_lock_bits, markWord.encode_pointer_as_mark, Nat.testBit_and,
    Nat.testBit_or, testBit_notMask hlt]
  rw [h3, hm, Nat.testBit_two_pow_sub_one]
  by_cases hi : i < 2
  · simp [hi, hbit i hi]
  · by_cases h64 : i < 64
    · simp [hi, h64]
    · rw [testBit_of_lt_W hu (by omega)]
      simp [hi]

/-- C19: for every object whose mark is not marked and every forwardee pointer `u`
whose lock bits are zero, `try_update_forwardee(obj, u)`, run without interference
between its load and its compare-and-exchange, returns `u`; the header becomes
`encode_pointer_as_mark(u)` and no other word changes; afterwards `is_forwarded(obj)`
is true and `get_forwardee(obj)` returns `u`. -/
theorem try_update_forwardee_installs (mem : Nat → Nat) (obj u : Nat)
    (hmark : markWord.is_marked (mark_raw mem obj) = false) (hu : u < W)
    (hlow : u &&& markWord.lock_mask_in_place = 0) :
    (ShenandoahForwarding.try_update_forwardee mem obj u).1 = u ∧
    (ShenandoahForwarding.try_update_forwardee mem obj u).2 obj =
      markWord.encode_pointer_as_mark u ∧
    (∀ x, x ≠ obj → (ShenandoahForwarding.try_update_forwardee mem obj u).2 x = mem x) ∧
    ShenandoahForwarding.is_forwarded
      (ShenandoahForwarding.try_update_forwardee mem obj u).2 obj = true ∧
    ShenandoahForwarding.get_forwardee
      (ShenandoahForwarding.try_update_forwardee mem obj u).2 obj = u := by
  have e : ShenandoahForwarding.try_update_forwardee mem obj u =
      (u, fun x => if x = obj then markWord.encode_pointer_as_mark u else mem x) := by
    rw [mark_raw] at hmark
    simp [ShenandoahForwarding.try_update_forwardee,
      ShenandoahForwarding.try_update_forwardee_cas, cas_set_mark_raw, mark_raw, hmark]
  rw [e]
  refine ⟨rfl, by simp, fun x hx => by simp [hx], ?_, ?_⟩
  · simp [ShenandoahForwarding.is_forwarded, mark_raw, is_marked_encode]
  · simp [ShenandoahForwarding.get_forwardee, ShenandoahForwarding.get_forwardee_raw_unchecked,
      mark_raw, is_marked_encode, markWord.to_pointer, clear_encode hu hlow]

/-- Witness for `try_update_forwardee_installs`: the neutral header `0x29` and the
forwardee `0x2000`. -/
theorem try_update_forwardee_installs_witness :
    (ShenandoahForwarding.try_update_forwardee ShenandoahForwarding.sampleCalls.mem
      0x1000 0x2000).1 = 0x2000 :=
  (try_update_forwardee_installs ShenandoahForwarding.sampleCalls.mem 0x1000 0x2000
    (by decide) (by decide) (by decide)).1

/-- A call on a marked header returns the forwardee in the header and changes nothing,
also when it loaded an unmarked header before the mark was installed. -/
theorem try_update_forwardee_marked (mem : Nat → Nat) (obj u : Nat)
    (hmark : markWord.is_marked (mark_raw mem obj) = true) :
    ShenandoahForwarding.try_update_forwardee mem obj u =
      (markWord.clear_lock_bits (mark_raw mem obj), mem) ∧
    (∀ old, markWord.is_marked old = false →
      ShenandoahForwarding.try_update_forwardee_cas mem obj u old =
        (markWord.clear_lock_bits (mark_raw mem obj), mem)) := by
  constructor
  · simp [ShenandoahForwarding.try_update_forwardee, hmark, markWord.to_pointer]
  · intro old hold
    have hne : mem obj ≠ old := by
      intro h
      rw [mark_raw, h, hold] at hmark
      exact Bool.noConfusion hmark
    simp [ShenandoahForwarding.try_update_forwardee_cas, cas_set_mark_raw, hne,
      markWord.to_pointer, mark_raw]

theorem ForwardInv.forward_step {obj h0 : Nat} {update : Nat → Nat} {mem0 : Nat → Nat}
    {σ : ShenandoahForwarding.Calls}
    (hh0 : markWord.is_marked h0 = false)
    (hupd : ∀ k, update k < W ∧ update k &&& markWord.lock_mask_in_place = 0)
    (inv : ShenandoahForwarding.ForwardInv obj h0 update mem0 σ) (i : Nat) :
    ShenandoahForwarding.ForwardInv obj h0 update mem0
      (ShenandoahForwarding.Calls.step obj update σ i) := by
  obtain ⟨i1, i2, i3, i4⟩ := inv
  have hmarked : ∀ k, markWord.encode_pointer_as_mark (update k) ≠ h0 := by
    intro k h
    rw [← h, is_marked_encode] at hh0
    exact Bool.noConfusion hh0
  cases hpc : σ.pc i with
  | start =>
    rcases i3 with hH | ⟨k, hH⟩
    · have e : ShenandoahForwarding.callStep obj (update i) ShenandoahForwarding.CallPc.start
          σ.mem = (ShenandoahForwarding.CallPc.loaded h0, σ.mem) := by
        simp [ShenandoahForwarding.callStep, mark_raw, hH, hh0]
      simp only [ShenandoahForwarding.Calls.step, hpc, e]
      refine ⟨?_, ?_, Or.inl hH, i4⟩
      · intro j old hj
        by_cases hji : j = i
        · simp only [hji, if_true] at hj
          injection hj with hj
          exact hj.symm
        · simp only [hji, if_false] at hj
          exact i1 j old hj
      · intro j r hj
        by_cases hji : j = i
        · simp only [hji, if_true] at hj
          exact ShenandoahForwarding.CallPc.noConfusion hj
        · simp only [hji, if_false] at hj
          exact i2 j r hj
    · have e : ShenandoahForwarding.callStep obj (update i) ShenandoahForwarding.CallPc.start
          σ.mem = (ShenandoahForwarding.CallPc.returned (update k), σ.mem) := by
        simp [ShenandoahForwarding.callStep, mark_raw, hH, is_marked_encode,
          markWord.to_pointer, clear_encode (hupd k).1 (hupd k).2]
      simp only [ShenandoahForwarding.Calls.step, hpc, e]
      refine ⟨?_, ?_, Or.inr ⟨k, hH⟩, i4⟩
      · intro j old hj
        by_cases hji : j = i
        · simp only [hji, if_true] at hj
          exact ShenandoahForwarding.CallPc.noConfusion hj
        · simp only [hji, if_false] at hj
          exact i1 j old hj
      · intro j r hj
        by_cases hji : j = i
        · simp only [hji, if_true] at hj
          injection hj with hj
          rw [← hj]
          exact ⟨hH, k, rfl⟩
        · simp only [hji, if_false] at hj
          exact i2 j r hj
  | loaded old =>
    have hold := i1 i old hpc
    subst hold
    rcases i3 with hH | ⟨k, hH⟩
    · have e : ShenandoahForwarding.callStep obj (update i)
          (ShenandoahForwarding.CallPc.loaded old) σ.mem =
          (ShenandoahForwarding.CallPc.returned (update i),
            fun x => if x = obj then markWord.encode_pointer_as_mark (update i)
              else σ.mem x) := by
        simp [ShenandoahForwarding.callStep, ShenandoahForwarding.try_update_forwardee_cas,
          cas_set_mark_raw, hH]
      simp only [ShenandoahForwarding.Calls.step, hpc, e]
      refine ⟨?_, ?_, Or.inr ⟨i, by simp⟩, fun x hx => by simp [hx, i4 x hx]⟩
      · intro j old' hj
        by_cases hji : j = i
        · simp only [hji, if_true] at hj
          exact ShenandoahForwarding.CallPc.noConfusion hj
        · simp only [hji, if_false] at hj
          exact i1 j old' hj
      · intro j r hj
        by_cases hji : j = i
        · simp only [hji, if_true] at hj
          injection hj with hj
          rw [← hj]
          exact ⟨by simp, i, rfl⟩
        · simp only [hji, if_false] at hj
          obtain ⟨q1, k, q2⟩ := i2 j r hj
          rw [hH, q2] at q1
          exact absurd q1.symm (hmarked k)
    · have hne : σ.mem obj ≠ old := by rw [hH]; exact hmarked k
      have e : ShenandoahForwarding.callStep obj (update i)
          (ShenandoahForwarding.CallPc.loaded old) σ.mem =
          (ShenandoahForwarding.CallPc.returned (update k), σ.mem) := by
        simp [ShenandoahForwarding.callStep, ShenandoahForwarding.try_update_forwardee_cas,
          cas_set_mark_raw, hne, markWord.to_pointer]
        rw [hH, clear_encode (hupd k).1 (hupd k).2]
      simp only [ShenandoahForwarding.Calls.step, hpc, e]
      refine ⟨?_, ?_, Or.inr ⟨k, hH⟩, i4⟩
      · intro j old' hj
        by_cases hji : j = i
        · simp only [hji, if_true] at hj
          exact ShenandoahForwarding.CallPc.noConfusion hj
        · simp only [hji, if_false] at hj
          exact i1 j old' hj
      · intro j r hj
        by_cases hji : j = i
        · simp only [hji, if_true] at hj
          injection hj with hj
          rw [← hj]
          exact ⟨hH, k, rfl⟩
        · simp only [hji, if_false] at hj
          exact i2 j r hj
  | returned r =>
    have e : ShenandoahForwarding.callStep obj (update i)
        (ShenandoahForwarding.CallPc.returned r) σ.mem =
        (ShenandoahForwarding.CallPc.returned r, σ.mem) := rfl
    simp only [ShenandoahForwarding.Calls.step, hpc, e]
    refine ⟨?_, ?_, i3, i4⟩
    · intro j old hj
      by_cases hji : j = i
      · simp only [hji, if_true] at hj
        exact ShenandoahForwarding.CallPc.noConfusion hj
      · simp only [hji, if_false] at hj
        exact i1 j old hj
    · intro j r' hj
      by_cases hji : j = i
      · simp only [hji, if_true] at hj
        injection hj with hj
        rw [← hj]
        exact i2 i r hpc
      · simp only [hji, if_false] at hj
        exact i2 j r' hj

theorem ForwardInv.forward_run {obj h0 : Nat} {update : Nat → Nat} {mem0 : Nat → Nat}
    (hh0 : markWord.is_marked h0 = false)
    (hupd : ∀ k, update k < W ∧ update k &&& markWord.lock_mask_in_place = 0)
    (sched : List Nat) :
    ∀ σ : ShenandoahForwarding.Calls, ShenandoahForwarding.ForwardInv obj h0 update mem0 σ →
      ShenandoahForwarding.ForwardInv obj h0 update mem0
        (ShenandoahForwarding.Calls.run obj update σ sched) := by
  induction sched with
  | nil => intro σ inv; exact inv
  | cons i rest ih =>
    intro σ inv
    exact ih _ (ForwardInv.forward_step hh0 hupd inv i)

theorem callStep_rank (obj u : Nat) (pc : ShenandoahForwarding.CallPc) (mem : Nat → Nat) :
    (ShenandoahForwarding.callStep obj u pc mem).1.rank ≤ pc.rank - 1 := by
  cases pc with
  | start =>
    simp only [ShenandoahForwarding.callStep]
    split
    · exact Nat.zero_le _
    · exact Nat.le_refl _
  | loaded old => exact Nat.le_refl _
  | returned r => exact Nat.le_refl _

theorem calls_run_rank (obj : Nat) (update : Nat → Nat) (i : Nat) (sched : List Nat) :
    ∀ σ : ShenandoahForwarding.Calls,
      ((ShenandoahForwarding.Calls.run obj update σ sched).pc i).rank ≤
        (σ.pc i).rank - sched.count i := by
  induction sched with
  | nil => intro σ; simp [ShenandoahForwarding.Calls.run]
  | cons j rest ih =>
    intro σ
    simp only [ShenandoahForwarding.Calls.run]
    refine Nat.le_trans (ih _) ?_
    by_cases hj : j = i
    · subst hj
      have := callStep_rank obj (update j) (σ.pc j) σ.mem
      simp only [ShenandoahForwarding.Calls.step, if_true, List.count_cons_self]
      omega
    · have hij : ¬ i = j := fun h => hj h.symm
      simp only [ShenandoahForwarding.Calls.step, hij, if_false]
      rw [List.count_cons_of_ne hij]

theorem callPc_rank_zero {pc : ShenandoahForwarding.CallPc} (h : pc.rank = 0) :
    ∃ r, pc = ShenandoahForwarding.CallPc.returned r := by
  cases pc with
  | start => exact absurd h (Nat.succ_ne_zero _)
  | loaded old => exact absurd h (Nat.succ_ne_zero _)
  | returned r => exact ⟨r, rfl⟩

/-- C20: once an object's mark is marked, `try_update_forwardee(obj, u)` leaves the
memory unchanged and returns the forwardee in the header, for every `u`, also for a
call that loaded the header before the mark was installed.  Hence for calls racing on
an object that starts unforwarded, with candidates that are pointers with zero lock
bits, under every interleaving of their steps: every call that has taken its two steps
has returned; all calls that have returned have returned the same forwardee; it is one
of the candidates and its encoding is the header; no other word has changed. -/
theorem forwardee_first_writer_wins (obj : Nat) (update : Nat → Nat)
    (σ0 : ShenandoahForwarding.Calls) (sched : List Nat)
    (hstart : ∀ i, σ0.pc i = ShenandoahForwarding.CallPc.start)
    (hh0 : markWord.is_marked (mark_raw σ0.mem obj) = false)
    (hupd : ∀ k, update k < W ∧ update k &&& markWord.lock_mask_in_place = 0) :
    (∀ (mem : Nat → Nat) (u : Nat), markWord.is_marked (mark_raw mem obj) = true →
      ShenandoahForwarding.try_update_forwardee mem obj u =
        (markWord.clear_lock_bits (mark_raw mem obj), mem) ∧
      (∀ old, markWord.is_marked old = false →
        ShenandoahForwarding.try_update_forwardee_cas mem obj u old =
          (markWord.clear_lock_bits (mark_raw mem obj), mem))) ∧
    (∀ i, 2 ≤ sched.count i →
      ∃ r, (ShenandoahForwarding.Calls.run obj update σ0 sched).pc i =
        ShenandoahForwarding.CallPc.returned r) ∧
    (∀ i j r r',
      (ShenandoahForwarding.Calls.run obj update σ0 sched).pc i =
        ShenandoahForwarding.CallPc.returned r →
      (ShenandoahForwarding.Calls.run obj update σ0 sched).pc j =
        ShenandoahForwarding.CallPc.returned r' → r = r') ∧
    (∀ i r,
      (ShenandoahForwarding.Calls.run obj update σ0 sched).pc i =
        ShenandoahForwarding.CallPc.returned r →
      (∃ k, r = update k) ∧
      (ShenandoahForwarding.Calls.run obj update σ0 sched).mem obj =
        markWord.encode_pointer_as_mark r ∧
      ShenandoahForwarding.get_forwardee
        (ShenandoahForwarding.Calls.run obj update σ0 sched).mem obj = r) ∧
    (∀ x, x ≠ obj → (ShenandoahForwarding.Calls.run obj update σ0 sched).mem x = σ0.mem x) := by
  have inv0 : ShenandoahForwarding.ForwardInv obj (σ0.mem obj) update σ0.mem σ0 := by
    refine ⟨?_, ?_, Or.inl rfl, fun _ _ => rfl⟩
    · intro i old h
      rw [hstart i] at h
      exact ShenandoahForwarding.CallPc.noConfusion h
    · intro i r h
      rw [hstart i] at h
      exact ShenandoahForwarding.CallPc.noConfusion h
  obtain ⟨-, i2, -, i4⟩ := ForwardInv.forward_run hh0 hupd sched σ0 inv0
  have hget : ∀ i r,
      (ShenandoahForwarding.Calls.run obj update σ0 sched).pc i =
        ShenandoahForwarding.CallPc.returned r →
      ShenandoahForwarding.get_forwardee
        (ShenandoahForwarding.Calls.run obj update σ0 sched).mem obj = r := by
    intro i r h
    obtain ⟨q1, k, q2⟩ := i2 i r h
    simp only [ShenandoahForwarding.get_forwardee,
      ShenandoahForwarding.get_forwardee_raw_unchecked, mark_raw, q1, is_marked_encode, if_true,
      markWord.to_pointer]
    rw [q2]
    exact clear_encode (hupd k).1 (hupd k).2
  refine ⟨fun mem u h => try_update_forwardee_marked mem obj u h, ?_, ?_, ?_, i4⟩
  · intro i hi
    apply callPc_rank_zero
    have h1 := calls_run_rank obj update i sched σ0
    rw [hstart i] at h1
    have h2 : ShenandoahForwarding.CallPc.start.rank = 2 := rfl
    omega
  · intro i j r r' hi hj
    rw [← hget i r hi, ← hget j r' hj]
  · intro i r h
    obtain ⟨q1, k, q2⟩ := i2 i r h
    exact ⟨⟨k, q2⟩, q1, hget i r h⟩

/-- Witness for `forwardee_first_writer_wins`: three calls; calls 1 and 2 load, then call 0
loads, call 2 wins the exchange, and the others finish: call 0, with candidate `0x2000`,
returns `0x3000`, which is what `get_forwardee` reads from the header. -/
theorem forwardee_first_writer_wins_witness :
    ShenandoahForwarding.get_forwardee
      (ShenandoahForwarding.Calls.run 0x1000 ShenandoahForwarding.sampleUpdate
        ShenandoahForwarding.sampleCalls [1, 2, 0, 2, 0, 1]).mem 0x1000 = 0x3000 :=
  ((forwardee_first_writer_wins 0x1000 ShenandoahForwarding.sampleUpdate
    ShenandoahForwarding.sampleCalls [1, 2, 0, 2, 0, 1] (fun _ => rfl) (by decide)
    (fun k => by
      unfold ShenandoahForwarding.sampleUpdate
      split <;> decide)).2.2.2.1 0 0x3000 (by decide)).2.2

/-! ## The preserved-marks log -/

namespace PreservedMarksSet

theorem sizes_update (get : Nat → List OopAndMarkWord) (i : Nat) (s : List OopAndMarkWord)
    (n : Nat) :
    sizes (Function.update get i s) n + (if i < n then (get i).length else 0) =
      sizes get n + (if i < n then s.length else 0) := by
  induction n with
  | zero => simp [sizes]
  | succ n ih =>
    simp only [sizes]
    by_cases hin : i = n
    · subst hin
      simp only [Nat.lt_irrefl, if_false, Nat.add_zero, Nat.lt_succ_self, if_true,
        Function.update_same] at ih ⊢
      omega
    · rw [Function.update_noteq (Ne.symm hin)]
      by_cases hlt : i < n
      · have h1 : i < n + 1 := Nat.lt_succ_of_lt hlt
        simp only [hlt, h1, if_true] at ih ⊢
        omega
      · have h1 : ¬ i < n + 1 := by omega
        simp only [hlt, h1, if_false, Nat.add_zero] at ih ⊢
        omega

theorem sizes_eq_zero (get : Nat → List OopAndMarkWord) (n : Nat)
    (h : ∀ i, i < n → get i = []) : sizes get n = 0 := by
  induction n with
  | zero => rfl
  | succ n ih =>
    simp only [sizes]
    rw [ih (fun i hi => h i (Nat.lt_succ_of_lt hi)), h n (Nat.lt_succ_self n)]
    rfl

theorem assert_empty_of (get : Nat → List OopAndMarkWord) (n : Nat)
    (h : ∀ i, i < n → get i = []) : assert_empty get n = true := by
  induction n with
  | zero => rfl
  | succ n ih =>
    simp only [assert_empty]
    rw [ih (fun i hi => h i (Nat.lt_succ_of_lt hi)), h n (Nat.lt_succ_self n)]
    rfl

theorem push_if_necessary_eq (P : Nat → Nat → Bool) (set : PreservedMarksSet)
    (call : PushCall) :
    push_if_necessary P set call =
      some (if PreservedMarks.should_preserve_mark P call.obj call.m then
        ⟨set.num, Function.update set.get call.worker
          (⟨call.obj, call.m⟩ :: set.get call.worker)⟩
      else set) := by
  cases h : PreservedMarks.should_preserve_mark P call.obj call.m
  · simp [push_if_necessary, PreservedMarks.push_if_necessary, h]
  · simp [push_if_necessary, PreservedMarks.push_if_necessary, PreservedMarks.push, h]

theorem push_calls_spec (P : Nat → Nat → Bool) (calls : List PushCall) :
    ∀ set : PreservedMarksSet, (∀ c ∈ calls, c.worker < set.num) →
      ∃ set1, push_calls P set calls = some set1 ∧ set1.num = set.num ∧
        sizes set1.get set.num = sizes set.get set.num +
          calls.countP (fun c => PreservedMarks.should_preserve_mark P c.obj c.m) ∧
        ∀ i e, e ∈ set1.get i ↔ e ∈ set.get i ∨
          ∃ c ∈ calls, c.worker = i ∧
            PreservedMarks.should_preserve_mark P c.obj c.m = true ∧ e = ⟨c.obj, c.m⟩ := by
  induction calls with
  | nil =>
    intro set _
    exact ⟨set, rfl, rfl, by simp, by simp⟩
  | cons c rest ih =>
    intro set hw
    have hc : c.worker < set.num := hw c (List.mem_cons_self _ _)
    have hrest : ∀ d ∈ rest, d.worker < set.num := fun d hd => hw d (List.mem_cons_of_mem _ hd)
    cases hp : PreservedMarks.should_preserve_mark P c.obj c.m
    · obtain ⟨set1, h1, h2, h3, h4⟩ := ih set hrest
      refine ⟨set1, ?_, h2, ?_, ?_⟩
      · simp [push_calls, push_if_necessary_eq, hp, h1]
      · rw [h3, List.countP_cons_of_neg]
        simp [hp]
      · intro i e
        rw [h4 i e]
        constructor
        · rintro (h | ⟨d, hd, h⟩)
          · exact Or.inl h
          · exact Or.inr ⟨d, List.mem_cons_of_mem _ hd, h⟩
        · rintro (h | ⟨d, hd, hdw, hdp, hde⟩)
          · exact Or.inl h
          · rcases List.mem_cons.mp hd with rfl | hd
            · rw [hp] at hdp
              exact absurd hdp (by decide)
            · exact Or.inr ⟨d, hd, hdw, hdp, hde⟩
    · obtain ⟨set1, h1, h2, h3, h4⟩ :=
        ih ⟨set.num, Function.update set.get c.worker (⟨c.obj, c.m⟩ :: set.get c.worker)⟩ hrest
      refine ⟨set1, ?_, h2, ?_, ?_⟩
      · simp [push_calls, push_if_necessary_eq, hp, h1]
      · have hs := sizes_update set.get c.worker (⟨c.obj, c.m⟩ :: set.get c.worker) set.num
        simp only [hc, if_true, List.length_cons] at hs
        rw [List.countP_cons]
        simp only [hp, if_true] at h3 ⊢
        omega
      · intro i e
        rw [h4 i e]
        simp only
        by_cases hi : i = c.worker
        · subst hi
          rw [Function.update_same, List.mem_cons]
          constructor
          · rintro ((h | h) | ⟨d, hd, h⟩)
            · exact Or.inr ⟨c, List.mem_cons_self _ _, rfl, hp, h⟩
            · exact Or.inl h
            · exact Or.inr ⟨d, List.mem_cons_of_mem _ hd, h⟩
          · rintro (h | ⟨d, hd, hdw, hdp, hde⟩)
            · exact Or.inl (Or.inr h)
            · rcases List.mem_cons.mp hd with rfl | hd
              · exact Or.inl (Or.inl hde)
              · exact Or.inr ⟨d, hd, hdw, hdp, hde⟩
        · rw [Function.update_noteq hi]
          constructor
          · rintro (h | ⟨d, hd, h⟩)
            · exact Or.inl h
            · exact Or.inr ⟨d, List.mem_cons_of_mem _ hd, h⟩
          · rintro (h | ⟨d, hd, hdw, hdp, hde⟩)
            · exact Or.inl h
            · rcases List.mem_cons.mp hd with rfl | hd
              · exact absurd hdw.symm hi
              · exact Or.inr ⟨d, hd, hdw, hdp, hde⟩

theorem restore_one_out (σ : RestoreState) (i : Nat) (hi : ¬ i < σ.set.num) :
    restore_one σ i = σ := by
  simp [restore_one, hi]

theorem restore_one_nil (σ : RestoreState) (i : Nat) (hget : σ.set.get i = []) :
    restore_one σ i = σ := by
  unfold restore_one
  split_ifs
  · rw [hget]
  · rfl

theorem restore_one_cons (σ : RestoreState) (i : Nat) (e : OopAndMarkWord)
    (rest : List OopAndMarkWord) (hi : i < σ.set.num) (hget : σ.set.get i = e :: rest) :
    restore_one σ i =
      { set := ⟨σ.set.num, Function.update σ.set.get i rest⟩,
        mem := e.set_mark σ.mem,
        total_size := σ.total_size + 1 } := by
  unfold restore_one
  rw [if_pos hi, hget]

theorem restore_one_num (σ : RestoreState) (i : Nat) :
    (restore_one σ i).set.num = σ.set.num := by
  by_cases hi : i < σ.set.num
  · cases hget : σ.set.get i with
    | nil => rw [restore_one_nil σ i hget]
    | cons e rest => rw [restore_one_cons σ i e rest hi hget]
  · rw [restore_one_out σ i hi]

theorem restore_one_keeps_empty (σ : RestoreState) (i k : Nat) (hk : σ.set.get k = []) :
    (restore_one σ i).set.get k = [] := by
  by_cases hi : i < σ.set.num
  · cases hget : σ.set.get i with
    | nil => rw [restore_one_nil σ i hget]; exact hk
    | cons e rest =>
      rw [restore_one_cons σ i e rest hi hget]
      have hne : k ≠ i := by
        rintro rfl
        rw [hk] at hget
        exact List.noConfusion hget
      simp only
      rw [Function.update_noteq hne]
      exact hk
  · rw [restore_one_out σ i hi]; exact hk

theorem fold_one_num (l : List Nat) : ∀ σ : RestoreState,
    (l.foldl restore_one σ).set.num = σ.set.num := by
  induction l with
  | nil => intro σ; rfl
  | cons i l ih => intro σ; rw [List.foldl_cons, ih, restore_one_num]

theorem fold_one_keeps_empty (l : List Nat) (k : Nat) : ∀ σ : RestoreState,
    σ.set.get k = [] → (l.foldl restore_one σ).set.get k = [] := by
  induction l with
  | nil => intro σ h; exact h
  | cons i l ih => intro σ h; rw [List.foldl_cons]; exact ih _ (restore_one_keeps_empty σ i k h)

theorem fold_replicate_empty (i : Nat) : ∀ (n : Nat) (σ : RestoreState),
    (σ.set.get i).length = n → i < σ.set.num →
      ((List.replicate n i).foldl restore_one σ).set.get i = [] := by
  intro n
  induction n with
  | zero =>
    intro σ hlen _
    exact List.length_eq_zero.mp hlen
  | succ n ih =>
    intro σ hlen hi
    cases hget : σ.set.get i with
    | nil => rw [hget] at hlen; exact absurd hlen (by simp)
    | cons e rest =>
      rw [List.replicate_succ, List.foldl_cons, restore_one_cons σ i e rest hi hget]
      apply ih
      · simp only
        rw [Function.update_same]
        rw [hget] at hlen
        simpa using hlen
      · exact hi

theorem restore_stack_num (σ : RestoreState) (i : Nat) :
    (restore_stack σ i).set.num = σ.set.num := fold_one_num _ σ

theorem restore_stack_keeps_empty (σ : RestoreState) (i k : Nat) (hk : σ.set.get k = []) :
    (restore_stack σ i).set.get k = [] := fold_one_keeps_empty _ k σ hk

theorem restore_stack_empty (σ : RestoreState) (i : Nat) (hi : i < σ.set.num) :
    (restore_stack σ i).set.get i = [] := fold_replicate_empty i _ σ rfl hi

theorem fold_stack_num (l : List Nat) : ∀ σ : RestoreState,
    (l.foldl restore_stack σ).set.num = σ.set.num := by
  induction l with
  | nil => intro σ; rfl
  | cons i l ih => intro σ; rw [List.foldl_cons, ih, restore_stack_num]

theorem fold_stack_keeps_empty (l : List Nat) (k : Nat) : ∀ σ : RestoreState,
    σ.set.get k = [] → (l.foldl restore_stack σ).set.get k = [] := by
  induction l with
  | nil => intro σ h; exact h
  | cons i l ih =>
    intro σ h; rw [List.foldl_cons]; exact ih _ (restore_stack_keeps_empty σ i k h)

theorem fold_stack_empty (l : List Nat) : ∀ σ : RestoreState,
    (∀ i ∈ l, i < σ.set.num) → ∀ i ∈ l, (l.foldl restore_stack σ).set.get i = [] := by
  induction l with
  | nil => intro σ _ i hi; exact absurd hi (List.not_mem_nil i)
  | cons j l ih =>
    intro σ hl i hi
    rw [List.foldl_cons]
    by_cases hij : i = j
    · subst hij
      exact fold_stack_keeps_empty l i _ (restore_stack_empty σ i (hl i (List.mem_cons_self _ _)))
    · have hil : i ∈ l := by
        rcases List.mem_cons.mp hi with h | h
        · exact absurd h hij
        · exact h
      apply ih _ _ i hil
      intro k hk
      rw [restore_stack_num]
      exact hl k (List.mem_cons_of_mem _ hk)

theorem executor_restore_num (sched : List Nat) (σ : RestoreState) :
    (executor_restore sched σ).set.num = σ.set.num := by
  simp only [executor_restore]
  rw [fold_stack_num, fold_one_num]

theorem executor_restore_empty (sched : List Nat) (σ : RestoreState) (i : Nat)
    (hi : i < σ.set.num) : (executor_restore sched σ).set.get i = [] := by
  simp only [executor_restore]
  apply fold_stack_empty
  · intro k hk
    exact List.mem_range.mp hk
  · rw [fold_one_num]
    exact List.mem_range.mpr hi

end PreservedMarksSet

namespace PreservedMarksSet

theorem executor_restore_induct (Q : RestoreState → Prop)
    (hstep : ∀ σ i, Q σ → Q (restore_one σ i)) (sched : List Nat) (σ : RestoreState)
    (h : Q σ) : Q (executor_restore sched σ) := by
  have hone : ∀ (l : List Nat) (σ : RestoreState), Q σ → Q (l.foldl restore_one σ) := by
    intro l
    induction l with
    | nil => intro σ h; exact h
    | cons i l ih => intro σ h; rw [List.foldl_cons]; exact ih _ (hstep σ i h)
  have hstack : ∀ (l : List Nat) (σ : RestoreState), Q σ → Q (l.foldl restore_stack σ) := by
    intro l
    induction l with
    | nil => intro σ h; exact h
    | cons i l ih => intro σ h; rw [List.foldl_cons]; exact ih _ (hone _ σ h)
  exact hstack _ _ (hone sched σ h)

theorem CountInv.count_step {set0 : PreservedMarksSet} {σ : RestoreState}
    (h : CountInv set0 σ) (i : Nat) : CountInv set0 (restore_one σ i) := by
  obtain ⟨hnum, hsum, hsub⟩ := h
  by_cases hi : i < σ.set.num
  · cases hget : σ.set.get i with
    | nil => rw [restore_one_nil σ i hget]; exact ⟨hnum, hsum, hsub⟩
    | cons e rest =>
      rw [restore_one_cons σ i e rest hi hget]
      refine ⟨hnum, ?_, ?_⟩
      · have hs := sizes_update σ.set.get i rest set0.num
        rw [hnum] at hi
        simp only [hi, if_true, hget, List.length_cons] at hs
        simp only
        omega
      · intro k f hf
        simp only at hf
        by_cases hk : k = i
        · subst hk
          rw [Function.update_same] at hf
          apply hsub
          rw [hget]
          exact List.mem_cons_of_mem _ hf
        · rw [Function.update_noteq hk] at hf
          exact hsub k f hf
  · rw [restore_one_out σ i hi]; exact ⟨hnum, hsum, hsub⟩

theorem MarksInv.marks_step {set0 : PreservedMarksSet} {mem0 : Nat → Nat} {σ : RestoreState}
    (hd : Distinct set0) (hc : CountInv set0 σ) (h : MarksInv set0 mem0 σ) (i : Nat) :
    MarksInv set0 mem0 (restore_one σ i) := by
  obtain ⟨hnum, _, hsub⟩ := hc
  obtain ⟨hent, hframe⟩ := h
  by_cases hi : i < σ.set.num
  · cases hget : σ.set.get i with
    | nil => rw [restore_one_nil σ i hget]; exact ⟨hent, hframe⟩
    | cons e rest =>
      rw [restore_one_cons σ i e rest hi hget]
      have hi0 : i < set0.num := hnum ▸ hi
      have he0 : e ∈ set0.get i := hsub i e (by rw [hget]; exact List.mem_cons_self _ _)
      refine ⟨?_, ?_⟩
      · intro k hk f hf
        simp only [OopAndMarkWord.set_mark, set_mark_raw]
        by_cases hfo : f.o = e.o
        · right
          have hfe : f = e := hd k i f e hk hi0 hf he0 hfo
          rw [if_pos hfo, hfe]
        · rw [if_neg hfo]
          rcases hent k hk f hf with hin | hm
          · left
            by_cases hki : k = i
            · subst hki
              rw [Function.update_same]
              rw [hget] at hin
              rcases List.mem_cons.mp hin with hfe | hin
              · exact absurd (congrArg OopAndMarkWord.o hfe) hfo
              · exact hin
            · rw [Function.update_noteq hki]
              exact hin
          · exact Or.inr hm
      · intro x hx
        simp only [OopAndMarkWord.set_mark, set_mark_raw]
        rw [if_neg (fun hxe => hx i hi0 e he0 hxe.symm)]
        exact hframe x hx
  · rw [restore_one_out σ i hi]; exact ⟨hent, hframe⟩

theorem CountInv.count_start (set : PreservedMarksSet) (mem : Nat → Nat) :
    CountInv set ⟨set, mem, 0⟩ :=
  ⟨rfl, by simp, fun _ _ h => h⟩

theorem MarksInv.marks_start (set : PreservedMarksSet) (mem : Nat → Nat) :
    MarksInv set mem ⟨set, mem, 0⟩ :=
  ⟨fun _ _ _ h => Or.inl h, fun _ _ => rfl⟩

theorem restore_returns (sched : List Nat) (set : PreservedMarksSet) (mem : Nat → Nat) :
    restore (executor_restore sched) set mem = some (executor_restore sched ⟨set, mem, 0⟩) ∧
    (executor_restore sched ⟨set, mem, 0⟩).total_size = sizes set.get set.num ∧
    (executor_restore sched ⟨set, mem, 0⟩).set.num = set.num ∧
    ∀ i, i < set.num → (executor_restore sched ⟨set, mem, 0⟩).set.get i = [] := by
  have hnum : (executor_restore sched ⟨set, mem, 0⟩).set.num = set.num :=
    executor_restore_num sched _
  have hempty : ∀ i, i < set.num → (executor_restore sched ⟨set, mem, 0⟩).set.get i = [] :=
    fun i hi => executor_restore_empty sched ⟨set, mem, 0⟩ i hi
  have hinv : CountInv set (executor_restore sched ⟨set, mem, 0⟩) :=
    executor_restore_induct (CountInv set) (fun _ i h => h.count_step i) sched _
      (CountInv.count_start set mem)
  have htotal : (executor_restore sched ⟨set, mem, 0⟩).total_size = sizes set.get set.num := by
    have h := hinv.2.1
    rw [sizes_eq_zero _ _ hempty] at h
    simpa using h
  refine ⟨?_, htotal, hnum, hempty⟩
  have hassert : assert_empty (executor_restore sched ⟨set, mem, 0⟩).set.get
      (executor_restore sched ⟨set, mem, 0⟩).set.num = true := by
    rw [hnum]
    exact assert_empty_of _ _ hempty
  simp only [restore, hassert, htotal, if_true]

theorem restore_marks (sched : List Nat) (set : PreservedMarksSet) (mem : Nat → Nat)
    (hd : Distinct set) :
    (∀ i, i < set.num → ∀ e ∈ set.get i,
      (executor_restore sched ⟨set, mem, 0⟩).mem e.o = e.m) ∧
    ∀ x, (∀ i, i < set.num → ∀ e ∈ set.get i, e.o ≠ x) →
      (executor_restore sched ⟨set, mem, 0⟩).mem x = mem x := by
  have hinv : CountInv set (executor_restore sched ⟨set, mem, 0⟩) ∧
      MarksInv set mem (executor_restore sched ⟨set, mem, 0⟩) :=
    executor_restore_induct (fun σ => CountInv set σ ∧ MarksInv set mem σ)
      (fun _ i h => ⟨h.1.count_step i, h.2.marks_step hd h.1 i⟩) sched _
      ⟨CountInv.count_start set mem, MarksInv.marks_start set mem⟩
  refine ⟨?_, hinv.2.2⟩
  intro i hi e he
  rcases hinv.2.1 i hi e he with hin | hm
  · rw [executor_restore_empty sched ⟨set, mem, 0⟩ i hi] at hin
    exact absurd hin (List.not_mem_nil e)
  · exact hm

end PreservedMarksSet

/-- C22: `push_if_necessary(obj, m)` never fails the assertion of `push`; its result is
the stack with the one entry `(obj, m)` on top when `should_preserve_mark(obj, m)`, that
is `m.must_be_preserved_for_promotion_failure(obj)`, is true, and the stack itself, with
every entry as it was, when it is false. -/
theorem push_if_necessary_appends (must_be_preserved_for_promotion_failure : Nat → Nat → Bool)
    (stack : List OopAndMarkWord) (obj m : Nat) :
    PreservedMarks.should_preserve_mark must_be_preserved_for_promotion_failure obj m =
      must_be_preserved_for_promotion_failure m obj ∧
    PreservedMarks.push_if_necessary must_be_preserved_for_promotion_failure stack obj m =
      some (if must_be_preserved_for_promotion_failure m obj then ⟨obj, m⟩ :: stack
        else stack) ∧
    (PreservedMarks.push must_be_preserved_for_promotion_failure stack obj m =
      if must_be_preserved_for_promotion_failure m obj then some (⟨obj, m⟩ :: stack)
        else none) := by
  refine ⟨rfl, ?_, ?_⟩
  · cases h : must_be_preserved_for_promotion_failure m obj <;>
      simp [PreservedMarks.push_if_necessary, PreservedMarks.push,
        PreservedMarks.should_preserve_mark, h]
  · cases h : must_be_preserved_for_promotion_failure m obj <;>
      simp [PreservedMarks.push, PreservedMarks.should_preserve_mark, h]

/-- C23: after any calls of `push_if_necessary` on the stacks of a set, `restore` passes
its assertions under every schedule of the restoring workers, the count it reports is
the sum of the sizes of all worker stacks before the call, that sum is what the set
held before the pushes plus the number of entries pushed, and every worker stack is
empty afterwards. -/
theorem restore_counts_all_entries (must_be_preserved_for_promotion_failure : Nat → Nat → Bool)
    (set0 : PreservedMarksSet) (calls : List PushCall) (mem : Nat → Nat) (sched : List Nat)
    (hw : ∀ c ∈ calls, c.worker < set0.num) :
    ∃ set σ,
      PreservedMarksSet.push_calls must_be_preserved_for_promotion_failure set0 calls =
        some set ∧
      PreservedMarksSet.restore (PreservedMarksSet.executor_restore sched) set mem = some σ ∧
      σ.total_size = PreservedMarksSet.sizes set.get set.num ∧
      PreservedMarksSet.sizes set.get set.num =
        PreservedMarksSet.sizes set0.get set0.num +
          calls.countP (fun c =>
            PreservedMarks.should_preserve_mark must_be_preserved_for_promotion_failure
              c.obj c.m) ∧
      σ.set.num = set.num ∧ ∀ i, i < set.num → σ.set.get i = [] := by
  obtain ⟨set, h1, h2, h3, _⟩ :=
    PreservedMarksSet.push_calls_spec must_be_preserved_for_promotion_failure calls set0 hw
  obtain ⟨r1, r2, r3, r4⟩ := PreservedMarksSet.restore_returns sched set mem
  refine ⟨set, _, h1, r1, r2, ?_, r3, r4⟩
  rw [h2]
  exact h3

theorem restore_counts_all_entries_witness :
    ∃ set σ,
      PreservedMarksSet.push_calls PreservedMarksSet.sampleMustPreserve
        (PreservedMarksSet.init 2) PreservedMarksSet.samplePushes = some set ∧
      PreservedMarksSet.restore (PreservedMarksSet.executor_restore [1, 0, 1]) set
        PreservedMarksSet.sampleForwardedMemory = some σ ∧
      σ.total_size = PreservedMarksSet.sizes set.get set.num ∧
      PreservedMarksSet.sizes set.get set.num =
        PreservedMarksSet.sizes (PreservedMarksSet.init 2).get (PreservedMarksSet.init 2).num +
          PreservedMarksSet.samplePushes.countP (fun c =>
            PreservedMarks.should_preserve_mark PreservedMarksSet.sampleMustPreserve
              c.obj c.m) ∧
      σ.set.num = set.num ∧ ∀ i, i < set.num → σ.set.get i = [] :=
  restore_counts_all_entries PreservedMarksSet.sampleMustPreserve (PreservedMarksSet.init 2)
    PreservedMarksSet.samplePushes PreservedMarksSet.sampleForwardedMemory [1, 0, 1]
    (by decide)

/-- C24: after any calls of `push_if_necessary` on the initially empty stacks of any
number of workers in which no object is pushed twice, `restore`, under every schedule of
the restoring workers and whatever the headers hold when it starts, leaves in the
header of every pushed object the mark saved in its entry, and leaves the header of
every object that was not pushed as it found it. -/
theorem restore_writes_saved_marks (must_be_preserved_for_promotion_failure : Nat → Nat → Bool)
    (num : Nat) (calls : List PushCall) (mem : Nat → Nat) (sched : List Nat)
    (hw : ∀ c ∈ calls, c.worker < num)
    (honce : ((calls.filter (fun c =>
      PreservedMarks.should_preserve_mark must_be_preserved_for_promotion_failure
        c.obj c.m)).map PushCall.obj).Nodup) :
    ∃ set σ,
      PreservedMarksSet.push_calls must_be_preserved_for_promotion_failure
        (PreservedMarksSet.init num) calls = some set ∧
      PreservedMarksSet.restore (PreservedMarksSet.executor_restore sched) set mem = some σ ∧
      (∀ c ∈ calls,
        PreservedMarks.should_preserve_mark must_be_preserved_for_promotion_failure
          c.obj c.m = true → σ.mem c.obj = c.m) ∧
      ∀ x, (∀ c ∈ calls,
        PreservedMarks.should_preserve_mark must_be_preserved_for_promotion_failure
          c.obj c.m = true → c.obj ≠ x) → σ.mem x = mem x := by
  obtain ⟨set, h1, h2, _, h4⟩ :=
    PreservedMarksSet.push_calls_spec must_be_preserved_for_promotion_failure calls
      (PreservedMarksSet.init num) hw
  have hnum : set.num = num := h2
  have hmem : ∀ i e, e ∈ set.get i ↔ ∃ c ∈ calls, c.worker = i ∧
      PreservedMarks.should_preserve_mark must_be_preserved_for_promotion_failure
        c.obj c.m = true ∧ e = ⟨c.obj, c.m⟩ := by
    intro i e
    rw [h4 i e]
    simp [PreservedMarksSet.init]
  have hd : PreservedMarksSet.Distinct set := by
    intro i j e f _ _ he hf hof
    obtain ⟨c, hc, _, hcp, rfl⟩ := (hmem i e).mp he
    obtain ⟨d, hdm, _, hdp, rfl⟩ := (hmem j f).mp hf
    have hcd : c = d :=
      List.inj_on_of_nodup_map honce (List.mem_filter.mpr ⟨hc, hcp⟩)
        (List.mem_filter.mpr ⟨hdm, hdp⟩) hof
    rw [hcd]
  obtain ⟨r1, _, _, _⟩ := PreservedMarksSet.restore_returns sched set mem
  obtain ⟨m1, m2⟩ := PreservedMarksSet.restore_marks sched set mem hd
  refine ⟨set, _, h1, r1, ?_, ?_⟩
  · intro c hc hcp
    have hin : (⟨c.obj, c.m⟩ : OopAndMarkWord) ∈ set.get c.worker :=
      (hmem c.worker _).mpr ⟨c, hc, rfl, hcp, rfl⟩
    exact m1 c.worker (hnum ▸ hw c hc) _ hin
  · intro x hx
    apply m2
    intro i _ e he
    obtain ⟨c, hc, _, hcp, rfl⟩ := (hmem i e).mp he
    exact hx c hc hcp

theorem restore_writes_saved_marks_witness :
    ∃ set σ,
      PreservedMarksSet.push_calls PreservedMarksSet.sampleMustPreserve
        (PreservedMarksSet.init 2) PreservedMarksSet.samplePushes = some set ∧
      PreservedMarksSet.restore (PreservedMarksSet.executor_restore [1, 0, 1]) set
        PreservedMarksSet.sampleForwardedMemory = some σ ∧
      (∀ c ∈ PreservedMarksSet.samplePushes,
        PreservedMarks.should_preserve_mark PreservedMarksSet.sampleMustPreserve
          c.obj c.m = true → σ.mem c.obj = c.m) ∧
      ∀ x, (∀ c ∈ PreservedMarksSet.samplePushes,
        PreservedMarks.should_preserve_mark PreservedMarksSet.sampleMustPreserve
          c.obj c.m = true → c.obj ≠ x) → σ.mem x = PreservedMarksSet.sampleForwardedMemory x :=
  restore_writes_saved_marks PreservedMarksSet.sampleMustPreserve 2
    PreservedMarksSet.samplePushes PreservedMarksSet.sampleForwardedMemory [1, 0, 1]
    (by decide) (by decide)

/-! ## Reading the forwardee -/

/-- C21: `get_forwardee` and `get_forwardee_raw` return the mark with its lock bits
cleared, read as a pointer, when the header is marked, and the object itself otherwise;
they take the memory and return a pointer only, so no header changes, and the result
is the same on every memory that agrees on the header of the object, in particular
when the call is repeated on an unchanged object. -/
theorem get_forwardee_pure_read (mem mem1 : Nat → Nat) (obj : Nat)
    (hsame : mark_raw mem1 obj = mark_raw mem obj) :
    ShenandoahForwarding.get_forwardee mem obj =
      (if markWord.is_marked (mark_raw mem obj) then
        markWord.to_pointer (markWord.clear_lock_bits (mark_raw mem obj)) else obj) ∧
    ShenandoahForwarding.get_forwardee_raw mem obj =
      ShenandoahForwarding.get_forwardee mem obj ∧
    ShenandoahForwarding.get_forwardee mem1 obj =
      ShenandoahForwarding.get_forwardee mem obj ∧
    ShenandoahForwarding.get_forwardee_raw mem1 obj =
      ShenandoahForwarding.get_forwardee_raw mem obj := by
  refine ⟨rfl, rfl, ?_, ?_⟩
  · simp only [ShenandoahForwarding.get_forwardee,
      ShenandoahForwarding.get_forwardee_raw_unchecked, hsame]
  · simp only [ShenandoahForwarding.get_forwardee_raw,
      ShenandoahForwarding.get_forwardee_raw_unchecked, hsame]

theorem get_forwardee_pure_read_witness :
    ShenandoahForwarding.get_forwardee
        (fun a => if a = 0x1000 then 0x2003 else 7) 0x1000 =
      ShenandoahForwarding.get_forwardee PreservedMarksSet.sampleForwardedMemory 0x1000 :=
  (get_forwardee_pure_read PreservedMarksSet.sampleForwardedMemory
    (fun a => if a = 0x1000 then 0x2003 else 7) 0x1000 (by decide)).2.2.1

/-! ## Decoding the mark word -/

theorem and_low_bits (m k : Nat) (hk : k < 8) : m &&& k = (m % 8) &&& k := by
  apply Nat.eq_of_testBit_eq
  intro i
  have h8 : (8 : Nat) = 2 ^ 3 := by norm_num
  rw [Nat.testBit_and, Nat.testBit_and, h8, Nat.testBit_mod_two_pow]
  by_cases hi : i < 3
  · simp [hi]
  · have hki : k.testBit i = false := by
      apply Nat.testBit_eq_false_of_lt
      calc k < 2 ^ 3 := by omega
        _ ≤ 2 ^ i := Nat.pow_le_pow_right (by norm_num) (by omega)
    simp [hki]

theorem print_on_mod (m : Nat) : markWord.print_on m = markWord.print_on (m % 8) := by
  have h3 : m % 8 % 8 = m % 8 := Nat.mod_mod _ _
  simp only [markWord.print_on, markWord.is_marked, markWord.has_monitor, markWord.is_locked,
    markWord.is_neutral, markWord.has_bias_pattern, markWord.lock_mask_in_place,
    markWord.biased_lock_mask_in_place, markWord.lock_bits, markWord.biased_lock_bits,
    markWord.monitor_value]
  norm_num
  rw [and_low_bits m 3 (by norm_num), and_low_bits m 2 (by norm_num),
    and_low_bits m 7 (by norm_num), and_low_bits (m % 8) 3 (by norm_num),
    and_low_bits (m % 8) 2 (by norm_num), and_low_bits (m % 8) 7 (by norm_num), h3]

/-- C25: for every word the decoding of `markWord::print_on` depends on the low three
bits alone and never reaches the branch that prints "??": it selects marked exactly for
the lock bits 11, monitor exactly for 10, stack-locked exactly for 00, neutral exactly
for the low bits 001 and biased exactly for 101, so exactly one of the five
interpretations is chosen; and every word for which `has_monitor` holds also
satisfies `is_locked`, which is why `has_monitor` is tested first. -/
theorem print_on_selects_one (m : Nat) :
    markWord.print_on m = markWord.print_on (m % 8) ∧
    markWord.print_on m ≠ markWord.Interpretation.unknown ∧
    (markWord.print_on m = markWord.Interpretation.marked ↔ m % 4 = 3) ∧
    (markWord.print_on m = markWord.Interpretation.monitor ↔ m % 4 = 2) ∧
    (markWord.print_on m = markWord.Interpretation.locked ↔ m % 4 = 0) ∧
    (markWord.print_on m = markWord.Interpretation.neutral ↔ m % 8 = 1) ∧
    (markWord.print_on m = markWord.Interpretation.biased ↔ m % 8 = 5) ∧
    (!markWord.has_monitor m || markWord.is_locked m) = true := by
  have hr : m % 8 < 8 := Nat.mod_lt _ (by norm_num)
  have h4 : m % 4 = m % 8 % 4 := (Nat.mod_mod_of_dvd m (by norm_num : 4 ∣ 8)).symm
  have hmon : markWord.has_monitor m = markWord.has_monitor (m % 8) := by
    have e := and_low_bits m 2 (by norm_num)
    simp only [markWord.has_monitor, markWord.monitor_value, e]
  have hlock : markWord.is_locked m = markWord.is_locked (m % 8) := by
    have e : m &&& 2 ^ 2 - 1 = m % 8 &&& 2 ^ 2 - 1 := and_low_bits m 3 (by norm_num)
    simp only [markWord.is_locked, markWord.lock_mask_in_place, markWord.lock_bits, e]
  refine ⟨print_on_mod m, ?_⟩
  rw [print_on_mod m, h4, hmon, hlock]
  generalize m % 8 = r at hr
  interval_cases r <;> decide

/-! ## The result of a failed exchange in `try_update_forwardee` -/

theorem try_update_forwardee_cas_agrees (mem : Nat → Nat) (obj u old : Nat)
    (hu : u < W)
    (hlow : u &&& markWord.lock_mask_in_place = 0)
    (hobs : mem obj = old ∨ markWord.is_marked (mem obj) = true) :
    (ShenandoahForwarding.try_update_forwardee_cas mem obj u old).1 =
      ShenandoahForwarding.get_forwardee
        (ShenandoahForwarding.try_update_forwardee_cas mem obj u old).2 obj := by
  by_cases heq : mem obj = old
  · simp [ShenandoahForwarding.try_update_forwardee_cas, cas_set_mark_raw, heq,
      ShenandoahForwarding.get_forwardee, ShenandoahForwarding.get_forwardee_raw_unchecked,
      mark_raw, is_marked_encode, clear_encode hu hlow, markWord.to_pointer]
  · have hm : markWord.is_marked (mem obj) = true := by
      rcases hobs with h | h
      · exact absurd h heq
      · exact h
    simp [ShenandoahForwarding.try_update_forwardee_cas, cas_set_mark_raw, heq,
      ShenandoahForwarding.get_forwardee, ShenandoahForwarding.get_forwardee_raw_unchecked,
      mark_raw, hm, markWord.to_pointer]

/-- C26: the object at `0x1000` had the neutral header `0x29` when `try_update_forwardee`
loaded it, and a thread that is not a collector has stack-locked it since, so that the
compare-and-exchange finds the unmarked header `0x7000`.  The exchange fails, the call
returns `0x7000`, the lock record pointer with its lock bits cleared, while the header is
still unmarked and `get_forwardee` reads the object itself, `0x1000`: the result is
neither the candidate `0x2000` nor a pointer decoded from a marked header. -/
theorem try_update_forwardee_decodes_unmarked_header :
    markWord.is_marked 0x29 = false ∧
    (ShenandoahForwarding.try_update_forwardee_cas ShenandoahForwarding.sampleLockedMemory
      0x1000 0x2000 0x29).1 = 0x7000 ∧
    markWord.is_marked
      ((ShenandoahForwarding.try_update_forwardee_cas ShenandoahForwarding.sampleLockedMemory
        0x1000 0x2000 0x29).2 0x1000) = false ∧
    ShenandoahForwarding.get_forwardee
      (ShenandoahForwarding.try_update_forwardee_cas ShenandoahForwarding.sampleLockedMemory
        0x1000 0x2000 0x29).2 0x1000 = 0x1000 := by
  decide

/-! ## The mark register after `biased_locking_enter` with counters -/

/-- C27: with a counters argument, `biased_locking_enter` on an object whose header
`0x5005` is biased to another thread and whose class prototype `0x1` is no longer
biasable revokes the bias, falls through at `cas_label`, and leaves in the mark register
`O7` not the loaded mark `0x5005` but `0x9000`, the upper bits of the address of the
counter `revoked_lock_entry_count`, which the `sethi` of `inc_counter` has written there;
without counters the same call leaves the mark in the register. -/
theorem bias_enter_counters_clobber_mark :
    (sampleBiasMachine 0x5005 0x1).reg Register.O7 = 0x5005 ∧
    (biased_locking_enter sampleConfig Register.I0 Register.O7 Register.L0 false
      (some sampleConfig.BiasedLocking_counters) (sampleBiasMachine 0x5005 0x1)).1 =
        BiasExit.cas_label ∧
    (biased_locking_enter sampleConfig Register.I0 Register.O7 Register.L0 false
      (some sampleConfig.BiasedLocking_counters) (sampleBiasMachine 0x5005 0x1)).2.reg
        Register.O7 = 0x9000 ∧
    (biased_locking_enter sampleConfig Register.I0 Register.O7 Register.L0 false
      none (sampleBiasMachine 0x5005 0x1)).1 = BiasExit.cas_label ∧
    (biased_locking_enter sampleConfig Register.I0 Register.O7 Register.L0 false
      none (sampleBiasMachine 0x5005 0x1)).2.reg Register.O7 = 0x5005 := by
  decide

/-! ## Instruction counts of the constant-loading routines -/

theorem internal_sethi_length (value : Int) (rtype : relocInfo)
    (hrt : rtype = relocInfo.none ∨ rtype = relocInfo.runtime_call_type) :
    (internal_sethi ⟨value, rtype⟩ false).length = insts_for_sethi value false := by
  have hpad : ¬ (False ∨ (rtype ≠ relocInfo.none ∧ rtype ≠ relocInfo.runtime_call_type)) := by
    rcases hrt with h | h <;> simp [h]
  simp only [internal_sethi, insts_for_sethi, Bool.false_eq_true, if_neg hpad, if_false]
  split_ifs <;> rfl

/-- C28: for every value without relocation and with `ForceRelocatable` false, the code
of `internal_set`, the instructions that come from `internal_sethi` included, has
`insts_for_internal_set(value)` instructions (the calls of `insts_for_sethi` there
leave `worst_case` to its default, false); and for every address whose relocation asks
for no padding, the code of `internal_sethi` has `insts_for_sethi(a, false)`
instructions. -/
theorem insts_for_internal_set_in_sync (asm : Assembler) (value : Int) (rtype : relocInfo)
    (hdef : asm.worst_case = false)
    (hrt : rtype = relocInfo.none ∨ rtype = relocInfo.runtime_call_type) :
    (internal_set asm ⟨value, relocInfo.none⟩ false).length = insts_for_internal_set asm value ∧
    (internal_sethi ⟨value, rtype⟩ false).length = insts_for_sethi value false := by
  refine ⟨?_, internal_sethi_length value rtype hrt⟩
  have hs := internal_sethi_length value relocInfo.none (Or.inl rfl)
  simp only [internal_set, insts_for_internal_set, hdef]
  split_ifs <;> simp_all

theorem insts_for_internal_set_in_sync_witness :
    (internal_set sampleAssembler ⟨0x123456789abc, relocInfo.none⟩ false).length =
        insts_for_internal_set sampleAssembler 0x123456789abc ∧
      (internal_sethi ⟨0x123456789abc, relocInfo.runtime_call_type⟩ false).length =
        insts_for_sethi 0x123456789abc false :=
  insts_for_internal_set_in_sync sampleAssembler 0x123456789abc relocInfo.runtime_call_type
    rfl (Or.inr rfl)

theorem insts_for_set64_off_branch (asm : Assembler) (value : Int)
    (h : toJint (value >>> 32) >>> 2 = 0 → toJint (value >>> 32) = 0) :
    (set64 asm value).length = insts_for_set64 asm value := by
  simp only [set64, insts_for_set64]
  split_ifs <;> first | rfl | exact absurd (h (by assumption)) (by assumption)

/-- C29: for the value `0x100000001`, whose upper word is 1, `set64` takes its branch
`(hi >> 2) == 0` and emits at most three instructions (`sethi`, `sllx`, and an `or3`
when `low12(lo)` is not zero), while `insts_for_set64`, which has no such branch, counts
at least four; with the usual `low10` and `low12` the numbers are 3 and 6. -/
theorem insts_for_set64_misses_branch (asm : Assembler) :
    (set64 asm 0x100000001).length ≤ 3 ∧ 4 ≤ insts_for_set64 asm 0x100000001 ∧
    (set64 sampleAssembler 0x100000001).length = 3 ∧
    insts_for_set64 sampleAssembler 0x100000001 = 6 := by
  have hhi : toJint ((0x100000001 : Int) >>> 32) = 1 := by decide
  have hlo : toJint (jand (0x100000001 : Int) (-1)) = 1 := by decide
  have hsm : ¬ (is_simm 1 13 = true ∧ (0x100000001 : Int) = 1) := by decide
  have h10 : ¬ ((1 : Int) = 0) := by decide
  have h1m : ¬ ((1 : Int) = -1) := by decide
  have h12 : ((1 : Int) >>> 2) = 0 := by decide
  refine ⟨?_, ?_, by decide, by decide⟩
  · simp only [set64, hhi, hlo, if_neg hsm, if_neg h10, h12, if_true]
    split_ifs <;> decide
  · simp only [insts_for_set64, hhi, hlo, if_neg hsm, if_neg h10, if_neg h1m]
    split_ifs <;> decide

/-! ## Lock ranks -/

/-- C30: in `Monitor::lock_types` the ranks `event` (0) and `access` (1) are below
`special` (4), and so is `tty` (3), since `special` is defined as `tty + 1`; every
other rank is at least `special`. -/
theorem lock_types_tty_below_special :
    Monitor.lock_types.event < Monitor.lock_types.special ∧
    Monitor.lock_types.access < Monitor.lock_types.special ∧
    Monitor.lock_types.tty = 3 ∧ Monitor.lock_types.special = 4 ∧
    Monitor.lock_types.tty < Monitor.lock_types.special ∧
    Monitor.lock_types.special ≤ Monitor.lock_types.suspend_resume ∧
    Monitor.lock_types.special ≤ Monitor.lock_types.oopstorage ∧
    Monitor.lock_types.special ≤ Monitor.lock_types.leaf ∧
    Monitor.lock_types.special ≤ Monitor.lock_types.safepoint ∧
    Monitor.lock_types.special ≤ Monitor.lock_types.barrier ∧
    Monitor.lock_types.special ≤ Monitor.lock_types.nonleaf ∧
    Monitor.lock_types.special ≤ Monitor.lock_types.max_nonleaf ∧
    Monitor.lock_types.special ≤ Monitor.lock_types.native := by
  decide

end Hotspot
